import Mathlib

/-!
gptokeyb2: the configuration model of `src/config.c`.

A shallow embedding of the profile store (`config_init`, `config_find`,
`config_create`, `config_overlay_parent`, `config_overlay_named`), of the
binding-line parser `set_btn_config` (tokenizer and token dispatch) and of the
ingestion driver (`config_ini_handler`, `config_load`), followed by theorems about
them.

Conventions of the embedding.

* A C string (`const char *`) is the list of its characters before the
  terminating NUL.  `value[i]` at `i = strlen(value)` reads that NUL.
* The `cfg_name` field of a binding record is kept as the bytes of the char
  array (its first `MAX_CONTROL_NAME` bytes), because `strncpy` may leave it
  without a terminator; `cstr` reads the C string stored in such an array.
* The linked list of profiles is the Lean list of its nodes in linkage order; the
  head is `*root_config`, the empty list is `root_config == NULL`.  A pointer to a
  profile is its position in the list.
* What `gptokeyb2.h` and the lookup tables declare (they are not part of
  `config.c`) is a parameter, gathered in `Env`; the button lookup `find_button` of
  the driver is a parameter of its own.
* A config file is the list of the calls `ini_parse` makes to the handler: one
  (section, key, value) triple for every `key = value` line, in order.
-/

set_option autoImplicit false

namespace Gptokeyb

/-! ## Characters and C strings -/

/-- The terminating byte of a C string. -/
def NUL : Char := Char.ofNat 0

/-- The tab character, the separator written into `temp_buffer`. -/
def TAB : Char := Char.ofNat 9

/-- The double quote character. -/
def DQUOTE : Char := Char.ofNat 34

/-- The single quote character. -/
def SQUOTE : Char := Char.ofNat 39

/-- The test `strcasecmp(a, b) == 0`: equal after mapping `A`..`Z` to lower case. -/
def strcaseeq (a b : List Char) : Bool :=
  a.map Char.toLower == b.map Char.toLower

/-- Whether `p` is an initial segment of `s`. -/
def startsWith : List Char → List Char → Bool
  | [], _ => true
  | _ :: _, [] => false
  | a :: p, b :: s => a == b && startsWith p s

/-- Modelled from the spec: `strcasestartswith(s, p)` is declared in `gptokeyb2.h`
and defined outside `config.c`; the spec reads it as "`s` starts with `p`", compared
without regard to case as every other name comparison of the store. -/
def strcasestartswith (s p : List Char) : Bool :=
  startsWith (p.map Char.toLower) (s.map Char.toLower)

/-- The bytes of `strncpy(dst, src, n)` in `dst` afterwards, `src` being a C string:
exactly `n` bytes are written, the first `n` characters of `src` and then NUL
padding; the bytes of `dst` from index `n` on stay. -/
def strncpy (dst src : List Char) (n : Nat) : List Char :=
  src.take n ++ List.replicate (n - src.length) NUL ++ dst.drop n

/-- The C string stored in a char array: the bytes before the first NUL. -/
def cstr (a : List Char) : List Char :=
  a.takeWhile (fun c => c != NUL)

/-- What `snprintf(buf, size, "controls:%s", name)` leaves in `buf`: at most
`size - 1` characters of the formatted text. -/
def snprintf_controls (size : Nat) (name : List Char) : List Char :=
  ("controls:".toList ++ name).take (size - 1)

/-! ## Constants -/

/-- The capacity of `temp_buffer` in `set_btn_config`. -/
def MAX_TEMP_SIZE : Nat := 1024

/-- The table `gbtn_names`; a button identifier is an index into it. -/
def gbtn_names : List String :=
  ["a", "b", "x", "y", "l1", "l2", "l3", "r1", "r2", "r3", "start", "back", "guide",
   "up", "down", "left", "right",
   "left_analog_up", "left_analog_down", "left_analog_left", "left_analog_right",
   "right_analog_up", "right_analog_down", "right_analog_left", "right_analog_right",
   "(max)", "dpad", "left_analog", "right_analog"]

/-- The table `act_names`; an action is an index into it. -/
def act_names : List String :=
  ["(none)", "parent", "mouse_slow", "mouse_move", "hold_state", "state_push",
   "state_set", "state_pop"]

/-- Button `up`. -/
def GBTN_DPAD_UP : Nat := 13
/-- Button `down`. -/
def GBTN_DPAD_DOWN : Nat := 14
/-- Button `left`. -/
def GBTN_DPAD_LEFT : Nat := 15
/-- Button `right`. -/
def GBTN_DPAD_RIGHT : Nat := 16
/-- Button `left_analog_up`. -/
def GBTN_LEFT_ANALOG_UP : Nat := 17
/-- Button `left_analog_right`. -/
def GBTN_LEFT_ANALOG_RIGHT : Nat := 20
/-- Button `right_analog_up`. -/
def GBTN_RIGHT_ANALOG_UP : Nat := 21
/-- Button `right_analog_right`. -/
def GBTN_RIGHT_ANALOG_RIGHT : Nat := 24
/-- The number of concrete buttons, `(max)` in `gbtn_names`. -/
def GBTN_MAX : Nat := 25
/-- The composite button `dpad`. -/
def GBTN_DPAD : Nat := 26
/-- The composite button `left_analog`. -/
def GBTN_LEFT_ANALOG : Nat := 27
/-- The composite button `right_analog`. -/
def GBTN_RIGHT_ANALOG : Nat := 28

/-- Action `(none)`. -/
def ACT_NONE : Nat := 0
/-- Action `parent`. -/
def ACT_PARENT : Nat := 1
/-- Action `mouse_slow`. -/
def ACT_MOUSE_SLOW : Nat := 2
/-- Action `mouse_move`. -/
def ACT_MOUSE_MOVE : Nat := 3
/-- Action `hold_state`. -/
def ACT_STATE_HOLD : Nat := 4
/-- Action `state_push`. -/
def ACT_STATE_PUSH : Nat := 5
/-- Action `state_set`. -/
def ACT_STATE_SET : Nat := 6
/-- Action `state_pop`. -/
def ACT_STATE_POP : Nat := 7

/-- An entry of the key table, as `find_keyboard` returns it. -/
structure keyboard_values where
  keycode : Int
  modifier : Nat
  deriving DecidableEq

/-- What `config.c` takes from `gptokeyb2.h`, the input event codes and the key
table: the length bound of names, the modifier bits, the arrow key codes and the
key-name lookup. -/
structure Env where
  MAX_CONTROL_NAME : Nat
  MOD_ALT : Nat
  MOD_SHIFT : Nat
  MOD_CTRL : Nat
  KEY_UP : Int
  KEY_DOWN : Int
  KEY_LEFT : Int
  KEY_RIGHT : Int
  find_keyboard : List Char → Option keyboard_values

/-! ## Data model -/

/-- A binding record, `gptokeyb_button`. -/
structure gptokeyb_button where
  keycode : Int
  modifier : Nat
  action : Nat
  «repeat» : Bool
  cfg_name : List Char
  deriving DecidableEq

/-- A profile, `gptokeyb_config`, without its `next` pointer: the name, the
`map_check` flag and the array of binding records, as a memory indexed by the
button identifier. -/
structure gptokeyb_config where
  name : List Char
  map_check : Bool
  button : Nat → gptokeyb_button

/-- The chain of profiles from `root_config` on. -/
abbrev Store := List gptokeyb_config

/-- `config->button[i]` rewritten by `f`. -/
def setButton (config : gptokeyb_config) (i : Nat)
    (f : gptokeyb_button → gptokeyb_button) : gptokeyb_config :=
  { config with button := Function.update config.button i (f (config.button i)) }

/-- A binding record after `memset(.., 0, ..)`. -/
def zero_button (E : Env) : gptokeyb_button :=
  { keycode := 0, modifier := 0, action := 0, «repeat» := false,
    cfg_name := List.replicate E.MAX_CONTROL_NAME NUL }

/-- A profile after `memset(.., 0, ..)`. -/
def zero_config (E : Env) : gptokeyb_config :=
  { name := [], map_check := false, button := fun _ => zero_button E }

/-! ## special_button_min, special_button_max -/

/-- The function `special_button_min`. -/
def special_button_min (btn : Nat) : Nat :=
  if btn = GBTN_DPAD then GBTN_DPAD_UP
  else if btn = GBTN_LEFT_ANALOG then GBTN_LEFT_ANALOG_UP
  else if btn = GBTN_RIGHT_ANALOG then GBTN_RIGHT_ANALOG_UP
  else 0

/-- The function `special_button_max`. -/
def special_button_max (btn : Nat) : Nat :=
  if btn = GBTN_DPAD then GBTN_DPAD_RIGHT + 1
  else if btn = GBTN_LEFT_ANALOG then GBTN_LEFT_ANALOG_RIGHT + 1
  else if btn = GBTN_RIGHT_ANALOG then GBTN_RIGHT_ANALOG_RIGHT + 1
  else 0

/-- The loop `for (sbtn = special_button_min(btn); sbtn < special_button_max(btn); sbtn++)`
with body `config->button[sbtn] = f (sbtn - special_button_min(btn)) config->button[sbtn]`;
the first argument of `f` is the counter `i` that two of the loops run beside `sbtn`. -/
def for_special (btn : Nat) (f : Nat → gptokeyb_button → gptokeyb_button)
    (config : gptokeyb_config) : gptokeyb_config :=
  (List.range' (special_button_min btn) (special_button_max btn - special_button_min btn)).foldl
    (fun c sbtn => setButton c sbtn (f (sbtn - special_button_min btn))) config

/-! ## The profile store -/

/-- The function `config_init`: the store holds the root profile, zeroed and
named `controls`. -/
def config_init (E : Env) : Store :=
  [{ zero_config E with name := "controls".toList }]

/-- The loop of `config_overlay_parent`, one button. -/
def overlay_parent_step (current : gptokeyb_config) (btn : Nat) : gptokeyb_config :=
  setButton current btn (fun b => { b with keycode := 0, modifier := 0, action := ACT_PARENT })

/-- The function `config_overlay_parent`. -/
def config_overlay_parent (current : gptokeyb_config) : gptokeyb_config :=
  (List.range GBTN_MAX).foldl overlay_parent_step current

/-- The search loop of `config_find`: the position of the first profile of the
chain, counted from `i`, whose name equals `name` without regard to case. -/
def find_loop (name : List Char) : List gptokeyb_config → Nat → Option Nat
  | [], _ => none
  | current :: next, i =>
    if strcaseeq current.name name then some i else find_loop name next (i + 1)

/-- The name `config_find` searches for when the shortcut does not apply. -/
def nice_name (E : Env) (name : List Char) : List Char :=
  if !strcasestartswith name "controls:".toList then
    snprintf_controls (E.MAX_CONTROL_NAME - 1) name
  else name

/-- The function `config_find`; `none` is `NULL`. -/
def config_find (E : Env) (store : Store) (name : List Char) : Option Nat :=
  if strcaseeq "controls".toList name then
    match store with
    | [] => none
    | _ :: _ => some 0
  else find_loop (nice_name E name) store 0

/-- The name `config_create` gives a new profile: `snprintf` or `strncpy` into
the zeroed `name` field. -/
def created_name (E : Env) (name : List Char) : List Char :=
  if !strcasestartswith name "controls:".toList then
    snprintf_controls (E.MAX_CONTROL_NAME - 1) name
  else name.take (E.MAX_CONTROL_NAME - 1)

/-- The function `config_create`: the store afterwards and the profile returned.
With `root_config == NULL` the C code dereferences a null pointer; the store is
then returned as it is. -/
def config_create (E : Env) (store : Store) (name : List Char) : Store × Nat :=
  match config_find E store name with
  | some result => (store, result)
  | none =>
    match store with
    | [] => ([], 0)
    | root :: next => (root :: { zero_config E with name := created_name E name } :: next, 1)

/-- The body of the loop of `config_overlay_named` for one button. -/
def overlay_named_step (E : Env) (other current : gptokeyb_config) (btn : Nat) :
    gptokeyb_config :=
  let c1 := setButton current btn (fun b =>
    { b with keycode := (other.button btn).keycode,
             modifier := (other.button btn).modifier,
             action := (other.button btn).action })
  if (c1.button btn).action ≥ ACT_STATE_HOLD then
    { setButton c1 btn (fun b =>
        { b with cfg_name :=
            strncpy b.cfg_name (cstr (other.button btn).cfg_name) (E.MAX_CONTROL_NAME - 1) })
      with map_check := true }
  else c1

/-- The loop of `config_overlay_named` over all concrete buttons. -/
def overlay_named_loop (E : Env) (other current : gptokeyb_config) : gptokeyb_config :=
  (List.range GBTN_MAX).foldl (overlay_named_step E other) current

/-- The function `config_overlay_named`, `current` being a pointer into the store. -/
def config_overlay_named (E : Env) (store : Store) (current : Nat) (name : List Char) :
    Store :=
  match config_find E store name with
  | none => store
  | some other =>
    if current = other then store
    else
      match store[current]?, store[other]? with
      | some cur, some oth => store.set current (overlay_named_loop E oth cur)
      | _, _ => store

/-! ## The tokenizer of set_btn_config -/

/-- The byte `value[i]`; at and past the end of the string it is the NUL. -/
def charAt (value : List Char) (i : Nat) : Char :=
  value.getD i NUL

/-- The clipped `value_len` of `set_btn_config`. -/
def value_len (value : List Char) : Nat :=
  if value.length > MAX_TEMP_SIZE - 1 then MAX_TEMP_SIZE - 1 else value.length

/-- A space or a tab. -/
def isBlank (c : Char) : Bool :=
  c == ' ' || c == TAB

/-- The loops `while (P(value[i]) && i < value_len) temp_buffer[t++] = value[i++];`
(the quoted run and the unquoted run): the index and the buffer afterwards.  The
first argument bounds the number of rounds. -/
def copy_while (value : List Char) (vlen : Nat) (P : Char → Bool) :
    Nat → Nat → List Char → Nat × List Char
  | 0, i, buf => (i, buf)
  | fuel + 1, i, buf =>
    if P (charAt value i) && decide (i < vlen) then
      copy_while value vlen P fuel (i + 1) (buf ++ [charAt value i])
    else (i, buf)

/-- The loop `while ((value[i] == ' ' || value[i] == '\t') && i < value_len) i++;`:
the index afterwards.  The first argument bounds the number of rounds. -/
def skip_blank (value : List Char) (vlen : Nat) : Nat → Nat → Nat
  | 0, i => i
  | fuel + 1, i =>
    if isBlank (charAt value i) && decide (i < vlen) then skip_blank value vlen fuel (i + 1)
    else i

/-- The loop `while (i < value_len)` of `set_btn_config`, which fills
`temp_buffer`; `buf` holds the bytes written so far, so `t = buf.length` and
`temp_buffer[t-1]` is its last element.  The first argument bounds the number of
rounds; every round advances `i`, so `value_len` rounds are enough. -/
def tokenize_loop (value : List Char) (vlen : Nat) : Nat → Nat → List Char → List Char
  | 0, _, buf => buf
  | fuel + 1, i, buf =>
    if i < vlen then
      if charAt value i = DQUOTE ∨ charAt value i = SQUOTE then
        let c := charAt value i
        let r := copy_while value vlen (fun x => x != c) vlen (i + 1) buf
        tokenize_loop value vlen fuel (r.1 + 1) (r.2 ++ [TAB])
      else if charAt value i = ' ' ∨ charAt value i = TAB then
        let buf1 := if buf ≠ [] ∧ buf.getLast? ≠ some TAB then buf ++ [TAB] else buf
        tokenize_loop value vlen fuel (skip_blank value vlen vlen (i + 1)) buf1
      else
        let r := copy_while value vlen (fun x => x != ' ' && x != TAB) vlen (i + 1)
          (buf ++ [charAt value i])
        tokenize_loop value vlen fuel r.1 r.2
    else buf

/-- The contents of `temp_buffer` (before its terminator) when the tokenizer loop of
`set_btn_config` is done. -/
def tokenize (value : List Char) : List Char :=
  tokenize_loop value (value_len value) (value_len value) 0 []

/-- The tokens `strtok(.., "\t")` yields on a buffer, in order: the maximal
non-empty runs of bytes other than the tab.  `cur` is the run being read. -/
def strtok_go : List Char → List Char → List (List Char)
  | [], cur => if cur = [] then [] else [cur]
  | c :: cs, cur =>
    if c = TAB then
      if cur = [] then strtok_go cs [] else cur :: strtok_go cs []
    else strtok_go cs (cur ++ [c])

/-- All tokens of a buffer: `strtok(temp_buffer, "\t")`, then `strtok(NULL, "\t")`
until it yields `NULL`. -/
def strtok_all (buf : List Char) : List (List Char) :=
  strtok_go buf []

/-- The sequence of tokens that the dispatch loop of `set_btn_config` sees for a
value. -/
def tokens (value : List Char) : List (List Char) :=
  strtok_all (tokenize value)

/-! ## The token dispatch of set_btn_config -/

/-- The branch `modifier |= m`, on the button or on the range of a composite one. -/
def add_modifier (btn m : Nat) (config : gptokeyb_config) : gptokeyb_config :=
  if btn ≥ GBTN_MAX then
    for_special btn (fun _ b => { b with modifier := b.modifier ||| m }) config
  else setButton config btn (fun b => { b with modifier := b.modifier ||| m })

/-- The branch `repeat = true`, on the button or on the range of a composite one. -/
def set_repeat (btn : Nat) (config : gptokeyb_config) : gptokeyb_config :=
  if btn ≥ GBTN_MAX then
    for_special btn (fun _ b => { b with «repeat» := true }) config
  else setButton config btn (fun b => { b with «repeat» := true })

/-- The stores of the three directives that take a profile name: the action, the
name copied by `strncpy(.., token, MAX_CONTROL_NAME)`, and `map_check`. -/
def set_state_binding (E : Env) (btn act : Nat) (token : List Char)
    (config : gptokeyb_config) : gptokeyb_config :=
  { setButton config btn (fun b =>
      { b with action := act, cfg_name := strncpy b.cfg_name token E.MAX_CONTROL_NAME })
    with map_check := true }

/-- The array `keycodes` of the `arrow_keys` branch, read at `i`. -/
def arrow_keycodes (E : Env) (i : Nat) : Int :=
  [E.KEY_UP, E.KEY_DOWN, E.KEY_LEFT, E.KEY_RIGHT].getD i 0

/-- The branches of the `if` / `else if` chain in the dispatch loop of
`set_btn_config`; `key` is the final `else`, the key-name attempt. -/
inductive Branch
  | mouse_slow
  | hold_state
  | push_state
  | set_state
  | pop_state
  | add_alt
  | add_ctrl
  | add_shift
  | set_repeat
  | key
  deriving DecidableEq

/-- The branch of the `if` / `else if` chain that takes `token`: the `strcasecmp`
tests of the dispatch loop, in the order of the C code. -/
def branch_of (first_run : Bool) (token : List Char) : Branch :=
  if strcaseeq token "mouse_slow".toList then Branch.mouse_slow
  else if strcaseeq token "hold_state".toList then Branch.hold_state
  else if strcaseeq token "push_state".toList then Branch.push_state
  else if strcaseeq token "set_state".toList then Branch.set_state
  else if strcaseeq token "pop_state".toList then Branch.pop_state
  else if strcaseeq token "add_alt".toList
      || (!first_run && strcaseeq token "alt".toList) then Branch.add_alt
  else if strcaseeq token "add_ctrl".toList
      || (!first_run && strcaseeq token "ctrl".toList) then Branch.add_ctrl
  else if strcaseeq token "add_shift".toList
      || (!first_run && strcaseeq token "shift".toList) then Branch.add_shift
  else if strcaseeq token "repeat".toList then Branch.set_repeat
  else Branch.key

/-- The loop `while (token != NULL)` of `set_btn_config` over the tokens still to
come, the first of them being `token`.  A `return` of the C code ends the loop with
the profile as it is; the `continue` of the `set_state` branch is taken with
`token == NULL`, which ends the loop as well. -/
def token_loop (E : Env) (btn : Nat) :
    Bool → List (List Char) → gptokeyb_config → gptokeyb_config
  | _, [], config => config
  | first_run, token :: rest, config =>
    match branch_of first_run token with
    | Branch.mouse_slow =>
      if btn ≥ GBTN_MAX then config
      else token_loop E btn false rest
        (setButton config btn (fun b => { b with action := ACT_MOUSE_SLOW }))
    | Branch.hold_state =>
      if btn ≥ GBTN_MAX then config
      else
        match rest with
        | [] => config
        | arg :: rest1 =>
          token_loop E btn false rest1 (set_state_binding E btn ACT_STATE_HOLD arg config)
    | Branch.push_state =>
      if btn ≥ GBTN_MAX then config
      else
        match rest with
        | [] => config
        | arg :: rest1 =>
          token_loop E btn false rest1 (set_state_binding E btn ACT_STATE_PUSH arg config)
    | Branch.set_state =>
      match rest with
      | [] => config
      | arg :: rest1 =>
        if btn ≥ GBTN_MAX then config
        else token_loop E btn false rest1 (set_state_binding E btn ACT_STATE_PUSH arg config)
    | Branch.pop_state =>
      if btn ≥ GBTN_MAX then config
      else token_loop E btn false rest
        (setButton config btn (fun b => { b with action := ACT_STATE_POP }))
    | Branch.add_alt => token_loop E btn false rest (add_modifier btn E.MOD_ALT config)
    | Branch.add_ctrl => token_loop E btn false rest (add_modifier btn E.MOD_CTRL config)
    | Branch.add_shift => token_loop E btn false rest (add_modifier btn E.MOD_SHIFT config)
    | Branch.set_repeat => token_loop E btn false rest (set_repeat btn config)
    | Branch.key =>
      match E.find_keyboard token with
      | some key =>
        if btn ≥ GBTN_MAX then
          token_loop E btn false rest
            (for_special btn (fun _ b => { b with keycode := key.keycode, action := ACT_NONE })
              config)
        else
          token_loop E btn false rest
            (setButton config btn (fun b => { b with keycode := key.keycode, action := ACT_NONE }))
      | none =>
        if strcaseeq token "mouse_movement".toList then
          if btn ≥ GBTN_MAX then
            token_loop E btn false rest
              (for_special btn (fun _ b => { b with keycode := 0, action := ACT_MOUSE_MOVE })
                config)
          else config
        else if strcaseeq token "arrow_keys".toList then
          if btn ≥ GBTN_MAX then
            token_loop E btn false rest
              (for_special btn
                (fun i b => { b with keycode := arrow_keycodes E i, action := ACT_NONE }) config)
          else config
        else token_loop E btn false rest config

/-- The function `set_btn_config` on the profile `config` points to (its parameter
`name` is not used by the C code and is left out). -/
def set_btn_config (E : Env) (config : gptokeyb_config) (btn : Nat) (value : List Char) :
    gptokeyb_config :=
  if value.length = 0 then config
  else token_loop E btn true (tokens value) config


/-! ## Auxiliary definitions used to state and prove the theorems -/

/-- The part of the value the tokenizer has still to read when its index is `i`:
the value clipped to `vlen` bytes, from `i` on. -/
def suffixAt (value : List Char) (vlen i : Nat) : List Char :=
  (value.take vlen).drop i

/-- The tokenizer loop read as a function of the unread part of the value instead
of the index; `tokenize_loop_eq_tokL` shows that `tokenize_loop` computes it. -/
def tokL : Nat → List Char → List Char → List Char
  | 0, _, buf => buf
  | _ + 1, [], buf => buf
  | fuel + 1, ch :: rest, buf =>
    if ch = DQUOTE ∨ ch = SQUOTE then
      tokL fuel ((rest.dropWhile (fun x => x != ch)).drop 1)
        (buf ++ rest.takeWhile (fun x => x != ch) ++ [TAB])
    else if ch = ' ' ∨ ch = TAB then
      tokL fuel (rest.dropWhile isBlank)
        (if buf ≠ [] ∧ buf.getLast? ≠ some TAB then buf ++ [TAB] else buf)
    else
      tokL fuel (rest.dropWhile (fun x => x != ' ' && x != TAB))
        (buf ++ ch :: rest.takeWhile (fun x => x != ' ' && x != TAB))

/-- An unquoted word: not empty, and without space, tab, single or double quote. -/
def IsWord (w : List Char) : Prop :=
  w ≠ [] ∧ ∀ c ∈ w, c ≠ ' ' ∧ c ≠ TAB ∧ c ≠ SQUOTE ∧ c ≠ DQUOTE

instance (w : List Char) : Decidable (IsWord w) := by
  unfold IsWord; infer_instance

/-- A run of spaces and tabs, possibly empty. -/
def IsBlankRun (s : List Char) : Prop :=
  ∀ c ∈ s, c = ' ' ∨ c = TAB

instance (s : List Char) : Decidable (IsBlankRun s) := by
  unfold IsBlankRun; infer_instance

/-- The text `sep₁ w₁ sep₂ w₂ ...` of a list of (separator, word) pairs. -/
def sepWords : List (List Char × List Char) → List Char
  | [] => []
  | sw :: more => sw.1 ++ sw.2 ++ sepWords more

/-- The buffer text `\t w₁ \t w₂ ...` for a list of (separator, word) pairs. -/
def tabWords : List (List Char × List Char) → List Char
  | [] => []
  | sw :: more => TAB :: sw.2 ++ tabWords more

/-- Header values and a small key table used for the concrete instances: names of
at most 63 characters, one bit per modifier, the Linux codes of the arrow keys,
and the keys `f1` and `h`. -/
def sampleEnv : Env :=
  { MAX_CONTROL_NAME := 64, MOD_ALT := 1, MOD_SHIFT := 2, MOD_CTRL := 4,
    KEY_UP := 103, KEY_DOWN := 108, KEY_LEFT := 105, KEY_RIGHT := 106,
    find_keyboard := fun token =>
      if strcaseeq token "f1".toList then some { keycode := 59, modifier := 0 }
      else if strcaseeq token "h".toList then some { keycode := 35, modifier := 0 }
      else none }

/-- The single stores the dispatch loop of `set_btn_config` makes for one token on
the target `btn`: `Step E btn c c1` when one branch of the loop turns the profile
`c` into `c1`. -/
inductive Step (E : Env) (btn : Nat) : gptokeyb_config → gptokeyb_config → Prop
  | mouse_slow (c : gptokeyb_config) (h : btn < GBTN_MAX) :
      Step E btn c (setButton c btn (fun b => { b with action := ACT_MOUSE_SLOW }))
  | state_hold (c : gptokeyb_config) (arg : List Char) (h : btn < GBTN_MAX) :
      Step E btn c (set_state_binding E btn ACT_STATE_HOLD arg c)
  | state_push (c : gptokeyb_config) (arg : List Char) (h : btn < GBTN_MAX) :
      Step E btn c (set_state_binding E btn ACT_STATE_PUSH arg c)
  | state_pop (c : gptokeyb_config) (h : btn < GBTN_MAX) :
      Step E btn c (setButton c btn (fun b => { b with action := ACT_STATE_POP }))
  | modifier (c : gptokeyb_config) (m : Nat)
      (h : m = E.MOD_ALT ∨ m = E.MOD_CTRL ∨ m = E.MOD_SHIFT) :
      Step E btn c (add_modifier btn m c)
  | set_repeat (c : gptokeyb_config) : Step E btn c (set_repeat btn c)
  | key_special (c : gptokeyb_config) (k : Int) (h : btn ≥ GBTN_MAX) :
      Step E btn c (for_special btn (fun _ b => { b with keycode := k, action := ACT_NONE }) c)
  | key (c : gptokeyb_config) (k : Int) (h : btn < GBTN_MAX) :
      Step E btn c (setButton c btn (fun b => { b with keycode := k, action := ACT_NONE }))
  | mouse_movement (c : gptokeyb_config) (h : btn ≥ GBTN_MAX) :
      Step E btn c
        (for_special btn (fun _ b => { b with keycode := 0, action := ACT_MOUSE_MOVE }) c)
  | arrow_keys (c : gptokeyb_config) (h : btn ≥ GBTN_MAX) :
      Step E btn c
        (for_special btn
          (fun i b => { b with keycode := arrow_keycodes E i, action := ACT_NONE }) c)

/-! ## The store: calls through a profile pointer, reachable stores -/

/-- The call `set_btn_config(p, btn, name, value)` with `p` a pointer into the store. -/
def store_set_btn (E : Env) (store : Store) (p btn : Nat) (value : List Char) : Store :=
  match store[p]? with
  | some c => store.set p (set_btn_config E c btn value)
  | none => store

/-- The call `config_overlay_parent(p)` with `p` a pointer into the store. -/
def store_overlay_parent (store : Store) (p : Nat) : Store :=
  match store[p]? with
  | some c => store.set p (config_overlay_parent c)
  | none => store

/-- The stores the program can be in: `config_init`, then any calls of
`config_create`, `set_btn_config`, `config_overlay_parent` and
`config_overlay_named` on profiles of the store. -/
inductive Reachable (E : Env) : Store → Prop
  | init : Reachable E (config_init E)
  | create (s : Store) (name : List Char) :
      Reachable E s → Reachable E (config_create E s name).1
  | set_btn (s : Store) (p btn : Nat) (value : List Char) :
      Reachable E s → Reachable E (store_set_btn E s p btn value)
  | overlay_parent (s : Store) (p : Nat) :
      Reachable E s → Reachable E (store_overlay_parent s p)
  | overlay_named (s : Store) (p : Nat) (name : List Char) :
      Reachable E s → Reachable E (config_overlay_named E s p name)

/-- The name normalization as the spec words it: `controls:` is put in front of the
name unless the name already starts with it (without regard to case).  The C code has
no such function; `nice_name` and `created_name` are what it computes. -/
def normalize (n : List Char) : List Char :=
  if strcasestartswith n "controls:".toList then n else "controls:".toList ++ n

/-- A record of the destination after the loop body of `config_overlay_named` ran for
it: `b` is the record before, `o` the record of the source. -/
def overlay_record (E : Env) (o b : gptokeyb_button) : gptokeyb_button :=
  { keycode := o.keycode, modifier := o.modifier, action := o.action, «repeat» := b.repeat,
    cfg_name :=
      if o.action ≥ ACT_STATE_HOLD then
        strncpy b.cfg_name (cstr o.cfg_name) (E.MAX_CONTROL_NAME - 1)
      else b.cfg_name }

/-- A prefixed name of 69 characters, longer than the 63 the sample header allows. -/
def longName : List Char :=
  "controls:".toList ++ List.replicate 60 'x'

/-- The store after `config_init` and two calls `config_create(longName)`, with
`mouse_slow` then bound to button `a` of the profile the second call returned. -/
def twinStore : Store :=
  store_set_btn sampleEnv
    (config_create sampleEnv (config_create sampleEnv (config_init sampleEnv) longName).1
      longName).1
    1 0 "mouse_slow".toList

/-- The store after `config_init`, `config_create("s")` and the binding
`a = hold_state xxx...` (64 times `x`) in the profile `controls:s`. -/
def longTargetStore : Store :=
  store_set_btn sampleEnv (config_create sampleEnv (config_init sampleEnv) "s".toList).1
    1 0 ("hold_state ".toList ++ List.replicate 64 'x')

/-- The root profile of the store of `config_init` under the sample header. -/
def sampleRoot : gptokeyb_config :=
  { zero_config sampleEnv with name := "controls".toList }

/-- The profile `controls:menu` with the binding `a = push_state x`. -/
def menuProfile : gptokeyb_config :=
  set_btn_config sampleEnv { zero_config sampleEnv with name := "controls:menu".toList } 0
    "push_state x".toList

/-- The store after `config_init`, `config_create("menu")` and the binding
`a = push_state x` in the profile `controls:menu`. -/
def menuStore : Store :=
  store_set_btn sampleEnv (config_create sampleEnv (config_init sampleEnv) "menu".toList).1
    1 0 "push_state x".toList

/-- The invariant of the names of a reachable store, in linkage order: the first is
`controls`, every other name starts with `controls:`, and two names that are equal
without regard to case have `MAX_CONTROL_NAME - 1` characters (such names arise when
`config_create` cuts a longer name). -/
def NamesOK (E : Env) (ns : List (List Char)) : Prop :=
  ∃ rest, ns = "controls".toList :: rest ∧
    (∀ n ∈ rest, strcasestartswith n "controls:".toList = true) ∧
    List.Pairwise (fun a b => strcaseeq a b = true → b.length = E.MAX_CONTROL_NAME - 1) ns


/-! ## The tokenizer with its memory accesses -/

/-- A run of a tokenizer loop with its memory accesses: the index `i` and the bytes
`buf` of `temp_buffer` afterwards, the indices at which `value` was read, and the
indices of `temp_buffer` that were written, in order. -/
structure Traced where
  i : Nat
  buf : List Char
  reads : List Nat
  writes : List Nat

/-- The loop of `copy_while` with its accesses: every test of the loop condition reads
`value[i]`, every round writes `temp_buffer[t]` with `t = buf.length`.  `none` when
the rounds allowed are used up before the loop has ended. -/
def copy_while_tr (value : List Char) (vlen : Nat) (P : Char → Bool) :
    Nat → Nat → List Char → Option Traced
  | 0, _, _ => none
  | fuel + 1, i, buf =>
    if P (charAt value i) && decide (i < vlen) then
      (copy_while_tr value vlen P fuel (i + 1) (buf ++ [charAt value i])).map
        (fun r => { r with reads := i :: r.reads, writes := buf.length :: r.writes })
    else some { i := i, buf := buf, reads := [i], writes := [] }

/-- The loop of `skip_blank` with its accesses; it writes nothing. -/
def skip_blank_tr (value : List Char) (vlen : Nat) : Nat → Nat → List Char → Option Traced
  | 0, _, _ => none
  | fuel + 1, i, buf =>
    if isBlank (charAt value i) && decide (i < vlen) then
      (skip_blank_tr value vlen fuel (i + 1) buf).map
        (fun r => { r with reads := i :: r.reads })
    else some { i := i, buf := buf, reads := [i], writes := [] }

/-- The loop `while (i < value_len)` of `set_btn_config` with its accesses; each round
reads `value[i]` for its tests.  `none` when the rounds allowed are used up while
`i < value_len` still holds. -/
def tokenize_loop_tr (value : List Char) (vlen : Nat) : Nat → Nat → List Char → Option Traced
  | 0, i, buf => if i < vlen then none else some { i := i, buf := buf, reads := [], writes := [] }
  | fuel + 1, i, buf =>
    if i < vlen then
      if charAt value i = DQUOTE ∨ charAt value i = SQUOTE then
        let c := charAt value i
        match copy_while_tr value vlen (fun x => x != c) vlen (i + 1) buf with
        | none => none
        | some r =>
          (tokenize_loop_tr value vlen fuel (r.i + 1) (r.buf ++ [TAB])).map
            (fun q => { q with reads := i :: r.reads ++ q.reads,
                               writes := r.writes ++ r.buf.length :: q.writes })
      else if charAt value i = ' ' ∨ charAt value i = TAB then
        let buf1 := if buf ≠ [] ∧ buf.getLast? ≠ some TAB then buf ++ [TAB] else buf
        let w1 := if buf ≠ [] ∧ buf.getLast? ≠ some TAB then [buf.length] else []
        match skip_blank_tr value vlen vlen (i + 1) buf1 with
        | none => none
        | some r =>
          (tokenize_loop_tr value vlen fuel r.i buf1).map
            (fun q => { q with reads := i :: r.reads ++ q.reads, writes := w1 ++ q.writes })
      else
        match copy_while_tr value vlen (fun x => x != ' ' && x != TAB) vlen (i + 1)
            (buf ++ [charAt value i]) with
        | none => none
        | some r =>
          (tokenize_loop_tr value vlen fuel r.i r.buf).map
            (fun q => { q with reads := i :: r.reads ++ q.reads,
                               writes := buf.length :: r.writes ++ q.writes })
    else some { i := i, buf := buf, reads := [], writes := [] }

/-- The tokenizer of `set_btn_config` with its accesses, the write of the terminator
`temp_buffer[t] = 0` included. -/
def tokenize_tr (value : List Char) : Option Traced :=
  (tokenize_loop_tr value (value_len value) (value_len value) 0 []).map
    (fun r => { r with writes := r.writes ++ [r.buf.length] })

/-! ## The ingestion driver: config_ini_handler and config_load -/

/-- Parser state `CFG_GPTK`. -/
def CFG_GPTK : Nat := 0
/-- Parser state `CFG_CONFIG`. -/
def CFG_CONFIG : Nat := 1
/-- Parser state `CFG_CONTROL`. -/
def CFG_CONTROL : Nat := 2
/-- Parser state `CFG_OTHER`. -/
def CFG_OTHER : Nat := 3

/-- The struct `config_parser`.  `last_section` is the C string held in the array of
`MAX_CONTROL_NAME` bytes, `current_config` a pointer into the store. -/
structure config_parser_t where
  state : Nat
  config_only : Bool
  last_section : List Char
  current_config : Nat

/-- The body that the `CFG_GPTK` and the `CFG_CONTROL` branch of `config_ini_handler`
both have: a button name binds the button in the current profile, the key `overlay`
overlays the current profile.  `find_button` is declared outside `config.c`; it is a
parameter and yields the `gbtn` of the entry it finds. -/
def control_line (E : Env) (find_button : List Char → Option Nat) (store : Store)
    (current : Nat) (name value : List Char) : Store :=
  match find_button name with
  | some gbtn => store_set_btn E store current gbtn value
  | none =>
    if strcaseeq name "overlay".toList then
      if strcaseeq value "parent".toList then store_overlay_parent store current
      else if strcaseeq value "clear".toList then store
      else if value.length > 0 then config_overlay_named E store current value
      else store
    else store

/-- The section change at the head of `config_ini_handler`, taken when
`strcmp(config->last_section, section) != 0`: the parser and the store afterwards.
`strncpy(.., MAX_CONTROL_NAME-1)` into the zeroed array leaves the first
`MAX_CONTROL_NAME - 1` characters of the section name. -/
def section_change (E : Env) (config : config_parser_t) (store : Store) (sect : List Char) :
    config_parser_t × Store :=
  if config.last_section ≠ sect then
    let config1 := { config with last_section := sect.take (E.MAX_CONTROL_NAME - 1) }
    if strcaseeq sect "config".toList then ({ config1 with state := CFG_CONFIG }, store)
    else if strcaseeq sect "controls".toList then
      ({ config1 with state := CFG_CONTROL, current_config := 0 }, store)
    else if strcasestartswith sect "controls:".toList then
      ({ config1 with state := CFG_CONTROL, current_config := (config_create E store sect).2 },
        (config_create E store sect).1)
    else ({ config1 with state := CFG_OTHER }, store)
  else (config, store)

/-- The function `config_ini_handler` on the parser `user` points to and the store:
both afterwards.  `sect` is its parameter `section`. -/
def config_ini_handler (E : Env) (find_button : List Char → Option Nat)
    (st : config_parser_t × Store) (sect name value : List Char) : config_parser_t × Store :=
  let st1 := section_change E st.1 st.2 sect
  if st1.1.state = CFG_GPTK then
    (st1.1, control_line E find_button st1.2 st1.1.current_config name value)
  else if st1.1.state = CFG_CONFIG then st1
  else if st1.1.state = CFG_CONTROL then
    (st1.1, control_line E find_button st1.2 st1.1.current_config name value)
  else st1

/-- The parser `config_load` sets up before it calls `ini_parse`. -/
def initial_parser_state (config_only : Bool) : config_parser_t :=
  { state := if config_only then CFG_CONFIG else CFG_GPTK, config_only := config_only,
    last_section := [], current_config := 0 }

/-- The function `config_load` on a file that `ini_parse` can read: `ini_parse` (of
`ini.h`) calls the handler once for every `name = value` line of the file, in order,
with the section the line is in; `file` lists these calls.  The parser and the store
afterwards. -/
def config_load_run (E : Env) (find_button : List Char → Option Nat)
    (file : List (List Char × List Char × List Char)) (config_only : Bool) (store : Store) :
    config_parser_t × Store :=
  file.foldl (fun st t => config_ini_handler E find_button st t.1 t.2.1 t.2.2)
    (initial_parser_state config_only, store)

/-- The store after `config_load`. -/
def config_load (E : Env) (find_button : List Char → Option Nat)
    (file : List (List Char × List Char × List Char)) (config_only : Bool) (store : Store) :
    Store :=
  (config_load_run E find_button file config_only store).2

/-- A button lookup for the examples: the names `a`, `b` and `dpad`. -/
def sample_find_button (name : List Char) : Option Nat :=
  if strcaseeq name "a".toList then some 0
  else if strcaseeq name "b".toList then some 1
  else if strcaseeq name "dpad".toList then some GBTN_DPAD
  else none

/-- A section name of 69 characters, as `longName`. -/
def longSection : List Char :=
  "controls:".toList ++ List.replicate 60 'z'

/-- A C string: no byte of it is the terminator. -/
def IsCString (s : List Char) : Prop :=
  ∀ c ∈ s, c ≠ NUL

instance (s : List Char) : Decidable (IsCString s) := by
  unfold IsCString
  infer_instance

/-- The stores the program can be in when the ingestion driver is counted in:
`config_init`, then any calls of `config_create`, `set_btn_config`,
`config_overlay_parent`, `config_overlay_named` and `config_ini_handler` (with its
parser in any state) on C strings. -/
inductive ReachableBy (E : Env) (find_button : List Char → Option Nat) : Store → Prop
  | init : ReachableBy E find_button (config_init E)
  | create (s : Store) (name : List Char) :
      ReachableBy E find_button s → ReachableBy E find_button (config_create E s name).1
  | set_btn (s : Store) (p btn : Nat) (value : List Char) (hv : IsCString value) :
      ReachableBy E find_button s → ReachableBy E find_button (store_set_btn E s p btn value)
  | overlay_parent (s : Store) (p : Nat) :
      ReachableBy E find_button s → ReachableBy E find_button (store_overlay_parent s p)
  | overlay_named (s : Store) (p : Nat) (name : List Char) :
      ReachableBy E find_button s →
      ReachableBy E find_button (config_overlay_named E s p name)
  | handler (s : Store) (config : config_parser_t) (sect name value : List Char)
      (hv : IsCString value) :
      ReachableBy E find_button s →
      ReachableBy E find_button (config_ini_handler E find_button (config, s) sect name value).2

/-! ## What a binding line does to one record -/

/-- The net effect of a sequence of stores on one binding record: a field is either
assigned or left; the modifier is assigned or left and then has bits added;
`repeat` is set or left; the target name is written by
`strncpy(.., MAX_CONTROL_NAME)` or left. -/
structure ButtonUpdate where
  keycode : Option Int
  modifier_set : Option Nat
  modifier_or : Nat
  action : Option Nat
  set_repeat : Bool
  name : Option (List Char)

/-- The record after the update. -/
def ButtonUpdate.apply (E : Env) (u : ButtonUpdate) (b : gptokeyb_button) :
    gptokeyb_button :=
  { keycode := u.keycode.getD b.keycode,
    modifier := u.modifier_set.getD b.modifier ||| u.modifier_or,
    action := u.action.getD b.action,
    «repeat» := b.repeat || u.set_repeat,
    cfg_name :=
      match u.name with
      | none => b.cfg_name
      | some t => strncpy b.cfg_name t E.MAX_CONTROL_NAME }

/-- The update that leaves a record as it is. -/
def ButtonUpdate.none : ButtonUpdate :=
  { keycode := Option.none, modifier_set := Option.none, modifier_or := 0,
    action := Option.none, set_repeat := false, name := Option.none }

/-- The update `u1` followed by the update `u2`. -/
def ButtonUpdate.comp (u2 u1 : ButtonUpdate) : ButtonUpdate :=
  { keycode := match u2.keycode with
      | some k => some k
      | Option.none => u1.keycode,
    modifier_set := match u2.modifier_set with
      | some m => some m
      | Option.none => u1.modifier_set,
    modifier_or := match u2.modifier_set with
      | some _ => u2.modifier_or
      | Option.none => u1.modifier_or ||| u2.modifier_or,
    action := match u2.action with
      | some a => some a
      | Option.none => u1.action,
    set_repeat := u1.set_repeat || u2.set_repeat,
    name := match u2.name with
      | some t => some t
      | Option.none => u1.name }

/-- The updates the dispatch loop can make when its name arguments satisfy `A`: a
name that is written satisfies `A`, and an action that needs a target profile is
only assigned together with a name. -/
def ButtonUpdate.Shape (A : List Char → Prop) (u : ButtonUpdate) : Prop :=
  (∀ t, u.name = some t → A t) ∧
  (∀ a, u.action = some a →
    (a = ACT_STATE_HOLD ∨ a = ACT_STATE_PUSH ∨ a = ACT_STATE_SET) → u.name ≠ Option.none)

/-- A function on profiles that updates every record on its own, keeps the name and
can only raise `map_check`. -/
def Regular (E : Env) (A : List Char → Prop) (f : gptokeyb_config → gptokeyb_config) :
    Prop :=
  ∃ (u : Nat → ButtonUpdate) (mc : Bool), (∀ i, (u i).Shape A) ∧
    ∀ c, f c = { name := c.name, map_check := c.map_check || mc,
                 button := fun i => (u i).apply E (c.button i) }

/-- A token that can be a name argument of the dispatch loop when the value is a C
string: it is not empty and does not start with the terminator. -/
def GoodToken (t : List Char) : Prop :=
  ∃ ch rest, t = ch :: rest ∧ ch ≠ NUL

/-- A binding record that names its target: when the action is `hold_state`,
`state_push` or `state_set`, the string in `cfg_name` is not empty. -/
def HasTarget (b : gptokeyb_button) : Prop :=
  (b.action = ACT_STATE_HOLD ∨ b.action = ACT_STATE_PUSH ∨ b.action = ACT_STATE_SET) →
    cstr b.cfg_name ≠ []

/-- Every record of every profile of the store names its target. -/
def StoreHasTargets (s : Store) : Prop :=
  ∀ c ∈ s, ∀ i, HasTarget (c.button i)

/-! ## The driver as a sequence of store operations -/

/-- What a line of the file asks of the store: to make the root the current profile
(a section `controls`), to make the profile `config_create` returns for a name the
current profile (a section `controls:<name>`), or to rewrite the current profile (a
binding line or `overlay = parent`). -/
inductive StoreOp
  | select_root
  | select_created (name : List Char)
  | update (f : gptokeyb_config → gptokeyb_config)

/-- The current profile and the store after an operation. -/
def StoreOp.run (E : Env) (st : Nat × Store) : StoreOp → Nat × Store
  | StoreOp.select_root => (0, st.2)
  | StoreOp.select_created name =>
    ((config_create E st.2 name).2, (config_create E st.2 name).1)
  | StoreOp.update f =>
    (st.1, match st.2[st.1]? with
      | some c => st.2.set st.1 (f c)
      | none => st.2)

/-- The state and `last_section` of the parser after the section change at the head of
`config_ini_handler`; neither depends on the store. -/
def section_mode (E : Env) (mode : Nat × List Char) (sect : List Char) : Nat × List Char :=
  if mode.2 ≠ sect then
    (if strcaseeq sect "config".toList then CFG_CONFIG
     else if strcaseeq sect "controls".toList then CFG_CONTROL
     else if strcasestartswith sect "controls:".toList then CFG_CONTROL
     else CFG_OTHER, sect.take (E.MAX_CONTROL_NAME - 1))
  else mode

/-- The store operations of the section change. -/
def section_ops (mode : Nat × List Char) (sect : List Char) : List StoreOp :=
  if mode.2 ≠ sect then
    if strcaseeq sect "config".toList then []
    else if strcaseeq sect "controls".toList then [StoreOp.select_root]
    else if strcasestartswith sect "controls:".toList then [StoreOp.select_created sect]
    else []
  else []

/-- Whether a line is `overlay = <profile name>`: the key is no button name, it is
`overlay`, and the value is neither `parent` nor `clear` nor empty. -/
def is_named_overlay (find_button : List Char → Option Nat) (name value : List Char) : Bool :=
  (find_button name).isNone && strcaseeq name "overlay".toList &&
    !strcaseeq value "parent".toList && !strcaseeq value "clear".toList &&
    decide (value.length > 0)

/-- The store operations of a line in the states `CFG_GPTK` and `CFG_CONTROL`, when the
line is not `overlay = <profile name>`. -/
def control_ops (E : Env) (find_button : List Char → Option Nat) (name value : List Char) :
    List StoreOp :=
  match find_button name with
  | some gbtn => [StoreOp.update (fun c => set_btn_config E c gbtn value)]
  | none =>
    if strcaseeq name "overlay".toList then
      if strcaseeq value "parent".toList then [StoreOp.update config_overlay_parent]
      else []
    else []

/-- The store operations of one call of `config_ini_handler`, the parser being in the
state and with the `last_section` of `mode`. -/
def line_ops (E : Env) (find_button : List Char → Option Nat) (mode : Nat × List Char)
    (t : List Char × List Char × List Char) : List StoreOp :=
  section_ops mode t.1 ++
    (if (section_mode E mode t.1).1 = CFG_GPTK ∨ (section_mode E mode t.1).1 = CFG_CONTROL then
      control_ops E find_button t.2.1 t.2.2
     else [])

/-- The store operations of the calls of `config_ini_handler` for a file. -/
def file_ops (E : Env) (find_button : List Char → Option Nat) :
    Nat × List Char → List (List Char × List Char × List Char) → List StoreOp
  | _, [] => []
  | mode, t :: file =>
    line_ops E find_button mode t ++ file_ops E find_button (section_mode E mode t.1) file

/-- The key under which the store finds a profile by name: the name in lower case. -/
def name_key (n : List Char) : List Char :=
  n.map Char.toLower

/-- What a sequence of store operations does to the profile with the key `key`
(`none` is the root), the current profile having the key `cur`: the updates made
while that profile is the current one, in order. -/
def collect : List StoreOp → Option (List Char) → Option (List Char) →
    gptokeyb_config → gptokeyb_config
  | [], _, _, c => c
  | StoreOp.select_root :: ops, _, key, c => collect ops none key c
  | StoreOp.select_created name :: ops, _, key, c => collect ops (some (name_key name)) key c
  | StoreOp.update f :: ops, cur, key, c =>
    if cur = key then collect ops cur key (f c) else collect ops cur key c

/-- The names of the profiles a sequence of store operations creates, in the order of
their creation, `existing` being the keys of the profiles the store has. -/
def created_names : List StoreOp → List (List Char) → List (List Char)
  | [], _ => []
  | StoreOp.select_root :: ops, existing => created_names ops existing
  | StoreOp.update _ :: ops, existing => created_names ops existing
  | StoreOp.select_created name :: ops, existing =>
    if name_key name ∈ existing then created_names ops existing
    else name :: created_names ops (name_key name :: existing)


/-- A file for the examples: a binding in `controls`, two lines in `controls:menu`, a
line in `config`, and a further binding in `controls`. -/
def sampleFile : List (List Char × List Char × List Char) :=
  [("controls".toList, "a".toList, "f1".toList),
   ("controls:menu".toList, "b".toList, "h add_alt".toList),
   ("controls:menu".toList, "a".toList, "hold_state game".toList),
   ("config".toList, "a".toList, "h".toList),
   ("controls".toList, "b".toList, "f1 repeat".toList)]

/-- A file in which the profile `controls:x` overlays the profile `controls:y`, whose
section comes later in the file. -/
def overlayFile : List (List Char × List Char × List Char) :=
  [("controls:x".toList, "overlay".toList, "y".toList),
   ("controls:y".toList, "a".toList, "f1".toList)]

/-- A file with two lines in a section whose name is longer than the name field. -/
def longSectionFile : List (List Char × List Char × List Char) :=
  [(longSection, "a".toList, "f1".toList), (longSection, "b".toList, "h".toList)]

/-- The root profile of the sample header with the binding `a = f1 repeat`. -/
def repeatRoot : gptokeyb_config :=
  set_btn_config sampleEnv sampleRoot 0 "f1 repeat".toList

/-- A store of two profiles: the root with `a = f1 repeat`, and `controls:menu` with
`a = push_state x`. -/
def repeatStore : Store :=
  [repeatRoot, menuProfile]

/-- A name of 54 characters: with the prefix `controls:` it has 63, one more than
`config_find` formats under the sample header. -/
def name54 : List Char :=
  List.replicate 54 'n'

/-- The store after `config_init`, `config_create(name54)` and
`config_create("controls:" ++ name54)`. -/
def cutNameStore : Store :=
  (config_create sampleEnv (config_create sampleEnv (config_init sampleEnv) name54).1
    ("controls:".toList ++ name54)).1

/-! ## Theorems -/

/-! ## The tokenizer: from indices to the unread part of the value -/

theorem suffixAt_cons (value : List Char) (vlen i : Nat) (hv : vlen ≤ value.length)
    (hi : i < vlen) :
    suffixAt value vlen i = charAt value i :: suffixAt value vlen (i + 1) := by
  unfold suffixAt charAt
  have hl : i < (value.take vlen).length := by simp [List.length_take]; omega
  rw [List.drop_eq_getElem_cons hl]
  congr 1
  have : i < value.length := by omega
  simp [List.getElem_take, List.getD_eq_getElem?_getD, List.getElem?_eq_getElem this]

theorem suffixAt_nil (value : List Char) (vlen i : Nat) (hi : vlen ≤ i) :
    suffixAt value vlen i = [] := by
  unfold suffixAt
  apply List.drop_eq_nil_of_le
  simp [List.length_take]; omega

theorem suffixAt_add (value : List Char) (vlen i k : Nat) :
    suffixAt value vlen (i + k) = (suffixAt value vlen i).drop k := by
  unfold suffixAt
  rw [List.drop_drop]

theorem drop_length_takeWhile (P : Char → Bool) (l : List Char) :
    l.drop (l.takeWhile P).length = l.dropWhile P := by
  induction l with
  | nil => simp
  | cons a l ih =>
    by_cases h : P a
    · simp [List.takeWhile_cons, List.dropWhile_cons, h, ih]
    · simp [List.takeWhile_cons, List.dropWhile_cons, h]

theorem copy_while_eq (value : List Char) (vlen : Nat) (P : Char → Bool)
    (hv : vlen ≤ value.length) :
    ∀ (fuel i : Nat) (buf : List Char), vlen - i ≤ fuel →
      copy_while value vlen P fuel i buf =
        (i + ((suffixAt value vlen i).takeWhile P).length,
          buf ++ (suffixAt value vlen i).takeWhile P) := by
  intro fuel
  induction fuel with
  | zero =>
    intro i buf h
    have hi : vlen ≤ i := by omega
    simp [copy_while, suffixAt_nil value vlen i hi]
  | succ fuel ih =>
    intro i buf h
    by_cases hi : i < vlen
    · rw [suffixAt_cons value vlen i hv hi]
      by_cases hp : P (charAt value i)
      · simp only [copy_while, hp, hi, decide_True, Bool.and_self, if_true]
        rw [ih (i + 1) _ (by omega)]
        simp [List.takeWhile_cons, hp]
        omega
      · simp [copy_while, hp, List.takeWhile_cons]
    · have hi2 : vlen ≤ i := by omega
      simp [copy_while, hi, suffixAt_nil value vlen i hi2]

theorem skip_blank_eq (value : List Char) (vlen : Nat) (hv : vlen ≤ value.length) :
    ∀ (fuel i : Nat), vlen - i ≤ fuel →
      skip_blank value vlen fuel i = i + ((suffixAt value vlen i).takeWhile isBlank).length := by
  intro fuel
  induction fuel with
  | zero =>
    intro i h
    have hi : vlen ≤ i := by omega
    simp [skip_blank, suffixAt_nil value vlen i hi]
  | succ fuel ih =>
    intro i h
    by_cases hi : i < vlen
    · rw [suffixAt_cons value vlen i hv hi]
      by_cases hp : isBlank (charAt value i)
      · simp only [skip_blank, hp, hi, decide_True, Bool.and_self, if_true]
        rw [ih (i + 1) (by omega)]
        simp [List.takeWhile_cons, hp]
        omega
      · simp [skip_blank, hp, List.takeWhile_cons]
    · have hi2 : vlen ≤ i := by omega
      simp [skip_blank, hi, suffixAt_nil value vlen i hi2]

theorem tokenize_loop_eq_tokL (value : List Char) (vlen : Nat) (hv : vlen ≤ value.length) :
    ∀ (fuel i : Nat) (buf : List Char),
      tokenize_loop value vlen fuel i buf = tokL fuel (suffixAt value vlen i) buf := by
  intro fuel
  induction fuel with
  | zero => intro i buf; simp [tokenize_loop, tokL]
  | succ fuel ih =>
    intro i buf
    by_cases hi : i < vlen
    · rw [suffixAt_cons value vlen i hv hi]
      by_cases hq : charAt value i = DQUOTE ∨ charAt value i = SQUOTE
      · simp only [tokenize_loop, tokL, hi, hq, if_true]
        rw [copy_while_eq value vlen _ hv vlen (i + 1) buf (by omega)]
        simp only []
        rw [ih, suffixAt_add, ← drop_length_takeWhile, suffixAt_add]
      · by_cases hb : charAt value i = ' ' ∨ charAt value i = TAB
        · simp only [tokenize_loop, tokL, hi, hq, hb, if_true, if_false]
          rw [skip_blank_eq value vlen hv vlen (i + 1) (by omega)]
          rw [ih, suffixAt_add, drop_length_takeWhile]
        · simp only [tokenize_loop, tokL, hi, hq, hb, if_true, if_false]
          rw [copy_while_eq value vlen _ hv vlen (i + 1) _ (by omega)]
          simp only []
          rw [ih, suffixAt_add, drop_length_takeWhile]
          simp
    · have hi2 : vlen ≤ i := by omega
      rw [suffixAt_nil value vlen i hi2]
      simp [tokenize_loop, tokL, hi]

theorem value_len_le (value : List Char) : value_len value ≤ value.length := by
  unfold value_len; split <;> omega

/-- The tokenizer on any value: the list view of the loop, run on the value clipped
to `value_len` bytes. -/
theorem tokenize_eq_tokL (value : List Char) :
    tokenize value = tokL (value_len value) (value.take (value_len value)) [] := by
  unfold tokenize
  rw [tokenize_loop_eq_tokL value _ (value_len_le value)]
  simp [suffixAt]

theorem tokenize_short (value : List Char) (h : value.length ≤ 1023) :
    tokenize value = tokL value.length value [] := by
  rw [tokenize_eq_tokL]
  have : value_len value = value.length := by
    unfold value_len MAX_TEMP_SIZE; split <;> omega
  rw [this, List.take_length]

/-! ## The rounds of the tokenizer loop are enough -/

theorem tokL_fuel_succ :
    ∀ (fuel : Nat) (rest buf : List Char), rest.length ≤ fuel →
      tokL (fuel + 1) rest buf = tokL fuel rest buf := by
  intro fuel
  induction fuel with
  | zero =>
    intro rest buf h
    have : rest = [] := List.length_eq_zero.1 (by omega)
    subst this
    rfl
  | succ fuel ih =>
    intro rest buf h
    cases rest with
    | nil => rfl
    | cons ch r =>
      have hr : r.length ≤ fuel := by simp only [List.length_cons] at h; omega
      have hd : ∀ P : Char → Bool, (r.dropWhile P).length ≤ fuel :=
        fun P => Nat.le_trans (List.dropWhile_sublist P).length_le hr
      have hd1 : ∀ P : Char → Bool, ((r.dropWhile P).drop 1).length ≤ fuel := by
        intro P
        have := hd P
        simp only [List.length_drop]
        omega
      rw [tokL, tokL]
      split_ifs
      all_goals first
        | exact ih _ _ (hd1 _)
        | exact ih _ _ (hd _)

/-- More rounds than `value_len` change nothing: the tokenizer loop has ended by
then, so the buffer of `tokenize` is what the C loop leaves. -/
theorem tokenize_loop_fuel (value : List Char) (k : Nat) :
    tokenize_loop value (value_len value) (value_len value + k) 0 [] = tokenize value := by
  unfold tokenize
  rw [tokenize_loop_eq_tokL value _ (value_len_le value),
    tokenize_loop_eq_tokL value _ (value_len_le value)]
  have hl : (suffixAt value (value_len value) 0).length ≤ value_len value := by
    simp [suffixAt, List.length_take]
  induction k with
  | zero => rfl
  | succ k ih =>
    rw [← Nat.add_assoc, tokL_fuel_succ _ _ _ (by omega), ih]

/-! ## The tokenizer on blank runs, words and quoted text -/

theorem tokL_nil (fuel : Nat) (buf : List Char) : tokL fuel [] buf = buf := by
  cases fuel <;> rfl

theorem dropWhile_of_head (P : Char → Bool) (l : List Char)
    (h : ∀ c ∈ l.head?, P c = false) : l.dropWhile P = l := by
  cases l with
  | nil => rfl
  | cons a l => simp [List.dropWhile_cons, h a (by simp)]

theorem takeWhile_of_head (P : Char → Bool) (l : List Char)
    (h : ∀ c ∈ l.head?, P c = false) : l.takeWhile P = [] := by
  cases l with
  | nil => rfl
  | cons a l => simp [List.takeWhile_cons, h a (by simp)]

theorem isBlank_iff (c : Char) : isBlank c = true ↔ (c = ' ' ∨ c = TAB) := by
  simp [isBlank]

theorem notBlank_eq (c : Char) : (c != ' ' && c != TAB) = !isBlank c := by
  simp [isBlank, Bool.not_or, bne]

theorem isBlank_of_run (s : List Char) (hs : IsBlankRun s) : ∀ c ∈ s, isBlank c = true :=
  fun c hc => (isBlank_iff c).2 (hs c hc)

theorem word_not_blank (w : List Char) (hw : IsWord w) : ∀ c ∈ w, isBlank c = false := by
  intro c hc
  have := hw.2 c hc
  simp [isBlank, this.1, this.2.1]

/-- One round of the tokenizer over a non-empty blank run, the buffer ending in a
token byte: one tab is written. -/
theorem tokL_blank_push (fuel : Nat) (s rest buf : List Char) (hs : IsBlankRun s)
    (hne : s ≠ []) (hrest : ∀ c ∈ rest.head?, isBlank c = false)
    (hb : buf ≠ []) (hl : buf.getLast? ≠ some TAB) :
    tokL (fuel + 1) (s ++ rest) buf = tokL fuel rest (buf ++ [TAB]) := by
  cases s with
  | nil => exact absurd rfl hne
  | cons c s =>
    have hc : c = ' ' ∨ c = TAB := hs c (by simp)
    have hnq : ¬ (c = DQUOTE ∨ c = SQUOTE) := by
      rcases hc with h | h <;> subst h <;> decide
    have hs2 : ∀ a ∈ s, isBlank a = true := fun a ha => isBlank_of_run _ hs a (by simp [ha])
    rw [List.cons_append]
    simp only [tokL, hnq, hc, if_true, if_false, hb, hl, ne_eq,
      not_false_eq_true, and_self]
    rw [List.dropWhile_append_of_pos hs2, dropWhile_of_head _ _ hrest]

/-- One round of the tokenizer over a non-empty blank run, the buffer empty or ending
in a tab: nothing is written. -/
theorem tokL_blank_skip (fuel : Nat) (s rest buf : List Char) (hs : IsBlankRun s)
    (hne : s ≠ []) (hrest : ∀ c ∈ rest.head?, isBlank c = false)
    (hb : buf = [] ∨ buf.getLast? = some TAB) :
    tokL (fuel + 1) (s ++ rest) buf = tokL fuel rest buf := by
  cases s with
  | nil => exact absurd rfl hne
  | cons c s =>
    have hc : c = ' ' ∨ c = TAB := hs c (by simp)
    have hnq : ¬ (c = DQUOTE ∨ c = SQUOTE) := by
      rcases hc with h | h <;> subst h <;> decide
    have hs2 : ∀ a ∈ s, isBlank a = true := fun a ha => isBlank_of_run _ hs a (by simp [ha])
    have hcond : ¬ (buf ≠ [] ∧ buf.getLast? ≠ some TAB) := by
      rcases hb with h | h
      · simp [h]
      · simp [h]
    rw [List.cons_append]
    simp only [tokL, hnq, hc, if_true, if_false, hcond]
    rw [List.dropWhile_append_of_pos hs2, dropWhile_of_head _ _ hrest]

/-- One round of the tokenizer over an unquoted word that is followed by a blank or
by the end of the value: the word is copied. -/
theorem tokL_word (fuel : Nat) (w rest buf : List Char) (hw : IsWord w)
    (hrest : ∀ c ∈ rest.head?, isBlank c = true) :
    tokL (fuel + 1) (w ++ rest) buf = tokL fuel rest (buf ++ w) := by
  cases w with
  | nil => exact absurd rfl hw.1
  | cons c w =>
    have hc := hw.2 c (by simp)
    have hnq : ¬ (c = DQUOTE ∨ c = SQUOTE) := by simp [hc.2.2.1, hc.2.2.2]
    have hnb : ¬ (c = ' ' ∨ c = TAB) := by simp [hc.1, hc.2.1]
    have hw2 : ∀ a ∈ w, (a != ' ' && a != TAB) = true := by
      intro a ha
      rw [notBlank_eq, word_not_blank _ hw a (by simp [ha])]; rfl
    have hr2 : ∀ a ∈ rest.head?, (a != ' ' && a != TAB) = false := by
      intro a ha
      rw [notBlank_eq, hrest a ha]; rfl
    rw [List.cons_append]
    simp only [tokL, hnq, hnb, if_false]
    rw [List.dropWhile_append_of_pos hw2, List.takeWhile_append_of_pos hw2,
      dropWhile_of_head _ _ hr2, takeWhile_of_head _ _ hr2]
    simp

/-- One round of the tokenizer over a quoted text `q c q`: the content is copied and
a tab is written after it. -/
theorem tokL_quoted (fuel : Nat) (q : Char) (c rest buf : List Char)
    (hq : q = DQUOTE ∨ q = SQUOTE) (hc : ∀ a ∈ c, a ≠ q) :
    tokL (fuel + 1) (q :: (c ++ q :: rest)) buf = tokL fuel rest (buf ++ c ++ [TAB]) := by
  have hc2 : ∀ a ∈ c, (a != q) = true := by
    intro a ha; simp [hc a ha]
  have hq2 : ∀ a ∈ (q :: rest).head?, (a != q) = false := by
    intro a ha; simp at ha; simp [ha]
  simp only [tokL, hq, if_true]
  rw [List.dropWhile_append_of_pos hc2, List.takeWhile_append_of_pos hc2,
    dropWhile_of_head _ _ hq2, takeWhile_of_head _ _ hq2]
  simp

/-! ## strtok -/

theorem strtok_go_append (w : List Char) (hw : ∀ c ∈ w, c ≠ TAB) :
    ∀ (rest cur : List Char), strtok_go (w ++ rest) cur = strtok_go rest (cur ++ w) := by
  induction w with
  | nil => intro rest cur; simp
  | cons a w ih =>
    intro rest cur
    have ha : a ≠ TAB := hw a (by simp)
    rw [List.cons_append]
    simp only [strtok_go, ha, if_false]
    rw [ih (fun c hc => hw c (by simp [hc]))]
    simp

theorem strtok_go_tab (rest cur : List Char) (hcur : cur ≠ []) :
    strtok_go (TAB :: rest) cur = cur :: strtok_go rest [] := by
  simp [strtok_go, hcur]

theorem strtok_go_tab_nil (rest : List Char) :
    strtok_go (TAB :: rest) [] = strtok_go rest [] := by
  simp [strtok_go]

theorem strtok_go_nil (cur : List Char) (hcur : cur ≠ []) : strtok_go [] cur = [cur] := by
  simp [strtok_go, hcur]

theorem word_no_tab (w : List Char) (hw : IsWord w) : ∀ c ∈ w, c ≠ TAB :=
  fun c hc => (hw.2 c hc).2.1

/-! ## Values made of unquoted words -/

theorem getLast?_append_ne_tab (buf w : List Char) (hw : w ≠ []) (h : ∀ c ∈ w, c ≠ TAB) :
    (buf ++ w).getLast? ≠ some TAB := by
  rw [List.getLast?_append_of_ne_nil _ hw]
  intro heq
  exact h TAB (List.mem_of_getLast?_eq_some heq) rfl

theorem head_of_append_ne_nil (s rest : List Char) (hs : s ≠ []) (P : Char → Prop)
    (h : ∀ c ∈ s, P c) : ∀ c ∈ (s ++ rest).head?, P c := by
  cases s with
  | nil => exact absurd rfl hs
  | cons a s => intro c hc; simp at hc; subst hc; exact h _ (by simp)

theorem head_of_blank_run (s : List Char) (hs : IsBlankRun s) :
    ∀ c ∈ s.head?, isBlank c = true :=
  fun c hc => isBlank_of_run s hs c (List.mem_of_mem_head? hc)

theorem head_sepWords (more : List (List Char × List Char)) (trail : List Char)
    (hmore : ∀ sw ∈ more, sw.1 ≠ [] ∧ IsBlankRun sw.1 ∧ IsWord sw.2)
    (htrail : IsBlankRun trail) :
    ∀ c ∈ (sepWords more ++ trail).head?, isBlank c = true := by
  cases more with
  | nil => simpa [sepWords] using head_of_blank_run trail htrail
  | cons sw more =>
    have h := hmore sw (by simp)
    simp only [sepWords, List.append_assoc]
    exact head_of_append_ne_nil _ _ h.1 _ (isBlank_of_run _ h.2.1)

theorem length_sepWords_cons (sw : List Char × List Char)
    (more : List (List Char × List Char)) (trail : List Char)
    (h1 : sw.1 ≠ []) (h2 : sw.2 ≠ []) :
    (sepWords more ++ trail).length + 2 ≤ (sepWords (sw :: more) ++ trail).length := by
  have a := List.length_pos.2 h1
  have b := List.length_pos.2 h2
  simp only [sepWords, List.length_append] at *
  omega

/-- The tokenizer on `sep₁ w₁ sep₂ w₂ ... trail` when the buffer ends in a token byte:
every separator becomes one tab, every word is copied, a non-empty trailing run
becomes one tab. -/
theorem tokL_sepWords (trail : List Char) (htrail : IsBlankRun trail) :
    ∀ (more : List (List Char × List Char)) (fuel : Nat) (buf : List Char),
      (∀ sw ∈ more, sw.1 ≠ [] ∧ IsBlankRun sw.1 ∧ IsWord sw.2) →
      buf ≠ [] → buf.getLast? ≠ some TAB →
      (sepWords more ++ trail).length ≤ fuel →
      tokL fuel (sepWords more ++ trail) buf =
        buf ++ tabWords more ++ (if trail = [] then [] else [TAB]) := by
  intro more
  induction more with
  | nil =>
    intro fuel buf _ hb hl hf
    by_cases ht : trail = []
    · subst ht; simp [sepWords, tabWords, tokL_nil]
    · have hpos := List.length_pos.2 ht
      simp only [sepWords, List.nil_append] at hf
      obtain ⟨f, rfl⟩ : ∃ f, fuel = f + 1 := ⟨fuel - 1, by omega⟩
      have := tokL_blank_push f trail [] buf htrail ht (by simp) hb hl
      rw [List.append_nil] at this
      simp [sepWords, tabWords, this, tokL_nil, ht]
  | cons sw more ih =>
    intro fuel buf hmore hb hl hf
    have hsw := hmore sw (by simp)
    have hmore2 : ∀ x ∈ more, x.1 ≠ [] ∧ IsBlankRun x.1 ∧ IsWord x.2 :=
      fun x hx => hmore x (by simp [hx])
    have hlen := length_sepWords_cons sw more trail hsw.1 hsw.2.2.1
    obtain ⟨f, rfl⟩ : ∃ f, fuel = f + 2 := ⟨fuel - 2, by omega⟩
    have e1 : sepWords (sw :: more) ++ trail = sw.1 ++ (sw.2 ++ (sepWords more ++ trail)) := by
      simp [sepWords, List.append_assoc]
    rw [e1, tokL_blank_push (f + 1) sw.1 _ buf hsw.2.1 hsw.1
        (head_of_append_ne_nil _ _ hsw.2.2.1 _ (word_not_blank _ hsw.2.2)) hb hl,
      tokL_word f sw.2 _ _ hsw.2.2 (head_sepWords more trail hmore2 htrail),
      ih f _ hmore2 (by simp [hsw.2.2.1])
        (getLast?_append_ne_tab _ _ hsw.2.2.1 (word_no_tab _ hsw.2.2)) (by omega)]
    simp [tabWords, List.append_assoc]

/-- The buffer the tokenizer leaves for a value made of unquoted words. -/
theorem tokenize_words (lead first trail : List Char) (more : List (List Char × List Char))
    (hlead : IsBlankRun lead) (hfirst : IsWord first)
    (hmore : ∀ sw ∈ more, sw.1 ≠ [] ∧ IsBlankRun sw.1 ∧ IsWord sw.2)
    (htrail : IsBlankRun trail)
    (hlen : (lead ++ first ++ sepWords more ++ trail).length ≤ 1023) :
    tokenize (lead ++ first ++ sepWords more ++ trail) =
      first ++ tabWords more ++ (if trail = [] then [] else [TAB]) := by
  rw [tokenize_short _ hlen]
  have hf1 := List.length_pos.2 hfirst.1
  have e : lead ++ first ++ sepWords more ++ trail =
      lead ++ (first ++ (sepWords more ++ trail)) := by simp [List.append_assoc]
  have hrest := head_sepWords more trail hmore htrail
  by_cases hl : lead = []
  · subst hl
    simp only [List.nil_append, List.append_assoc] at *
    obtain ⟨f, hf⟩ : ∃ f, (first ++ (sepWords more ++ trail)).length = f + 1 :=
      ⟨(first ++ (sepWords more ++ trail)).length - 1, by
        simp only [List.length_append]; omega⟩
    rw [hf, tokL_word f first _ _ hfirst hrest, List.nil_append,
      tokL_sepWords trail htrail more f first hmore hfirst.1
        (by simpa using getLast?_append_ne_tab [] first hfirst.1 (word_no_tab _ hfirst))
        (by simp only [List.length_append] at hf ⊢; omega), List.append_assoc]
  · have hl1 := List.length_pos.2 hl
    rw [e]
    obtain ⟨f, hf⟩ : ∃ f, (lead ++ (first ++ (sepWords more ++ trail))).length = f + 2 :=
      ⟨(lead ++ (first ++ (sepWords more ++ trail))).length - 2, by
        simp only [List.length_append]; omega⟩
    rw [hf, tokL_blank_skip (f + 1) lead _ [] hlead hl
        (head_of_append_ne_nil _ _ hfirst.1 _ (word_not_blank _ hfirst)) (Or.inl rfl),
      tokL_word f first _ _ hfirst hrest, List.nil_append,
      tokL_sepWords trail htrail more f first hmore hfirst.1
        (by simpa using getLast?_append_ne_tab [] first hfirst.1 (word_no_tab _ hfirst))
        (by simp only [List.length_append] at hf ⊢; omega)]

theorem strtok_go_tabWords (tl : List Char) (htl : tl = [] ∨ tl = [TAB]) :
    ∀ (more : List (List Char × List Char)) (cur : List Char),
      (∀ sw ∈ more, IsWord sw.2) → cur ≠ [] →
      strtok_go (tabWords more ++ tl) cur = cur :: more.map Prod.snd := by
  intro more
  induction more with
  | nil =>
    intro cur _ hcur
    rcases htl with h | h <;> subst h <;> simp [tabWords, strtok_go, hcur]
  | cons sw more ih =>
    intro cur hmore hcur
    have hsw := hmore sw (by simp)
    have e : tabWords (sw :: more) ++ tl = TAB :: (sw.2 ++ (tabWords more ++ tl)) := by
      simp [tabWords, List.append_assoc]
    rw [e, strtok_go_tab _ _ hcur, strtok_go_append _ (word_no_tab _ hsw),
      ih _ (fun x hx => hmore x (by simp [hx])) (by simp [hsw.1])]
    simp

/-- The tokens of a value made of unquoted words are the words. -/
theorem tokens_words (lead first trail : List Char) (more : List (List Char × List Char))
    (hlead : IsBlankRun lead) (hfirst : IsWord first)
    (hmore : ∀ sw ∈ more, sw.1 ≠ [] ∧ IsBlankRun sw.1 ∧ IsWord sw.2)
    (htrail : IsBlankRun trail)
    (hlen : (lead ++ first ++ sepWords more ++ trail).length ≤ 1023) :
    tokens (lead ++ first ++ sepWords more ++ trail) = first :: more.map Prod.snd := by
  unfold tokens strtok_all
  rw [tokenize_words lead first trail more hlead hfirst hmore htrail hlen, List.append_assoc,
    strtok_go_append _ (word_no_tab _ hfirst)]
  apply strtok_go_tabWords _ _ more _ (fun sw h => (hmore sw h).2.2) (by simp [hfirst.1])
  by_cases h : trail = [] <;> simp [h]

/-! ## C2: values made of unquoted words -/

/-- C2: for a value of at most 1023 characters that consists of `k ≥ 1` unquoted
words (`first` and the words of `more`), separated by non-empty runs of spaces and
tabs, with optional runs `lead` and `trail` around them, the token sequence that
`set_btn_config` dispatches on is exactly the words in order; none of the tokens is
empty. -/
theorem C2_tokens_are_the_words (lead first trail : List Char)
    (more : List (List Char × List Char))
    (hlead : IsBlankRun lead) (hfirst : IsWord first)
    (hmore : ∀ sw ∈ more, sw.1 ≠ [] ∧ IsBlankRun sw.1 ∧ IsWord sw.2)
    (htrail : IsBlankRun trail)
    (hlen : (lead ++ first ++ sepWords more ++ trail).length ≤ 1023) :
    tokens (lead ++ first ++ sepWords more ++ trail) = first :: more.map Prod.snd ∧
    (∀ t ∈ tokens (lead ++ first ++ sepWords more ++ trail), t ≠ []) ∧
    ∀ (E : Env) (config : gptokeyb_config) (btn : Nat),
      set_btn_config E config btn (lead ++ first ++ sepWords more ++ trail) =
        token_loop E btn true (first :: more.map Prod.snd) config := by
  have h := tokens_words lead first trail more hlead hfirst hmore htrail hlen
  refine ⟨h, ?_, ?_⟩
  · rw [h]
    intro t ht
    rcases List.mem_cons.1 ht with rfl | ht
    · exact hfirst.1
    · obtain ⟨sw, hsw, rfl⟩ := List.mem_map.1 ht
      exact (hmore sw hsw).2.2.1
  · intro E config btn
    have hne : (lead ++ first ++ sepWords more ++ trail).length ≠ 0 := by
      have := List.length_pos.2 hfirst.1
      simp only [List.length_append]; omega
    unfold set_btn_config
    rw [if_neg hne, h]

/-- C2 at the value of the spec, `a   b`, and at a value with runs around the words. -/
theorem C2_tokens_are_the_words_witness :
    tokens "a   b".toList = ["a".toList, "b".toList] ∧
    tokens (TAB :: " f1  add_alt ".toList) = ["f1".toList, "add_alt".toList] :=
  ⟨(C2_tokens_are_the_words [] "a".toList [] [("   ".toList, "b".toList)]
      (by decide) (by decide) (by decide) (by decide) (by decide)).1,
   (C2_tokens_are_the_words (TAB :: " ".toList) "f1".toList " ".toList
      [("  ".toList, "add_alt".toList)]
      (by decide) (by decide) (by decide) (by decide) (by decide)).1⟩
theorem cstr_strncpy (old n : List Char) (M : Nat) (hn : ∀ c ∈ n, c ≠ NUL)
    (hlen : n.length < M) : cstr (strncpy old n M) = n := by
  unfold cstr strncpy
  have h1 : n.take M = n := List.take_of_length_le (by omega)
  obtain ⟨k, hk⟩ : ∃ k, M - n.length = k + 1 := ⟨M - n.length - 1, by omega⟩
  rw [h1, hk, List.replicate_succ, List.append_assoc,
    List.takeWhile_append_of_pos (fun a ha => by simp [hn a ha])]
  simp [NUL]

theorem token_loop_hold (E : Env) (b : Nat) (fr : Bool) (arg : List Char)
    (rest : List (List Char)) (config : gptokeyb_config) (hb : b < GBTN_MAX) :
    token_loop E b fr ("hold_state".toList :: arg :: rest) config =
      token_loop E b false rest (set_state_binding E b ACT_STATE_HOLD arg config) := by
  have h1 : branch_of fr "hold_state".toList = Branch.hold_state := by
    cases fr <;> decide
  have h3 : ¬ b ≥ GBTN_MAX := by omega
  rw [token_loop, h1]
  simp only [h3, if_false]

theorem tokens_directive_arg (d n : List Char) (hd : IsWord d) (hn : IsWord n)
    (hlen : (d ++ ' ' :: n).length ≤ 1023) : tokens (d ++ ' ' :: n) = [d, n] := by
  have h := tokens_words [] d [] [([' '], n)] (by simp [IsBlankRun]) hd
    (by simp [IsBlankRun, hn]) (by simp [IsBlankRun])
    (by simpa [sepWords] using hlen)
  simpa [sepWords] using h

/-! ## C1: hold_state with a name -/

/-- C1: for every profile, every concrete button `b` and every name `n` that is a
single unquoted word (of a C string, so without NUL) shorter than `MAX_CONTROL_NAME`,
`set_btn_config` with the value `hold_state n` sets the action of `button[b]` to
`STATE_HOLD`, its `cfg_name` to exactly `n` and `map_check` to true, and leaves
keycode, modifier and repeat of `button[b]` (and every other binding record, and the
name of the profile) as they were.  The header constant is taken to satisfy
`MAX_CONTROL_NAME ≤ 1013`, so that the value fits the 1023 bytes the tokenizer
reads. -/
theorem C1_hold_state_binds_name (E : Env) (config : gptokeyb_config) (b : Nat)
    (n : List Char) (hb : b < GBTN_MAX) (hn : IsWord n) (hnul : ∀ c ∈ n, c ≠ NUL)
    (hlen : n.length < E.MAX_CONTROL_NAME) (hM : E.MAX_CONTROL_NAME ≤ 1013) :
    ((set_btn_config E config b ("hold_state ".toList ++ n)).button b).action
        = ACT_STATE_HOLD ∧
    cstr ((set_btn_config E config b ("hold_state ".toList ++ n)).button b).cfg_name = n ∧
    (set_btn_config E config b ("hold_state ".toList ++ n)).map_check = true ∧
    ((set_btn_config E config b ("hold_state ".toList ++ n)).button b).keycode
        = (config.button b).keycode ∧
    ((set_btn_config E config b ("hold_state ".toList ++ n)).button b).modifier
        = (config.button b).modifier ∧
    ((set_btn_config E config b ("hold_state ".toList ++ n)).button b).repeat
        = (config.button b).repeat ∧
    (∀ i, i ≠ b →
      (set_btn_config E config b ("hold_state ".toList ++ n)).button i = config.button i) ∧
    (set_btn_config E config b ("hold_state ".toList ++ n)).name = config.name := by
  have hv : "hold_state ".toList ++ n = "hold_state".toList ++ ' ' :: n := by
    simp
  have htok : tokens ("hold_state ".toList ++ n) = ["hold_state".toList, n] := by
    rw [hv]
    apply tokens_directive_arg _ _ (by decide) hn
    simp only [List.length_append, List.length_cons]
    have : "hold_state".toList.length = 10 := by decide
    omega
  have hne : ("hold_state ".toList ++ n).length ≠ 0 := by simp
  have hset : set_btn_config E config b ("hold_state ".toList ++ n) =
      set_state_binding E b ACT_STATE_HOLD n config := by
    unfold set_btn_config
    rw [if_neg hne, htok, token_loop_hold E b true n [] config hb]
    rfl
  rw [hset]
  refine ⟨?_, ?_, ?_, ?_, ?_, ?_, ?_, ?_⟩
  · simp [set_state_binding, setButton]
  · simp only [set_state_binding, setButton, Function.update_same]
    exact cstr_strncpy _ n _ hnul hlen
  · simp [set_state_binding]
  · simp [set_state_binding, setButton]
  · simp [set_state_binding, setButton]
  · simp [set_state_binding, setButton]
  · intro i hi
    simp [set_state_binding, setButton, Function.update_noteq hi]
  · simp [set_state_binding, setButton]

/-- C1 at `hold_state menu`, the value of the spec, on button `a` of a zeroed profile. -/
theorem C1_hold_state_binds_name_witness :
    ((set_btn_config sampleEnv (zero_config sampleEnv) 0 "hold_state menu".toList).button 0).action
        = ACT_STATE_HOLD ∧
    cstr ((set_btn_config sampleEnv (zero_config sampleEnv) 0
        "hold_state menu".toList).button 0).cfg_name = "menu".toList ∧
    (set_btn_config sampleEnv (zero_config sampleEnv) 0 "hold_state menu".toList).map_check
        = true := by
  have h := C1_hold_state_binds_name sampleEnv (zero_config sampleEnv) 0 "menu".toList
    (by decide) (by decide) (by decide) (by decide) (by decide)
  exact ⟨h.1, h.2.1, h.2.2.1⟩

/-! ## C3: quoted text -/

/-- One round of the tokenizer over a quoted text that is not closed: it is copied
to the end of the value, and a tab is written. -/
theorem tokL_unclosed (fuel : Nat) (q : Char) (c buf : List Char)
    (hq : q = DQUOTE ∨ q = SQUOTE) (hc : ∀ a ∈ c, a ≠ q) :
    tokL (fuel + 1) (q :: c) buf = buf ++ c ++ [TAB] := by
  have hc2 : ∀ a ∈ c, (a != q) = true := by
    intro a ha; simp [hc a ha]
  simp only [tokL, hq, if_true]
  rw [List.dropWhile_eq_nil_iff.2 hc2, List.takeWhile_eq_self_iff.2 hc2]
  simp [tokL_nil]

/-- A quoted text of 1022 characters right at the start of the value fills the 1023
bytes the tokenizer reads: whatever follows it is not read, and the text is the
only token. -/
theorem tokens_cut_off (c rest : List Char) (hlen : c.length = 1022)
    (hq : ∀ a ∈ c, a ≠ SQUOTE) (ht : ∀ a ∈ c, a ≠ TAB) :
    tokens (SQUOTE :: (c ++ rest)) = [c] := by
  unfold tokens strtok_all
  rw [tokenize_eq_tokL]
  have hvl : value_len (SQUOTE :: (c ++ rest)) = 1022 + 1 := by
    unfold value_len MAX_TEMP_SIZE
    simp only [List.length_cons, List.length_append, hlen]
    split <;> omega
  have htake : (SQUOTE :: (c ++ rest)).take (1022 + 1) = SQUOTE :: c := by
    rw [List.take_succ_cons, List.take_left' hlen]
  have hc : c ≠ [] := by
    intro h; rw [h] at hlen; simp at hlen
  rw [hvl, htake, tokL_unclosed 1022 SQUOTE _ [] (Or.inr rfl) hq, List.nil_append,
    strtok_go_append _ ht, List.nil_append, strtok_go_tab _ _ hc]
  simp [strtok_go]

theorem singleton_ne_pair (a b c : List Char) : [a] ≠ [b, c] := by
  intro h; cases h

/-- C3, as amended: for a quote character `q`, a non-empty content `c` that holds
neither `q` nor a tab (spaces are allowed), and an unquoted word `w`, the value
`q c q`, a space, `w`, of at most 1023 characters, yields exactly the two tokens
`[c, w]`. -/
theorem C3_quoted_token (q : Char) (c w : List Char) (hq : q = DQUOTE ∨ q = SQUOTE)
    (hc : c ≠ []) (hcq : ∀ a ∈ c, a ≠ q) (htab : ∀ a ∈ c, a ≠ TAB) (hw : IsWord w)
    (hlen : (q :: (c ++ q :: ' ' :: w)).length ≤ 1023) :
    tokens (q :: (c ++ q :: ' ' :: w)) = [c, w] := by
  unfold tokens strtok_all
  rw [tokenize_short _ hlen]
  have hwl := List.length_pos.2 hw.1
  obtain ⟨f, hf⟩ : ∃ f, (q :: (c ++ q :: ' ' :: w)).length = f + 3 :=
    ⟨(q :: (c ++ q :: ' ' :: w)).length - 3, by
      simp only [List.length_append, List.length_cons]; omega⟩
  have e1 : (' ' :: w) = [' '] ++ (w ++ []) := by simp
  rw [hf, tokL_quoted (f + 2) q c _ [] hq hcq, e1,
    tokL_blank_skip (f + 1) [' '] _ _ (by simp [IsBlankRun]) (by simp)
      (head_of_append_ne_nil _ _ hw.1 _ (word_not_blank _ hw))
      (Or.inr (by simp)),
    tokL_word f w [] _ hw (by simp), tokL_nil]
  rw [List.nil_append, List.append_assoc, strtok_go_append _ htab, List.nil_append,
    List.singleton_append, strtok_go_tab _ _ hc,
    show w = w ++ [] by simp, strtok_go_append _ (word_no_tab _ hw), List.nil_append,
    strtok_go_nil _ hw.1]
  simp

/-- C3 at the value of the spec: `'hello world' x` yields `hello world` and `x`. -/
theorem C3_quoted_token_witness :
    tokens (SQUOTE :: ("hello world".toList ++ SQUOTE :: ' ' :: "x".toList))
      = ["hello world".toList, "x".toList] :=
  C3_quoted_token SQUOTE "hello world".toList "x".toList (by decide) (by decide)
    (by decide) (by decide) (by decide) (by decide)

/-- C3 fails as stated.  A tab inside the quotes splits the content, because the
tokens are cut out of the buffer at tabs: `'a<TAB>b' x` yields the three tokens `a`,
`b`, `x`.  And a content of 1030 characters is cut off at byte 1023 of the value:
the only token is its first 1022 characters. -/
theorem C3_quoted_token_counterexample :
    tokens (SQUOTE :: (['a', TAB, 'b'] ++ SQUOTE :: ' ' :: "x".toList))
      = ["a".toList, "b".toList, "x".toList] ∧
    tokens (SQUOTE :: (['a', TAB, 'b'] ++ SQUOTE :: ' ' :: "x".toList))
      ≠ [['a', TAB, 'b'], "x".toList] ∧
    tokens (SQUOTE :: (List.replicate 1030 'a' ++ SQUOTE :: ' ' :: "x".toList))
      ≠ [List.replicate 1030 'a', "x".toList] := by
  refine ⟨by decide, by decide, ?_⟩
  have e : List.replicate 1030 'a' = List.replicate 1022 'a' ++ List.replicate 8 'a' :=
    List.replicate_add 1022 8 'a'
  have hq : ∀ a ∈ List.replicate 1022 'a', a ≠ SQUOTE := by
    intro a ha; rw [List.eq_of_mem_replicate ha]; decide
  have ht : ∀ a ∈ List.replicate 1022 'a', a ≠ TAB := by
    intro a ha; rw [List.eq_of_mem_replicate ha]; decide
  have h := tokens_cut_off (List.replicate 1022 'a')
    (List.replicate 8 'a' ++ SQUOTE :: ' ' :: "x".toList) (List.length_replicate _ _) hq ht
  rw [← List.append_assoc, ← e] at h
  rw [h]
  exact singleton_ne_pair _ _ _

/-! ## The dispatch loop as a sequence of single stores -/

theorem token_loop_nil (E : Env) (btn : Nat) (fr : Bool) (c : gptokeyb_config) :
    token_loop E btn fr [] c = c := by
  cases fr <;> rfl

theorem token_loop_steps_aux (E : Env) (btn : Nat) :
    ∀ (n : Nat) (toks : List (List Char)) (fr : Bool) (c : gptokeyb_config),
      toks.length ≤ n →
      Relation.ReflTransGen (Step E btn) c (token_loop E btn fr toks c) := by
  intro n
  induction n with
  | zero =>
    intro toks fr c h
    have : toks = [] := List.length_eq_zero.1 (by omega)
    subst this
    rw [token_loop_nil]
  | succ n ih =>
    intro toks fr c h
    cases toks with
    | nil => rw [token_loop_nil]
    | cons token rest =>
      have hstep : ∀ (c1 : gptokeyb_config) (fr1 : Bool) (r : List (List Char)),
          r.length ≤ n → Step E btn c c1 →
          Relation.ReflTransGen (Step E btn) c (token_loop E btn fr1 r c1) :=
        fun c1 fr1 r hr hs => Relation.ReflTransGen.head hs (ih r fr1 c1 hr)
      rcases hk : E.find_keyboard token with _ | key
      all_goals
        cases rest with
        | nil =>
          rw [token_loop, hk]
          split
          all_goals try simp only []
          all_goals try split_ifs
          all_goals first
            | exact Relation.ReflTransGen.refl
            | exact hstep _ _ _ (by simp) (Step.mouse_slow c (by omega))
            | exact hstep _ _ _ (by simp) (Step.state_pop c (by omega))
            | exact hstep _ _ _ (by simp) (Step.modifier c _ (Or.inl rfl))
            | exact hstep _ _ _ (by simp) (Step.modifier c _ (Or.inr (Or.inl rfl)))
            | exact hstep _ _ _ (by simp) (Step.modifier c _ (Or.inr (Or.inr rfl)))
            | exact hstep _ _ _ (by simp) (Step.set_repeat c)
            | exact hstep _ _ _ (by simp) (Step.key_special c _ (by omega))
            | exact hstep _ _ _ (by simp) (Step.key c _ (by omega))
            | exact hstep _ _ _ (by simp) (Step.mouse_movement c (by omega))
            | exact hstep _ _ _ (by simp) (Step.arrow_keys c (by omega))
        | cons arg rest1 =>
          have h1 : (arg :: rest1).length ≤ n := by simp at h ⊢; omega
          have h2 : rest1.length ≤ n := by simp at h ⊢; omega
          rw [token_loop, hk]
          split
          all_goals try simp only []
          all_goals try split_ifs
          all_goals first
            | exact Relation.ReflTransGen.refl
            | exact hstep _ _ _ h1 (Step.mouse_slow c (by omega))
            | exact hstep _ _ _ h2 (Step.state_hold c _ (by omega))
            | exact hstep _ _ _ h2 (Step.state_push c _ (by omega))
            | exact hstep _ _ _ h1 (Step.state_pop c (by omega))
            | exact hstep _ _ _ h1 (Step.modifier c _ (Or.inl rfl))
            | exact hstep _ _ _ h1 (Step.modifier c _ (Or.inr (Or.inl rfl)))
            | exact hstep _ _ _ h1 (Step.modifier c _ (Or.inr (Or.inr rfl)))
            | exact hstep _ _ _ h1 (Step.set_repeat c)
            | exact hstep _ _ _ h1 (Step.key_special c _ (by omega))
            | exact hstep _ _ _ h1 (Step.key c _ (by omega))
            | exact hstep _ _ _ h1 (Step.mouse_movement c (by omega))
            | exact hstep _ _ _ h1 (Step.arrow_keys c (by omega))
            | exact ih _ _ _ h1

/-- The profile `set_btn_config` leaves is reached from the profile it was given by
single stores of the dispatch loop. -/
theorem token_loop_steps (E : Env) (btn : Nat) (toks : List (List Char)) (fr : Bool)
    (c : gptokeyb_config) :
    Relation.ReflTransGen (Step E btn) c (token_loop E btn fr toks c) :=
  token_loop_steps_aux E btn toks.length toks fr c (Nat.le_refl _)

theorem set_btn_config_steps (E : Env) (c : gptokeyb_config) (btn : Nat) (value : List Char) :
    Relation.ReflTransGen (Step E btn) c (set_btn_config E c btn value) := by
  unfold set_btn_config
  split
  · exact Relation.ReflTransGen.refl
  · exact token_loop_steps E btn _ _ c

/-! ## The loop over the range of a composite button -/

theorem setButton_button (c : gptokeyb_config) (s i : Nat)
    (f : gptokeyb_button → gptokeyb_button) :
    (setButton c s f).button i = if i = s then f (c.button s) else c.button i := by
  unfold setButton
  by_cases h : i = s
  · subst h; simp
  · simp [h, Function.update_noteq h]

theorem foldl_setButton_button (g : Nat → gptokeyb_button → gptokeyb_button) :
    ∀ (n lo : Nat) (c : gptokeyb_config) (i : Nat),
      ((List.range' lo n).foldl (fun c s => setButton c s (g s)) c).button i =
        if lo ≤ i ∧ i < lo + n then g i (c.button i) else c.button i := by
  intro n
  induction n with
  | zero =>
    intro lo c i
    have : ¬ (lo ≤ i ∧ i < lo) := by omega
    simp [List.range', this]
  | succ n ih =>
    intro lo c i
    simp only [List.range', List.foldl_cons]
    rw [ih, setButton_button]
    by_cases h1 : i = lo
    · subst h1
      have a : ¬ (i + 1 ≤ i ∧ i < i + 1 + n) := by omega
      have b : i ≤ i ∧ i < i + (n + 1) := by omega
      simp [a, b]
    · by_cases h2 : lo ≤ i ∧ i < lo + (n + 1)
      · have a : lo + 1 ≤ i ∧ i < lo + 1 + n := by omega
        simp [a, h2, h1]
      · have a : ¬ (lo + 1 ≤ i ∧ i < lo + 1 + n) := by omega
        simp [a, h2, h1]

theorem foldl_setButton_rest (g : Nat → gptokeyb_button → gptokeyb_button) :
    ∀ (l : List Nat) (c : gptokeyb_config),
      (l.foldl (fun c s => setButton c s (g s)) c).name = c.name ∧
      (l.foldl (fun c s => setButton c s (g s)) c).map_check = c.map_check := by
  intro l
  induction l with
  | nil => intro c; simp
  | cons a l ih =>
    intro c
    simp only [List.foldl_cons]
    rw [(ih _).1, (ih _).2]
    simp [setButton]

/-- The records after a loop over the range of a composite button. -/
theorem for_special_button (btn : Nat) (f : Nat → gptokeyb_button → gptokeyb_button)
    (c : gptokeyb_config) (i : Nat) :
    (for_special btn f c).button i =
      if special_button_min btn ≤ i ∧ i < special_button_max btn then
        f (i - special_button_min btn) (c.button i)
      else c.button i := by
  unfold for_special
  rw [foldl_setButton_button (fun s => f (s - special_button_min btn))]
  by_cases h : special_button_min btn ≤ i ∧ i < special_button_max btn
  · have a : special_button_min btn ≤ i ∧
        i < special_button_min btn + (special_button_max btn - special_button_min btn) := by
      omega
    simp [h, a]
  · have a : ¬ (special_button_min btn ≤ i ∧
        i < special_button_min btn + (special_button_max btn - special_button_min btn)) := by
      omega
    simp [h, a]

theorem for_special_name (btn : Nat) (f : Nat → gptokeyb_button → gptokeyb_button)
    (c : gptokeyb_config) : (for_special btn f c).name = c.name :=
  (foldl_setButton_rest (fun s => f (s - special_button_min btn)) _ c).1

theorem for_special_map_check (btn : Nat) (f : Nat → gptokeyb_button → gptokeyb_button)
    (c : gptokeyb_config) : (for_special btn f c).map_check = c.map_check :=
  (foldl_setButton_rest (fun s => f (s - special_button_min btn)) _ c).2

/-- The ranges of the three composite buttons: four records each, inside the
concrete buttons. -/
theorem special_range (c : Nat)
    (hc : c = GBTN_DPAD ∨ c = GBTN_LEFT_ANALOG ∨ c = GBTN_RIGHT_ANALOG) :
    special_button_max c = special_button_min c + 4 ∧ special_button_max c ≤ GBTN_MAX ∧
    GBTN_MAX ≤ c := by
  rcases hc with rfl | rfl | rfl <;> decide

/-! ## C4: arrow_keys on a composite button -/

/-- C4: for every profile and every composite target `c` among `DPAD`, `LEFT_ANALOG`,
`RIGHT_ANALOG`, with `m = special_button_min c`: if the key-name lookup does not
resolve `arrow_keys`, then `set_btn_config` with the value `arrow_keys` sets the
keycodes of the records `m`, `m+1`, `m+2`, `m+3` to `KEY_UP`, `KEY_DOWN`, `KEY_LEFT`,
`KEY_RIGHT`, sets their action to `NONE` (their other fields stay), and leaves every
other binding record, `map_check` and the name of the profile untouched. -/
theorem C4_arrow_keys (E : Env) (config : gptokeyb_config) (c : Nat)
    (hc : c = GBTN_DPAD ∨ c = GBTN_LEFT_ANALOG ∨ c = GBTN_RIGHT_ANALOG)
    (hk : E.find_keyboard "arrow_keys".toList = none) :
    ((set_btn_config E config c "arrow_keys".toList).button (special_button_min c)).keycode
      = E.KEY_UP ∧
    ((set_btn_config E config c "arrow_keys".toList).button (special_button_min c + 1)).keycode
      = E.KEY_DOWN ∧
    ((set_btn_config E config c "arrow_keys".toList).button (special_button_min c + 2)).keycode
      = E.KEY_LEFT ∧
    ((set_btn_config E config c "arrow_keys".toList).button (special_button_min c + 3)).keycode
      = E.KEY_RIGHT ∧
    (∀ k, k < 4 →
      ((set_btn_config E config c "arrow_keys".toList).button (special_button_min c + k)).action
        = ACT_NONE ∧
      ((set_btn_config E config c "arrow_keys".toList).button (special_button_min c + k)).modifier
        = (config.button (special_button_min c + k)).modifier ∧
      ((set_btn_config E config c "arrow_keys".toList).button (special_button_min c + k)).repeat
        = (config.button (special_button_min c + k)).repeat ∧
      ((set_btn_config E config c "arrow_keys".toList).button (special_button_min c + k)).cfg_name
        = (config.button (special_button_min c + k)).cfg_name) ∧
    (∀ i, (i < special_button_min c ∨ special_button_min c + 4 ≤ i) →
      (set_btn_config E config c "arrow_keys".toList).button i = config.button i) ∧
    (set_btn_config E config c "arrow_keys".toList).map_check = config.map_check ∧
    (set_btn_config E config c "arrow_keys".toList).name = config.name := by
  obtain ⟨hmax, _, hge⟩ := special_range c hc
  have htok : tokens "arrow_keys".toList = ["arrow_keys".toList] := by decide
  have hbr : branch_of true "arrow_keys".toList = Branch.key := by decide
  have h1 : strcaseeq "arrow_keys".toList "mouse_movement".toList = false := by decide
  have h2 : strcaseeq "arrow_keys".toList "arrow_keys".toList = true := by decide
  have hset : set_btn_config E config c "arrow_keys".toList =
      for_special c (fun i b => { b with keycode := arrow_keycodes E i, action := ACT_NONE })
        config := by
    unfold set_btn_config
    rw [if_neg (by decide), htok, token_loop, hbr]
    simp only [hk, h1, h2, hge, if_true, if_false, token_loop_nil, ge_iff_le,
      Bool.false_eq_true]
  rw [hset]
  have hin : ∀ k, k < 4 → (special_button_min c ≤ special_button_min c + k ∧
      special_button_min c + k < special_button_max c) := by
    intro k hk; omega
  refine ⟨?_, ?_, ?_, ?_, ?_, ?_, ?_, ?_⟩
  · have := for_special_button c
      (fun i b => { b with keycode := arrow_keycodes E i, action := ACT_NONE }) config
      (special_button_min c + 0)
    rw [if_pos (hin 0 (by omega))] at this
    simpa [arrow_keycodes] using congrArg gptokeyb_button.keycode this
  · rw [for_special_button, if_pos (hin 1 (by omega))]
    simp [arrow_keycodes]
  · rw [for_special_button, if_pos (hin 2 (by omega))]
    simp [arrow_keycodes]
  · rw [for_special_button, if_pos (hin 3 (by omega))]
    simp [arrow_keycodes]
  · intro k hk4
    rw [for_special_button, if_pos (hin k hk4)]
    simp
  · intro i hi
    rw [for_special_button, if_neg (by omega)]
  · exact for_special_map_check _ _ _
  · exact for_special_name _ _ _

/-- C4 at `dpad = arrow_keys`, on a zeroed profile with the sample key table (which
does not hold `arrow_keys`): `up`, `down`, `left`, `right` get the codes 103, 108,
105, 106. -/
theorem C4_arrow_keys_witness :
    ((set_btn_config sampleEnv (zero_config sampleEnv) GBTN_DPAD
        "arrow_keys".toList).button GBTN_DPAD_UP).keycode = 103 ∧
    ((set_btn_config sampleEnv (zero_config sampleEnv) GBTN_DPAD
        "arrow_keys".toList).button GBTN_DPAD_DOWN).keycode = 108 ∧
    ((set_btn_config sampleEnv (zero_config sampleEnv) GBTN_DPAD
        "arrow_keys".toList).button GBTN_DPAD_LEFT).keycode = 105 ∧
    ((set_btn_config sampleEnv (zero_config sampleEnv) GBTN_DPAD
        "arrow_keys".toList).button GBTN_DPAD_RIGHT).keycode = 106 := by
  have h := C4_arrow_keys sampleEnv (zero_config sampleEnv) GBTN_DPAD (Or.inl rfl) (by decide)
  exact ⟨h.1, h.2.1, h.2.2.1, h.2.2.2.1⟩

/-! ## C5: the frame of a binding on a composite button -/

/-- What a single store of the dispatch loop leaves alone on a composite target:
every record outside the range of the target, `map_check` and the name. -/
theorem step_composite_frame (E : Env) (btn : Nat) (hbtn : GBTN_MAX ≤ btn)
    (c c1 : gptokeyb_config) (h : Step E btn c c1) :
    (∀ i, (i < special_button_min btn ∨ special_button_max btn ≤ i) →
      c1.button i = c.button i) ∧
    c1.map_check = c.map_check ∧ c1.name = c.name := by
  have hfs : ∀ f : Nat → gptokeyb_button → gptokeyb_button,
      (∀ i, (i < special_button_min btn ∨ special_button_max btn ≤ i) →
        (for_special btn f c).button i = c.button i) ∧
      (for_special btn f c).map_check = c.map_check ∧ (for_special btn f c).name = c.name := by
    intro f
    refine ⟨?_, for_special_map_check _ _ _, for_special_name _ _ _⟩
    intro i hi
    rw [for_special_button, if_neg (by omega)]
  have hge : btn ≥ GBTN_MAX := hbtn
  cases h with
  | mouse_slow h => omega
  | state_hold arg h => omega
  | state_push arg h => omega
  | state_pop h => omega
  | modifier m h => unfold add_modifier; rw [if_pos hge]; exact hfs _
  | set_repeat => unfold set_repeat; rw [if_pos hge]; exact hfs _
  | key_special k h => exact hfs _
  | key k h => omega
  | mouse_movement h => exact hfs _
  | arrow_keys h => exact hfs _

theorem steps_composite_frame (E : Env) (btn : Nat) (hbtn : GBTN_MAX ≤ btn)
    (c c1 : gptokeyb_config) (h : Relation.ReflTransGen (Step E btn) c c1) :
    (∀ i, (i < special_button_min btn ∨ special_button_max btn ≤ i) →
      c1.button i = c.button i) ∧
    c1.map_check = c.map_check ∧ c1.name = c.name := by
  induction h with
  | refl => exact ⟨fun _ _ => rfl, rfl, rfl⟩
  | tail _ hs ih =>
    obtain ⟨a1, a2, a3⟩ := step_composite_frame E btn hbtn _ _ hs
    obtain ⟨b1, b2, b3⟩ := ih
    exact ⟨fun i hi => (a1 i hi).trans (b1 i hi), a2.trans b2, a3.trans b3⟩

/-- C5: for every profile, every composite target `c` among `DPAD`, `LEFT_ANALOG`,
`RIGHT_ANALOG`, every value and every key-name lookup, `set_btn_config` changes no
binding record whose index lies outside `[special_button_min c, special_button_max c)`,
changes no record at an index `≥ GBTN_MAX`, and leaves `map_check` (and the name)
unchanged; the range has exactly 4 entries and lies inside the concrete buttons. -/
theorem C5_composite_frame (E : Env) (config : gptokeyb_config) (c : Nat)
    (hc : c = GBTN_DPAD ∨ c = GBTN_LEFT_ANALOG ∨ c = GBTN_RIGHT_ANALOG)
    (value : List Char) :
    (∀ i, (i < special_button_min c ∨ special_button_max c ≤ i) →
      (set_btn_config E config c value).button i = config.button i) ∧
    (∀ i, GBTN_MAX ≤ i → (set_btn_config E config c value).button i = config.button i) ∧
    (set_btn_config E config c value).map_check = config.map_check ∧
    (set_btn_config E config c value).name = config.name ∧
    special_button_max c = special_button_min c + 4 ∧
    special_button_max c ≤ GBTN_MAX := by
  obtain ⟨hmax, hle, hge⟩ := special_range c hc
  obtain ⟨h1, h2, h3⟩ :=
    steps_composite_frame E c hge _ _ (set_btn_config_steps E config c value)
  exact ⟨h1, fun i hi => h1 i (Or.inr (by omega)), h2, h3, hmax, hle⟩

/-- C5 at `left_analog = "f1" add_alt repeat` on a zeroed profile: the d-pad record
`right` (index 16, just below the range) and `right_analog_up` (index 21, just above
it) stay as they were. -/
theorem C5_composite_frame_witness :
    (set_btn_config sampleEnv (zero_config sampleEnv) GBTN_LEFT_ANALOG
        (DQUOTE :: "f1".toList ++ DQUOTE :: " add_alt repeat".toList)).button 16
      = (zero_config sampleEnv).button 16 ∧
    (set_btn_config sampleEnv (zero_config sampleEnv) GBTN_LEFT_ANALOG
        (DQUOTE :: "f1".toList ++ DQUOTE :: " add_alt repeat".toList)).button 21
      = (zero_config sampleEnv).button 21 :=
  ⟨(C5_composite_frame sampleEnv (zero_config sampleEnv) GBTN_LEFT_ANALOG
      (Or.inr (Or.inl rfl)) _).1 16 (by decide),
   (C5_composite_frame sampleEnv (zero_config sampleEnv) GBTN_LEFT_ANALOG
      (Or.inr (Or.inl rfl)) _).1 21 (by decide)⟩

/-! ## C6: a modifier word as first token -/

theorem or_and_self_right (x m : Nat) : (x ||| m) &&& m = m := by
  apply Nat.eq_of_testBit_eq
  intro i
  simp only [Nat.testBit_and, Nat.testBit_or]
  cases x.testBit i <;> cases m.testBit i <;> rfl

/-- A value that is one token of the key-name branch, other than `mouse_movement` and
`arrow_keys`, on a concrete button: the key-name attempt. -/
theorem set_btn_config_key_attempt (E : Env) (config : gptokeyb_config) (b : Nat)
    (hb : b < GBTN_MAX) (w : List Char) (hne : w.length ≠ 0) (htok : tokens w = [w])
    (hbr : branch_of true w = Branch.key)
    (h1 : strcaseeq w "mouse_movement".toList = false)
    (h2 : strcaseeq w "arrow_keys".toList = false) :
    set_btn_config E config b w =
      match E.find_keyboard w with
      | some key =>
        setButton config b (fun r => { r with keycode := key.keycode, action := ACT_NONE })
      | none => config := by
  have hge : ¬ b ≥ GBTN_MAX := by omega
  unfold set_btn_config
  rw [if_neg hne, htok, token_loop, hbr]
  cases E.find_keyboard w with
  | none => simp only [h1, h2, if_false, token_loop_nil, Bool.false_eq_true]
  | some key => simp only [hge, if_false, token_loop_nil]

/-- The key `f1` and then one token of a modifier branch, on a concrete button: the
modifier of the button gets the bit, whatever the lookup makes of `f1`. -/
theorem f1_then_modifier (E : Env) (config : gptokeyb_config) (b : Nat)
    (hb : b < GBTN_MAX) (v w : List Char) (m : Nat) (hne : v.length ≠ 0)
    (htok : tokens v = ["f1".toList, w])
    (hw : ∀ c : gptokeyb_config, token_loop E b false [w] c = add_modifier b m c) :
    ((set_btn_config E config b v).button b).modifier = (config.button b).modifier ||| m := by
  have hge : ¬ b ≥ GBTN_MAX := by omega
  have hbr : branch_of true "f1".toList = Branch.key := by decide
  have h1 : strcaseeq "f1".toList "mouse_movement".toList = false := by decide
  have h2 : strcaseeq "f1".toList "arrow_keys".toList = false := by decide
  unfold set_btn_config
  rw [if_neg hne, htok, token_loop, hbr]
  cases E.find_keyboard "f1".toList with
  | none =>
    simp only [h1, h2, if_false, Bool.false_eq_true]
    rw [hw]
    simp [add_modifier, hge, setButton]
  | some key =>
    simp only [hge, if_false]
    rw [hw]
    simp [add_modifier, hge, setButton]

/-- C6: for every profile and concrete button `b`, the value `alt` alone is handled
as a key-name attempt and leaves the modifier of `button[b]` unchanged, whereas with
the value `f1 alt` the second token is a modifier-add: the modifier afterwards is the
old one with the `ALT` bit set.  The same holds for `ctrl` and `shift`. -/
theorem C6_first_token_is_no_modifier (E : Env) (config : gptokeyb_config) (b : Nat)
    (hb : b < GBTN_MAX) :
    (set_btn_config E config b "alt".toList =
        (match E.find_keyboard "alt".toList with
         | some key =>
           setButton config b (fun r => { r with keycode := key.keycode, action := ACT_NONE })
         | none => config) ∧
      ((set_btn_config E config b "alt".toList).button b).modifier
        = (config.button b).modifier ∧
      ((set_btn_config E config b "f1 alt".toList).button b).modifier
        = (config.button b).modifier ||| E.MOD_ALT ∧
      ((set_btn_config E config b "f1 alt".toList).button b).modifier &&& E.MOD_ALT
        = E.MOD_ALT) ∧
    (set_btn_config E config b "ctrl".toList =
        (match E.find_keyboard "ctrl".toList with
         | some key =>
           setButton config b (fun r => { r with keycode := key.keycode, action := ACT_NONE })
         | none => config) ∧
      ((set_btn_config E config b "ctrl".toList).button b).modifier
        = (config.button b).modifier ∧
      ((set_btn_config E config b "f1 ctrl".toList).button b).modifier
        = (config.button b).modifier ||| E.MOD_CTRL ∧
      ((set_btn_config E config b "f1 ctrl".toList).button b).modifier &&& E.MOD_CTRL
        = E.MOD_CTRL) ∧
    (set_btn_config E config b "shift".toList =
        (match E.find_keyboard "shift".toList with
         | some key =>
           setButton config b (fun r => { r with keycode := key.keycode, action := ACT_NONE })
         | none => config) ∧
      ((set_btn_config E config b "shift".toList).button b).modifier
        = (config.button b).modifier ∧
      ((set_btn_config E config b "f1 shift".toList).button b).modifier
        = (config.button b).modifier ||| E.MOD_SHIFT ∧
      ((set_btn_config E config b "f1 shift".toList).button b).modifier &&& E.MOD_SHIFT
        = E.MOD_SHIFT) := by
  have hmod : ∀ (w : List Char),
      set_btn_config E config b w =
        (match E.find_keyboard w with
         | some key =>
           setButton config b (fun r => { r with keycode := key.keycode, action := ACT_NONE })
         | none => config) →
      ((set_btn_config E config b w).button b).modifier = (config.button b).modifier := by
    intro w h
    rw [h]
    cases E.find_keyboard w <;> simp [setButton]
  have ha := set_btn_config_key_attempt E config b hb "alt".toList (by decide) (by decide)
    (by decide) (by decide) (by decide)
  have hc := set_btn_config_key_attempt E config b hb "ctrl".toList (by decide) (by decide)
    (by decide) (by decide) (by decide)
  have hs := set_btn_config_key_attempt E config b hb "shift".toList (by decide) (by decide)
    (by decide) (by decide) (by decide)
  have ha2 := f1_then_modifier E config b hb "f1 alt".toList "alt".toList E.MOD_ALT
    (by decide) (by decide)
    (fun c => by
      rw [token_loop, show branch_of false "alt".toList = Branch.add_alt by decide]
      simp only [token_loop_nil])
  have hc2 := f1_then_modifier E config b hb "f1 ctrl".toList "ctrl".toList E.MOD_CTRL
    (by decide) (by decide)
    (fun c => by
      rw [token_loop, show branch_of false "ctrl".toList = Branch.add_ctrl by decide]
      simp only [token_loop_nil])
  have hs2 := f1_then_modifier E config b hb "f1 shift".toList "shift".toList E.MOD_SHIFT
    (by decide) (by decide)
    (fun c => by
      rw [token_loop, show branch_of false "shift".toList = Branch.add_shift by decide]
      simp only [token_loop_nil])
  refine ⟨⟨ha, hmod _ ha, ha2, ?_⟩, ⟨hc, hmod _ hc, hc2, ?_⟩, ⟨hs, hmod _ hs, hs2, ?_⟩⟩
  · rw [ha2]; exact or_and_self_right _ _
  · rw [hc2]; exact or_and_self_right _ _
  · rw [hs2]; exact or_and_self_right _ _

/-- C6 on button `a` of a zeroed profile with the sample header (`MOD_ALT = 1`):
`alt` leaves the modifier 0, `f1 alt` makes it 1. -/
theorem C6_first_token_is_no_modifier_witness :
    ((set_btn_config sampleEnv (zero_config sampleEnv) 0 "alt".toList).button 0).modifier = 0 ∧
    ((set_btn_config sampleEnv (zero_config sampleEnv) 0 "f1 alt".toList).button 0).modifier
      = 1 := by
  have h := (C6_first_token_is_no_modifier sampleEnv (zero_config sampleEnv) 0 (by decide)).1
  exact ⟨h.2.1, h.2.2.1⟩

/-! ## C7: a directive whose argument is missing -/

theorem branch_of_hold (fr : Bool) (p : List Char)
    (h : branch_of fr p = Branch.hold_state) : strcaseeq p "hold_state".toList = true := by
  unfold branch_of at h
  split_ifs at h
  assumption

theorem branch_of_push (fr : Bool) (p : List Char)
    (h : branch_of fr p = Branch.push_state) : strcaseeq p "push_state".toList = true := by
  unfold branch_of at h
  split_ifs at h
  assumption

theorem branch_of_set (fr : Bool) (p : List Char)
    (h : branch_of fr p = Branch.set_state) : strcaseeq p "set_state".toList = true := by
  unfold branch_of at h
  split_ifs at h
  assumption

/-- A directive that takes a profile name, as the last token: the loop ends and the
profile stays as it is. -/
theorem token_loop_lone_directive (E : Env) (btn : Nat) (fr : Bool) (d : List Char)
    (hd : d = "hold_state".toList ∨ d = "push_state".toList ∨ d = "set_state".toList)
    (c : gptokeyb_config) : token_loop E btn fr [d] c = c := by
  rcases hd with rfl | rfl | rfl
  · rw [token_loop, show branch_of fr "hold_state".toList = Branch.hold_state by
      cases fr <;> decide]
    simp only []
    split_ifs <;> rfl
  · rw [token_loop, show branch_of fr "push_state".toList = Branch.push_state by
      cases fr <;> decide]
    simp only []
    split_ifs <;> rfl
  · rw [token_loop, show branch_of fr "set_state".toList = Branch.set_state by
      cases fr <;> decide]

/-- A token that is none of the three directives, followed by one of them as the last
token: the same profile as for the token alone. -/
theorem token_loop_then_lone_directive (E : Env) (btn : Nat) (fr : Bool) (p d : List Char)
    (hd : d = "hold_state".toList ∨ d = "push_state".toList ∨ d = "set_state".toList)
    (h1 : strcaseeq p "hold_state".toList = false)
    (h2 : strcaseeq p "push_state".toList = false)
    (h3 : strcaseeq p "set_state".toList = false)
    (c : gptokeyb_config) : token_loop E btn fr [p, d] c = token_loop E btn fr [p] c := by
  have hl : ∀ c1 : gptokeyb_config, token_loop E btn false [d] c1 = c1 :=
    fun c1 => token_loop_lone_directive E btn false d hd c1
  rw [token_loop.eq_3 E btn fr c p d [], token_loop.eq_2 E btn fr c p]
  cases hbr : branch_of fr p with
  | hold_state => rw [branch_of_hold fr p hbr] at h1; cases h1
  | push_state => rw [branch_of_push fr p hbr] at h2; cases h2
  | set_state => rw [branch_of_set fr p hbr] at h3; cases h3
  | key =>
    cases E.find_keyboard p <;> simp only [hl, token_loop_nil]
  | _ => simp only [hl, token_loop_nil]

/-- A value whose token sequence ends in a directive without its argument, after at
most one token that is none of the three directives, gives the profile that the token
sequence without the directive gives. -/
theorem set_btn_config_lone_directive (E : Env) (config : gptokeyb_config) (btn : Nat)
    (d : List Char)
    (hd : d = "hold_state".toList ∨ d = "push_state".toList ∨ d = "set_state".toList)
    (ts : List (List Char))
    (hts : ts = [] ∨ ∃ p, ts = [p] ∧ strcaseeq p "hold_state".toList = false ∧
      strcaseeq p "push_state".toList = false ∧ strcaseeq p "set_state".toList = false)
    (v v0 : List Char) (hv : tokens v = ts ++ [d]) (hv0 : tokens v0 = ts) :
    set_btn_config E config btn v = set_btn_config E config btn v0 := by
  have h0 : set_btn_config E config btn v0 = token_loop E btn true ts config := by
    unfold set_btn_config
    split
    · rename_i h
      have : v0 = [] := List.length_eq_zero.1 h
      subst this
      have : tokens [] = [] := by decide
      rw [← hv0, this, token_loop_nil]
    · rw [hv0]
  have h1 : set_btn_config E config btn v = token_loop E btn true (ts ++ [d]) config := by
    unfold set_btn_config
    split
    · rename_i h
      have : v = [] := List.length_eq_zero.1 h
      subst this
      have : tokens [] = [] := by decide
      rw [this] at hv
      cases ts <;> simp at hv
    · rw [hv]
  rw [h0, h1]
  rcases hts with rfl | ⟨p, rfl, hp1, hp2, hp3⟩
  · simp only [List.nil_append, token_loop_nil]
    exact token_loop_lone_directive E btn true d hd config
  · exact token_loop_then_lone_directive E btn true p d hd hp1 hp2 hp3 config

/-- C7: for every profile state, every target button (concrete or composite) and
every directive `d` among `hold_state`, `push_state`, `set_state`: `set_btn_config`
with a value in which `d` is the last token and stands alone or after one token `p`
that is none of these directives (in the case-insensitive comparison of the dispatch)
leaves the profile in exactly the state that the value without `d` produces.  This
holds for all values with such token sequences; `d` alone leaves the whole profile
unmodified; and for an unquoted word `p` the value `p d`, read within the 1023 bytes
of the tokenizer, gives the same profile as the value `p`. -/
theorem C7_missing_argument (E : Env) (config : gptokeyb_config) (btn : Nat)
    (d : List Char)
    (hd : d = "hold_state".toList ∨ d = "push_state".toList ∨ d = "set_state".toList) :
    (∀ (ts : List (List Char)) (v v0 : List Char),
      (ts = [] ∨ ∃ p, ts = [p] ∧ strcaseeq p "hold_state".toList = false ∧
        strcaseeq p "push_state".toList = false ∧ strcaseeq p "set_state".toList = false) →
      tokens v = ts ++ [d] → tokens v0 = ts →
      set_btn_config E config btn v = set_btn_config E config btn v0) ∧
    set_btn_config E config btn d = config ∧
    (∀ p : List Char, IsWord p → strcaseeq p "hold_state".toList = false →
      strcaseeq p "push_state".toList = false → strcaseeq p "set_state".toList = false →
      (p ++ ' ' :: d).length ≤ 1023 →
      set_btn_config E config btn (p ++ ' ' :: d) = set_btn_config E config btn p) := by
  have hword : IsWord d := by
    rcases hd with rfl | rfl | rfl <;> decide
  have key := set_btn_config_lone_directive E config btn d hd
  have hone : ∀ w : List Char, IsWord w → w.length ≤ 1023 → tokens w = [w] := by
    intro w hw hl
    have := tokens_words [] w [] [] (by simp [IsBlankRun]) hw (by simp) (by simp [IsBlankRun])
      (by simpa [sepWords] using hl)
    simpa [sepWords] using this
  have hdl : d.length ≤ 1023 := by
    rcases hd with rfl | rfl | rfl <;> decide
  refine ⟨fun ts v v0 hts hv hv0 => key ts hts v v0 hv hv0, ?_, ?_⟩
  · have h := key [] (Or.inl rfl) d [] (by simpa using hone d hword hdl) (by decide)
    rw [h]
    rfl
  · intro p hp h1 h2 h3 hlen
    have hpl : p.length ≤ 1023 := by
      simp only [List.length_append, List.length_cons] at hlen; omega
    exact key [p] (Or.inr ⟨p, rfl, h1, h2, h3⟩) _ p
      (by simpa using tokens_directive_arg p d hp hword hlen) (hone p hp hpl)

/-- C7 at the values `f1 hold_state` and `f1` on button `a`, and at `hold_state`
alone, whose target stays unmodified. -/
theorem C7_missing_argument_witness :
    set_btn_config sampleEnv (zero_config sampleEnv) 0 "f1 hold_state".toList
      = set_btn_config sampleEnv (zero_config sampleEnv) 0 "f1".toList ∧
    set_btn_config sampleEnv (zero_config sampleEnv) 0 "hold_state".toList
      = zero_config sampleEnv :=
  ⟨(C7_missing_argument sampleEnv (zero_config sampleEnv) 0 "hold_state".toList
      (Or.inl rfl)).2.2 "f1".toList (by decide) (by decide) (by decide) (by decide)
      (by decide),
   (C7_missing_argument sampleEnv (zero_config sampleEnv) 0 "hold_state".toList
      (Or.inl rfl)).2.1⟩

/-! ## Name comparison -/

theorem strcaseeq_refl (a : List Char) : strcaseeq a a = true := by
  simp [strcaseeq]

theorem strcaseeq_length (a b : List Char) (h : strcaseeq a b = true) :
    a.length = b.length := by
  simp only [strcaseeq, beq_iff_eq] at h
  have := congrArg List.length h
  simpa using this

theorem startsWith_length (p s : List Char) (h : startsWith p s = true) :
    p.length ≤ s.length := by
  induction p generalizing s with
  | nil => simp
  | cons a p ih =>
    cases s with
    | nil => simp [startsWith] at h
    | cons b s =>
      simp only [startsWith, Bool.and_eq_true] at h
      have := ih s h.2
      simp only [List.length_cons]; omega

theorem startsWith_append (p x : List Char) : startsWith p (p ++ x) = true := by
  induction p with
  | nil => simp [startsWith]
  | cons a p ih => simp [startsWith, ih]

theorem startsWith_take (p s : List Char) (k : Nat) (h : startsWith p s = true)
    (hk : p.length ≤ k) : startsWith p (s.take k) = true := by
  induction p generalizing s k with
  | nil => simp [startsWith]
  | cons a p ih =>
    cases s with
    | nil => simp [startsWith] at h
    | cons b s =>
      cases k with
      | zero => simp at hk
      | succ k =>
        simp only [startsWith, Bool.and_eq_true] at h
        simp only [List.take_succ_cons, startsWith, Bool.and_eq_true]
        exact ⟨h.1, ih s k h.2 (by simp only [List.length_cons] at hk; omega)⟩

theorem controls_colon_length : ("controls:".toList.map Char.toLower).length = 9 := by decide

theorem strcasestartswith_length (n : List Char)
    (h : strcasestartswith n "controls:".toList = true) : 9 ≤ n.length := by
  have := startsWith_length _ _ h
  rw [controls_colon_length] at this
  simpa using this

theorem strcasestartswith_take (n : List Char) (k : Nat)
    (h : strcasestartswith n "controls:".toList = true) (hk : 9 ≤ k) :
    strcasestartswith (n.take k) "controls:".toList = true := by
  unfold strcasestartswith at *
  rw [List.map_take]
  exact startsWith_take _ _ k h (by rw [controls_colon_length]; exact hk)

theorem strcasestartswith_controls_append (x : List Char) :
    strcasestartswith ("controls:".toList ++ x) "controls:".toList = true := by
  unfold strcasestartswith
  rw [List.map_append]
  exact startsWith_append _ _

theorem not_controls_of_starts (n : List Char)
    (h : strcasestartswith n "controls:".toList = true) :
    strcaseeq "controls".toList n = false := by
  have h9 := strcasestartswith_length n h
  cases hc : strcaseeq "controls".toList n with
  | false => rfl
  | true =>
    have := strcaseeq_length _ _ hc
    have h8 : "controls".toList.length = 8 := by decide
    omega

/-! ## config_find and config_create -/

theorem find_loop_none (n : List Char) :
    ∀ (l : List gptokeyb_config) (i : Nat), find_loop n l i = none →
      ∀ c ∈ l, strcaseeq c.name n = false := by
  intro l
  induction l with
  | nil => intro i _ c hc; cases hc
  | cons a l ih =>
    intro i h c hc
    unfold find_loop at h
    split_ifs at h with ha
    rcases List.mem_cons.1 hc with rfl | hc
    · simpa using ha
    · exact ih (i + 1) h c hc

theorem nice_name_eq_normalize (E : Env) (n : List Char)
    (hlen : (normalize n).length + 2 ≤ E.MAX_CONTROL_NAME) : nice_name E n = normalize n := by
  by_cases h : strcasestartswith n "controls:".toList = true
  · have e : normalize n = n := if_pos h
    unfold nice_name
    rw [e]
    simp only [h, Bool.not_true, Bool.false_eq_true, if_false]
  · have e : normalize n = "controls:".toList ++ n := if_neg h
    have h2 : strcasestartswith n "controls:".toList = false := Bool.eq_false_iff.2 h
    rw [e] at hlen ⊢
    unfold nice_name snprintf_controls
    simp only [h2, Bool.not_false, if_true]
    exact List.take_of_length_le (by omega)

theorem created_name_eq_normalize (E : Env) (n : List Char)
    (hlen : (normalize n).length + 2 ≤ E.MAX_CONTROL_NAME) :
    created_name E n = normalize n := by
  by_cases h : strcasestartswith n "controls:".toList = true
  · have e : normalize n = n := if_pos h
    rw [e] at hlen ⊢
    unfold created_name
    simp only [h, Bool.not_true, Bool.false_eq_true, if_false]
    exact List.take_of_length_le (by omega)
  · have e : normalize n = "controls:".toList ++ n := if_neg h
    have h2 : strcasestartswith n "controls:".toList = false := Bool.eq_false_iff.2 h
    rw [e] at hlen ⊢
    unfold created_name snprintf_controls
    simp only [h2, Bool.not_false, if_true]
    exact List.take_of_length_le (by omega)

theorem config_find_eq_find_loop (E : Env) (store : Store) (n : List Char)
    (h : strcaseeq "controls".toList n = false) :
    config_find E store n = find_loop (nice_name E n) store 0 := by
  unfold config_find
  rw [h]
  simp only [Bool.false_eq_true, if_false]

/-! ## C10: find after create -/

theorem overlay_named_step_button (E : Env) (other cur : gptokeyb_config) (btn i : Nat) :
    (overlay_named_step E other cur btn).button i =
      if i = btn then overlay_record E (other.button btn) (cur.button btn)
      else cur.button i := by
  unfold overlay_named_step overlay_record
  by_cases h : i = btn
  · subst h
    by_cases ha : (other.button i).action ≥ ACT_STATE_HOLD
    · simp [setButton, ha]
    · simp [setButton, ha]
  · by_cases ha : (other.button btn).action ≥ ACT_STATE_HOLD
    · simp [setButton, ha, h, Function.update_noteq h]
    · simp [setButton, ha, h, Function.update_noteq h]

theorem overlay_named_step_rest (E : Env) (other cur : gptokeyb_config) (btn : Nat) :
    (overlay_named_step E other cur btn).name = cur.name ∧
    (overlay_named_step E other cur btn).map_check =
      (cur.map_check || decide ((other.button btn).action ≥ ACT_STATE_HOLD)) := by
  unfold overlay_named_step
  by_cases ha : (other.button btn).action ≥ ACT_STATE_HOLD
  · simp [setButton, ha]
  · simp [setButton, ha]

theorem overlay_fold (E : Env) (other : gptokeyb_config) :
    ∀ (n : Nat) (cur : gptokeyb_config),
      (∀ i, (((List.range n).foldl (overlay_named_step E other) cur).button i) =
        if i < n then overlay_record E (other.button i) (cur.button i) else cur.button i) ∧
      ((List.range n).foldl (overlay_named_step E other) cur).name = cur.name ∧
      ((List.range n).foldl (overlay_named_step E other) cur).map_check =
        (cur.map_check ||
          (List.range n).any (fun b => decide ((other.button b).action ≥ ACT_STATE_HOLD))) := by
  intro n
  induction n with
  | zero => intro cur; simp
  | succ n ih =>
    intro cur
    obtain ⟨h1, h2, h3⟩ := ih cur
    rw [List.range_succ, List.foldl_append]
    simp only [List.foldl_cons, List.foldl_nil]
    refine ⟨?_, ?_, ?_⟩
    · intro i
      rw [overlay_named_step_button, h1, h1]
      by_cases a : i = n
      · subst a; simp
      · by_cases b : i < n
        · have : i < n + 1 := by omega
          simp [a, b, this]
        · have : ¬ i < n + 1 := by omega
          simp [a, b, this]
    · rw [(overlay_named_step_rest _ _ _ _).1, h2]
    · rw [(overlay_named_step_rest _ _ _ _).2, h3, List.any_append]
      simp [Bool.or_assoc]

/-- The profile `config_overlay_named` leaves in the destination. -/
theorem overlay_named_loop_spec (E : Env) (other cur : gptokeyb_config) :
    (∀ i, (overlay_named_loop E other cur).button i =
      if i < GBTN_MAX then overlay_record E (other.button i) (cur.button i)
      else cur.button i) ∧
    (overlay_named_loop E other cur).name = cur.name ∧
    (overlay_named_loop E other cur).map_check =
      (cur.map_check ||
        (List.range GBTN_MAX).any
          (fun b => decide ((other.button b).action ≥ ACT_STATE_HOLD))) :=
  overlay_fold E other GBTN_MAX cur

theorem config_overlay_named_eq (E : Env) (store : Store) (dst src : Nat)
    (d s : gptokeyb_config) (name : List Char) (hd : store[dst]? = some d)
    (hs : store[src]? = some s) (hne : dst ≠ src)
    (hfind : config_find E store name = some src) :
    config_overlay_named E store dst name = store.set dst (overlay_named_loop E s d) := by
  unfold config_overlay_named
  rw [hfind]
  simp only [hne, if_false, hd, hs]

theorem cstr_no_nul (a : List Char) : ∀ c ∈ cstr a, c ≠ NUL := by
  intro c hc
  have := List.mem_takeWhile_imp hc
  simpa using this

/-- What `config_overlay_named(dst, src.name)` copies when `config_find(src.name)`
resolves to `src`, a profile other than `dst`: keycode, modifier and action of every
concrete button, and for a copied action of `STATE_HOLD` or later the bytes that
`strncpy(.., MAX_CONTROL_NAME - 1)` writes from the target name of the source, with
`map_check` set; the two target names are equal as strings when the one of the source
is shorter than `MAX_CONTROL_NAME - 1`. -/
theorem overlay_named_copies (E : Env) (store : Store) (dst src : Nat)
    (d s : gptokeyb_config) (hd : store[dst]? = some d) (hs : store[src]? = some s)
    (hne : dst ≠ src) (hfind : config_find E store s.name = some src) :
    ∃ d1, (config_overlay_named E store dst s.name)[dst]? = some d1 ∧
      (config_overlay_named E store dst s.name)[src]? = some s ∧
      ∀ b, b < GBTN_MAX →
        (d1.button b).keycode = (s.button b).keycode ∧
        (d1.button b).modifier = (s.button b).modifier ∧
        (d1.button b).action = (s.button b).action ∧
        ((d1.button b).action ≥ ACT_STATE_HOLD →
          (d1.button b).cfg_name =
            strncpy (d.button b).cfg_name (cstr (s.button b).cfg_name)
              (E.MAX_CONTROL_NAME - 1) ∧
          ((cstr (s.button b).cfg_name).length < E.MAX_CONTROL_NAME - 1 →
            cstr (d1.button b).cfg_name = cstr (s.button b).cfg_name) ∧
          d1.map_check = true) := by
  have hlt : dst < store.length := by
    rcases Nat.lt_or_ge dst store.length with h | h
    · exact h
    · rw [List.getElem?_eq_none h] at hd; cases hd
  rw [config_overlay_named_eq E store dst src d s s.name hd hs hne hfind]
  obtain ⟨hb, _, hm⟩ := overlay_named_loop_spec E s d
  refine ⟨overlay_named_loop E s d, ?_, ?_, ?_⟩
  · simp [List.getElem?_set, hlt]
  · rw [List.getElem?_set_ne hne]; exact hs
  · intro b hbm
    rw [hb b, if_pos hbm]
    refine ⟨rfl, rfl, rfl, ?_⟩
    intro ha
    have ha2 : (s.button b).action ≥ ACT_STATE_HOLD := ha
    have hcfg : (overlay_record E (s.button b) (d.button b)).cfg_name =
        strncpy (d.button b).cfg_name (cstr (s.button b).cfg_name)
          (E.MAX_CONTROL_NAME - 1) := by
      simp only [overlay_record, ha2, if_true]
    refine ⟨hcfg, ?_, ?_⟩
    · intro hl
      rw [hcfg]
      exact cstr_strncpy _ _ _ (cstr_no_nul _) hl
    · rw [hm]
      have : (List.range GBTN_MAX).any
          (fun b => decide ((s.button b).action ≥ ACT_STATE_HOLD)) = true := by
        rw [List.any_eq_true]
        exact ⟨b, List.mem_range.2 hbm, by simpa using ha2⟩
      simp [this]

/-- The overlay on the store with the root and the profile `controls:menu` that
binds `a = push_state x`: afterwards the root binds `a` to `STATE_PUSH` with target
`x`, and its `map_check` is set. -/
theorem overlay_named_copies_example :
    ∃ d1, (config_overlay_named sampleEnv menuStore 0 menuProfile.name)[0]? = some d1 ∧
      (d1.button 0).action = ACT_STATE_PUSH ∧
      cstr (d1.button 0).cfg_name = "x".toList ∧
      d1.map_check = true := by
  obtain ⟨d1, h1, _, h3⟩ := overlay_named_copies sampleEnv menuStore 0 1 sampleRoot menuProfile
    rfl rfl (by decide) (by decide)
  obtain ⟨_, _, ha, hc⟩ := h3 0 (by decide)
  have hact : (menuProfile.button 0).action = ACT_STATE_PUSH := by decide
  have hge : (d1.button 0).action ≥ ACT_STATE_HOLD := by rw [ha, hact]; decide
  obtain ⟨_, hs, hm⟩ := hc hge
  refine ⟨d1, h1, ha.trans hact, ?_, hm⟩
  rw [hs (by decide)]
  decide

/-- C8 fails on the code, on stores the program can reach.  In `longTargetStore` the
profile `controls:s` binds `a = hold_state` with a target of 64 characters:
`set_btn_config` copies it with `strncpy(.., MAX_CONTROL_NAME)`, which fills the
`cfg_name` array and leaves it without a terminator, while `config_overlay_named`
copies with `strncpy(.., MAX_CONTROL_NAME - 1)`; after the overlay the target of the
root is 63 characters long and differs from that of the source.  In `twinStore` two
profiles carry the same name (the 69 characters of `longName` cut to 63 by
`config_create`); the name of the older one, at position 2, resolves to the newer
one, at position 1, so the overlay gives the root the action `MOUSE_SLOW` of the
newer one and not the action `NONE` of the profile it was asked to copy. -/
theorem C8_overlay_copy_differs :
    ((longTargetStore[1]?).map (fun p => p.name) = some "controls:s".toList ∧
      (longTargetStore[1]?).map (fun p => (p.button 0).action) = some ACT_STATE_HOLD ∧
      (longTargetStore[1]?).map (fun p => (p.button 0).cfg_name)
        = some (List.replicate 64 'x') ∧
      ((config_overlay_named sampleEnv longTargetStore 0 "controls:s".toList)[0]?).map
          (fun p => (p.button 0).cfg_name) = some (List.replicate 63 'x' ++ [NUL]) ∧
      ((config_overlay_named sampleEnv longTargetStore 0 "controls:s".toList)[0]?).map
          (fun p => cstr (p.button 0).cfg_name)
        ≠ (longTargetStore[1]?).map (fun p => cstr (p.button 0).cfg_name)) ∧
    ((twinStore[2]?).map (fun p => p.name) = some (longName.take 63) ∧
      (twinStore[2]?).map (fun p => (p.button 0).action) = some ACT_NONE ∧
      ((config_overlay_named sampleEnv twinStore 0 (longName.take 63))[0]?).map
          (fun p => (p.button 0).action) = some ACT_MOUSE_SLOW) := by
  decide

/-! ## The names of a reachable store -/

theorem step_name (E : Env) (btn : Nat) (c c1 : gptokeyb_config) (h : Step E btn c c1) :
    c1.name = c.name := by
  cases h with
  | mouse_slow h => rfl
  | state_hold arg h => rfl
  | state_push arg h => rfl
  | state_pop h => rfl
  | modifier m h =>
    unfold add_modifier
    split
    · exact for_special_name _ _ _
    · rfl
  | set_repeat =>
    unfold set_repeat
    split
    · exact for_special_name _ _ _
    · rfl
  | key_special k h => exact for_special_name _ _ _
  | key k h => rfl
  | mouse_movement h => exact for_special_name _ _ _
  | arrow_keys h => exact for_special_name _ _ _

theorem set_btn_config_name (E : Env) (c : gptokeyb_config) (btn : Nat) (value : List Char) :
    (set_btn_config E c btn value).name = c.name := by
  have key : ∀ c1, Relation.ReflTransGen (Step E btn) c c1 → c1.name = c.name := by
    intro c1 h
    induction h with
    | refl => rfl
    | tail _ hs ih => rw [step_name E btn _ _ hs, ih]
  exact key _ (set_btn_config_steps E c btn value)

theorem config_overlay_parent_name (c : gptokeyb_config) :
    (config_overlay_parent c).name = c.name := by
  unfold config_overlay_parent
  generalize List.range GBTN_MAX = l
  induction l generalizing c with
  | nil => rfl
  | cons a l ih =>
    simp only [List.foldl_cons]
    rw [ih]
    rfl

theorem map_name_set (l : List gptokeyb_config) (p : Nat) (c c1 : gptokeyb_config)
    (h : l[p]? = some c) (hn : c1.name = c.name) :
    (l.set p c1).map (fun x => x.name) = l.map (fun x => x.name) := by
  induction l generalizing p with
  | nil => simp
  | cons a l ih =>
    cases p with
    | zero =>
      simp only [List.getElem?_cons_zero, Option.some.injEq] at h
      subst h
      simp [hn]
    | succ p =>
      simp only [List.getElem?_cons_succ] at h
      simp only [List.set_cons_succ, List.map_cons, ih p h]

theorem store_set_btn_names (E : Env) (s : Store) (p btn : Nat) (value : List Char) :
    (store_set_btn E s p btn value).map (fun x => x.name) = s.map (fun x => x.name) := by
  unfold store_set_btn
  cases h : s[p]? with
  | none => rfl
  | some c => exact map_name_set s p c _ h (set_btn_config_name E c btn value)

theorem store_overlay_parent_names (s : Store) (p : Nat) :
    (store_overlay_parent s p).map (fun x => x.name) = s.map (fun x => x.name) := by
  unfold store_overlay_parent
  cases h : s[p]? with
  | none => rfl
  | some c => exact map_name_set s p c _ h (config_overlay_parent_name c)

theorem config_overlay_named_names (E : Env) (s : Store) (p : Nat) (name : List Char) :
    (config_overlay_named E s p name).map (fun x => x.name) = s.map (fun x => x.name) := by
  unfold config_overlay_named
  cases config_find E s name with
  | none => rfl
  | some other =>
    simp only []
    split_ifs
    · rfl
    · cases h1 : s[p]? with
      | none => rfl
      | some cur =>
        cases h2 : s[other]? with
        | none => rfl
        | some oth =>
          exact map_name_set s p cur _ h1 (overlay_named_loop_spec E oth cur).2.1

theorem strcaseeq_comm (a b : List Char) : strcaseeq a b = strcaseeq b a := by
  unfold strcaseeq
  rw [Bool.eq_iff_iff]
  simp only [beq_iff_eq]
  exact eq_comm

theorem created_name_starts (E : Env) (n : List Char) (hM : 11 ≤ E.MAX_CONTROL_NAME) :
    strcasestartswith (created_name E n) "controls:".toList = true := by
  unfold created_name snprintf_controls
  by_cases h : strcasestartswith n "controls:".toList = true
  · simp only [h, Bool.not_true, Bool.false_eq_true, if_false]
    exact strcasestartswith_take n _ h (by omega)
  · have h2 : strcasestartswith n "controls:".toList = false := Bool.eq_false_iff.2 h
    simp only [h2, Bool.not_false, if_true]
    exact strcasestartswith_take _ _ (strcasestartswith_controls_append n) (by omega)

/-- A name that `config_find` does not find, once created, collides only with names
of `MAX_CONTROL_NAME - 1` characters. -/
theorem created_name_fresh (E : Env) (store : Store) (n : List Char) (hs : store ≠ [])
    (hf : config_find E store n = none) :
    ∀ c ∈ store, strcaseeq (created_name E n) c.name = true →
      c.name.length = E.MAX_CONTROL_NAME - 1 := by
  have hn : strcaseeq "controls".toList n = false := by
    cases hc : strcaseeq "controls".toList n with
    | false => rfl
    | true =>
      unfold config_find at hf
      rw [hc] at hf
      cases store with
      | nil => exact absurd rfl hs
      | cons a l => simp at hf
  rw [config_find_eq_find_loop E store n hn] at hf
  have hnone := find_loop_none _ _ _ hf
  intro c hc heq
  have hc2 := hnone c hc
  by_cases h : strcasestartswith n "controls:".toList = true
  · have e1 : nice_name E n = n := by
      unfold nice_name
      simp only [h, Bool.not_true, Bool.false_eq_true, if_false]
    have e2 : created_name E n = n.take (E.MAX_CONTROL_NAME - 1) := by
      unfold created_name
      simp only [h, Bool.not_true, Bool.false_eq_true, if_false]
    rw [e1] at hc2
    rw [e2] at heq
    by_cases hl : n.length ≤ E.MAX_CONTROL_NAME - 1
    · rw [List.take_of_length_le hl, strcaseeq_comm, hc2] at heq
      cases heq
    · have := strcaseeq_length _ _ heq
      rw [List.length_take] at this
      omega
  · have h2 : strcasestartswith n "controls:".toList = false := Bool.eq_false_iff.2 h
    have e1 : nice_name E n = created_name E n := by
      unfold nice_name created_name
      simp only [h2, Bool.not_false, if_true]
    rw [e1, strcaseeq_comm, heq] at hc2
    cases hc2

theorem namesOK_init (E : Env) : NamesOK E ((config_init E).map (fun x => x.name)) := by
  refine ⟨[], rfl, ?_, ?_⟩
  · intro n hn; cases hn
  · show List.Pairwise _ ["controls".toList]
    exact List.pairwise_singleton _ _

theorem namesOK_create (E : Env) (store : Store) (n : List Char)
    (hM : 11 ≤ E.MAX_CONTROL_NAME) (h : NamesOK E (store.map (fun x => x.name))) :
    NamesOK E ((config_create E store n).1.map (fun x => x.name)) := by
  unfold config_create
  cases hf : config_find E store n with
  | some r => exact h
  | none =>
    cases store with
    | nil => exact h
    | cons root next =>
      obtain ⟨rest, hr, hpre, hpw⟩ := h
      simp only [List.map_cons, List.cons.injEq] at hr
      obtain ⟨hroot, hrest⟩ := hr
      have hfresh := created_name_fresh E (root :: next) n (List.cons_ne_nil _ _) hf
      have hst := created_name_starts E n hM
      simp only [List.map_cons] at hpw ⊢
      rw [List.pairwise_cons] at hpw
      refine ⟨created_name E n :: rest, ?_, ?_, ?_⟩
      · simp [hroot, hrest, zero_config]
      · intro x hx
        rcases List.mem_cons.1 hx with rfl | hx
        · exact hst
        · exact hpre x hx
      · show List.Pairwise _ (root.name :: created_name E n :: List.map (fun x => x.name) next)
        rw [List.pairwise_cons, List.pairwise_cons]
        refine ⟨?_, ?_, hpw.2⟩
        · intro b hb
          rcases List.mem_cons.1 hb with rfl | hb
          · intro heq
            rw [hroot, not_controls_of_starts _ hst] at heq
            cases heq
          · exact hpw.1 b hb
        · intro b hb
          obtain ⟨c, hc, rfl⟩ := List.mem_map.1 hb
          exact hfresh c (List.mem_cons_of_mem _ hc)

/-- Every reachable store satisfies the invariant of the names. -/
theorem reachable_namesOK (E : Env) (hM : 11 ≤ E.MAX_CONTROL_NAME) (s : Store)
    (h : Reachable E s) : NamesOK E (s.map (fun x => x.name)) := by
  induction h with
  | init => exact namesOK_init E
  | create s name _ ih => exact namesOK_create E s name hM ih
  | set_btn s p btn value _ ih => rw [store_set_btn_names]; exact ih
  | overlay_parent s p _ ih => rw [store_overlay_parent_names]; exact ih
  | overlay_named s p name _ ih => rw [config_overlay_named_names]; exact ih

theorem find_loop_own (M : Nat) :
    ∀ (l : List gptokeyb_config) (p i : Nat) (c : gptokeyb_config),
      List.Pairwise (fun a b => strcaseeq a b = true → b.length = M - 1)
        (l.map (fun x => x.name)) →
      l[p]? = some c → c.name.length < M - 1 →
      find_loop c.name l i = some (i + p) := by
  intro l
  induction l with
  | nil => intro p i c _ h; simp at h
  | cons a l ih =>
    intro p i c hpw h hlen
    cases p with
    | zero =>
      simp only [List.getElem?_cons_zero, Option.some.injEq] at h
      subst h
      unfold find_loop
      rw [strcaseeq_refl]
      simp
    | succ p =>
      simp only [List.getElem?_cons_succ] at h
      simp only [List.map_cons, List.pairwise_cons] at hpw
      have hmem : c.name ∈ l.map (fun x => x.name) :=
        List.mem_map.2 ⟨c, List.getElem?_mem h, rfl⟩
      have hne : strcaseeq a.name c.name = false := by
        cases hc : strcaseeq a.name c.name with
        | false => rfl
        | true => have := hpw.1 _ hmem hc; omega
      unfold find_loop
      rw [hne]
      simp only [Bool.false_eq_true, if_false]
      rw [ih p (i + 1) c hpw.2 h hlen]
      congr 1
      omega

/-- In a store whose names satisfy the invariant, a name of fewer than
`MAX_CONTROL_NAME - 1` characters resolves to the profile that carries it. -/
theorem config_find_own_name (E : Env) (s : Store) (p : Nat) (c : gptokeyb_config)
    (hok : NamesOK E (s.map (fun x => x.name))) (hc : s[p]? = some c)
    (hlen : c.name.length < E.MAX_CONTROL_NAME - 1) :
    config_find E s c.name = some p := by
  obtain ⟨rest, hr, hpre, hpw⟩ := hok
  cases s with
  | nil => simp at hc
  | cons root next =>
    simp only [List.map_cons, List.cons.injEq] at hr
    cases p with
    | zero =>
      simp only [List.getElem?_cons_zero, Option.some.injEq] at hc
      subst hc
      unfold config_find
      rw [hr.1, strcaseeq_refl]
      simp
    | succ p =>
      have hc2 : next[p]? = some c := by simpa using hc
      have hst : strcasestartswith c.name "controls:".toList = true :=
        hpre _ (by rw [← hr.2]; exact List.mem_map.2 ⟨c, List.getElem?_mem hc2, rfl⟩)
      rw [config_find_eq_find_loop E _ _ (not_controls_of_starts _ hst)]
      have e1 : nice_name E c.name = c.name := by
        unfold nice_name
        simp only [hst, Bool.not_true, Bool.false_eq_true, if_false]
      rw [e1, find_loop_own E.MAX_CONTROL_NAME (root :: next) (p + 1) 0 c hpw hc hlen]
      simp

/-! ## C9: overlays that are rejected -/

/-- The overlays `config_overlay_named` rejects: it leaves the whole store unmodified
whenever `config_find(name)` is absent or resolves to `p` itself; and in every store
reachable from `config_init` (the header allowing names of at least 10 characters),
the name of a profile `p` that has fewer than `MAX_CONTROL_NAME - 1` characters
resolves to `p`, so that `config_overlay_named(p, p.name)` is rejected. -/
theorem overlay_named_rejected (E : Env) (store : Store) (p : Nat) (name : List Char) :
    ((config_find E store name = none ∨ config_find E store name = some p) →
      config_overlay_named E store p name = store) ∧
    (11 ≤ E.MAX_CONTROL_NAME → Reachable E store →
      ∀ c, store[p]? = some c → c.name.length < E.MAX_CONTROL_NAME - 1 →
        config_find E store c.name = some p ∧
        config_overlay_named E store p c.name = store) := by
  have h1 : ∀ nm, (config_find E store nm = none ∨ config_find E store nm = some p) →
      config_overlay_named E store p nm = store := by
    intro nm h
    unfold config_overlay_named
    rcases h with h | h
    · rw [h]
    · rw [h]
      simp
  refine ⟨h1 name, ?_⟩
  intro hM hr c hc hlen
  have hf := config_find_own_name E store p c (reachable_namesOK E hM store hr) hc hlen
  exact ⟨hf, h1 _ (Or.inr hf)⟩

/-- On `menuStore` the overlay of `controls:menu` with its own name and the overlay
of the root with a name that is not in the store change nothing. -/
theorem overlay_named_rejected_example :
    config_overlay_named sampleEnv menuStore 1 menuProfile.name = menuStore ∧
    config_overlay_named sampleEnv menuStore 0 "nowhere".toList = menuStore :=
  ⟨((overlay_named_rejected sampleEnv menuStore 1 []).2 (by decide)
      (Reachable.set_btn _ 1 0 _ (Reachable.create _ _ Reachable.init))
      menuProfile rfl (by decide)).2,
   (overlay_named_rejected sampleEnv menuStore 0 "nowhere".toList).1 (Or.inl (by decide))⟩

/-- C9 fails on the code.  `twinStore` is reachable from `config_init`, and its
profile at position 2 shares its name with the profile at position 1, which
`config_create` made later from the same name of 69 characters because it cuts the
name it stores and `config_find` compares the uncut one.  `config_find` resolves the
shared name to position 1, so the guard `current == other` of `config_overlay_named`
does not see that `p` at position 2 is overlaid with its own name:
`config_overlay_named(p, p.name)` copies the binding `mouse_slow` of button `a` of
the twin into `p`. -/
theorem C9_self_overlay_of_twin :
    Reachable sampleEnv twinStore ∧
    (twinStore[2]?).map (fun p => p.name) = some (longName.take 63) ∧
    config_find sampleEnv twinStore (longName.take 63) = some 1 ∧
    (twinStore[2]?).map (fun p => (p.button 0).action) = some ACT_NONE ∧
    ((config_overlay_named sampleEnv twinStore 2 (longName.take 63))[2]?).map
        (fun p => (p.button 0).action) = some ACT_MOUSE_SLOW :=
  ⟨Reachable.set_btn _ 1 0 _ (Reachable.create _ _ (Reachable.create _ _ Reachable.init)),
    by decide, by decide, by decide, by decide⟩


/-! ## C15: push_state and set_state -/

/-- A token that equals `x` without regard to case compares with every `y` as `x`
does. -/
theorem strcaseeq_of_eq (t x y : List Char) (h : strcaseeq t x = true) :
    strcaseeq t y = strcaseeq x y := by
  unfold strcaseeq at *
  rw [beq_iff_eq] at h
  rw [h]

theorem set_btn_config_tokens (E : Env) (config : gptokeyb_config) (btn : Nat)
    (v : List Char) : set_btn_config E config btn v = token_loop E btn true (tokens v) config := by
  unfold set_btn_config
  split
  · rename_i h
    have : v = [] := List.length_eq_zero.1 h
    subst this
    have : tokens [] = [] := by decide
    rw [this, token_loop_nil]
  · rfl

theorem branch_of_first_five (fr : Bool) (t x : List Char) (b : Branch)
    (h : strcaseeq t x = true) (hb : branch_of fr x = b)
    (hx : x = "mouse_slow".toList ∨ x = "hold_state".toList ∨ x = "push_state".toList ∨
      x = "set_state".toList ∨ x = "pop_state".toList) :
    branch_of fr t = b := by
  rw [← hb]
  unfold branch_of
  rw [strcaseeq_of_eq t x _ h, strcaseeq_of_eq t x "hold_state".toList h,
    strcaseeq_of_eq t x "push_state".toList h, strcaseeq_of_eq t x "set_state".toList h,
    strcaseeq_of_eq t x "pop_state".toList h]
  rcases hx with rfl | rfl | rfl | rfl | rfl <;> rfl

/-- C16: for every profile state, every composite target (`DPAD`, `LEFT_ANALOG`,
`RIGHT_ANALOG`) and every value whose first token is, without regard to case,
`mouse_slow`, `hold_state`, `push_state`, `set_state` or `pop_state`, `set_btn_config`
abandons the line and leaves the whole profile unchanged, whatever tokens follow. -/
theorem C16_composite_refuses (E : Env) (config : gptokeyb_config) (c : Nat)
    (hc : c = GBTN_DPAD ∨ c = GBTN_LEFT_ANALOG ∨ c = GBTN_RIGHT_ANALOG)
    (value t : List Char) (rest : List (List Char)) (htok : tokens value = t :: rest)
    (ht : strcaseeq t "mouse_slow".toList = true ∨ strcaseeq t "hold_state".toList = true ∨
      strcaseeq t "push_state".toList = true ∨ strcaseeq t "set_state".toList = true ∨
      strcaseeq t "pop_state".toList = true) :
    set_btn_config E config c value = config := by
  have hge : c ≥ GBTN_MAX := (special_range c hc).2.2
  rw [set_btn_config_tokens, htok]
  rcases ht with h | h | h | h | h
  · have hb := branch_of_first_five true t _ Branch.mouse_slow h (by decide) (Or.inl rfl)
    cases rest with
    | nil => rw [token_loop.eq_2, hb]; simp only [hge, if_true]
    | cons a r => rw [token_loop.eq_3 E c true config t a r, hb]; simp only [hge, if_true]
  · have hb := branch_of_first_five true t _ Branch.hold_state h (by decide)
      (Or.inr (Or.inl rfl))
    cases rest with
    | nil => rw [token_loop.eq_2, hb]; simp only [hge, if_true]
    | cons a r => rw [token_loop.eq_3 E c true config t a r, hb]; simp only [hge, if_true]
  · have hb := branch_of_first_five true t _ Branch.push_state h (by decide)
      (Or.inr (Or.inr (Or.inl rfl)))
    cases rest with
    | nil => rw [token_loop.eq_2, hb]; simp only [hge, if_true]
    | cons a r => rw [token_loop.eq_3 E c true config t a r, hb]; simp only [hge, if_true]
  · have hb := branch_of_first_five true t _ Branch.set_state h (by decide)
      (Or.inr (Or.inr (Or.inr (Or.inl rfl))))
    cases rest with
    | nil => rw [token_loop.eq_2, hb]
    | cons a r => rw [token_loop.eq_3 E c true config t a r, hb]; simp only [hge, if_true]
  · have hb := branch_of_first_five true t _ Branch.pop_state h (by decide)
      (Or.inr (Or.inr (Or.inr (Or.inr rfl))))
    cases rest with
    | nil => rw [token_loop.eq_2, hb]; simp only [hge, if_true]
    | cons a r => rw [token_loop.eq_3 E c true config t a r, hb]; simp only [hge, if_true]

/-- C16 at `dpad = Pop_State f1 add_alt` and `left_analog = set_state menu repeat` on
`menuProfile`. -/
theorem C16_composite_refuses_witness :
    set_btn_config sampleEnv menuProfile GBTN_DPAD "Pop_State f1 add_alt".toList
      = menuProfile ∧
    set_btn_config sampleEnv menuProfile GBTN_LEFT_ANALOG "set_state menu repeat".toList
      = menuProfile :=
  ⟨C16_composite_refuses sampleEnv menuProfile GBTN_DPAD (Or.inl rfl) _
      "Pop_State".toList ["f1".toList, "add_alt".toList] (by decide)
      (Or.inr (Or.inr (Or.inr (Or.inr (by decide))))),
   C16_composite_refuses sampleEnv menuProfile GBTN_LEFT_ANALOG (Or.inr (Or.inl rfl)) _
      "set_state".toList ["menu".toList, "repeat".toList] (by decide)
      (Or.inr (Or.inr (Or.inr (Or.inl (by decide)))))⟩

/-! ## C20: modifier bits and the repeat flag are never cleared -/

theorem or_and_self_left (x m : Nat) : (x ||| m) &&& x = x := by
  apply Nat.eq_of_testBit_eq
  intro i
  simp only [Nat.testBit_and, Nat.testBit_or]
  cases x.testBit i <;> cases m.testBit i <;> rfl

theorem superset_trans (a b c : Nat) (h1 : b &&& a = a) (h2 : c &&& b = b) :
    c &&& a = a := by
  rw [← h1, ← Nat.land_assoc, h2]

/-- A record after a store of the dispatch loop: its modifier holds every bit it held,
and a repeat flag that was set is set. -/
theorem setButton_keeps (c : gptokeyb_config) (s : Nat)
    (f : gptokeyb_button → gptokeyb_button)
    (hf : ∀ b, (f b).modifier &&& b.modifier = b.modifier ∧
      (b.repeat = true → (f b).repeat = true)) (i : Nat) :
    ((setButton c s f).button i).modifier &&& (c.button i).modifier = (c.button i).modifier ∧
    ((c.button i).repeat = true → ((setButton c s f).button i).repeat = true) := by
  rw [setButton_button]
  split
  · rename_i h; subst h; exact hf _
  · exact ⟨Nat.and_self _, fun h => h⟩

theorem for_special_keeps (btn : Nat) (f : Nat → gptokeyb_button → gptokeyb_button)
    (c : gptokeyb_config)
    (hf : ∀ k b, (f k b).modifier &&& b.modifier = b.modifier ∧
      (b.repeat = true → (f k b).repeat = true)) (i : Nat) :
    ((for_special btn f c).button i).modifier &&& (c.button i).modifier
      = (c.button i).modifier ∧
    ((c.button i).repeat = true → ((for_special btn f c).button i).repeat = true) := by
  rw [for_special_button]
  split
  · exact hf _ _
  · exact ⟨Nat.and_self _, fun h => h⟩

theorem set_state_binding_button (E : Env) (btn act : Nat) (arg : List Char)
    (c : gptokeyb_config) (i : Nat) :
    (set_state_binding E btn act arg c).button i =
      (setButton c btn (fun b =>
        { b with action := act,
                 cfg_name := strncpy b.cfg_name arg E.MAX_CONTROL_NAME })).button i := rfl

theorem step_keeps (E : Env) (btn : Nat) (c c1 : gptokeyb_config) (h : Step E btn c c1)
    (i : Nat) :
    (c1.button i).modifier &&& (c.button i).modifier = (c.button i).modifier ∧
    ((c.button i).repeat = true → (c1.button i).repeat = true) := by
  cases h with
  | mouse_slow h =>
    refine setButton_keeps _ _ _ ?_ i
    exact fun b => ⟨Nat.and_self _, fun h => h⟩
  | state_hold arg h =>
    rw [set_state_binding_button]
    refine setButton_keeps _ _ _ ?_ i
    exact fun b => ⟨Nat.and_self _, fun h => h⟩
  | state_push arg h =>
    rw [set_state_binding_button]
    refine setButton_keeps _ _ _ ?_ i
    exact fun b => ⟨Nat.and_self _, fun h => h⟩
  | state_pop h =>
    refine setButton_keeps _ _ _ ?_ i
    exact fun b => ⟨Nat.and_self _, fun h => h⟩
  | modifier m h =>
    unfold add_modifier
    split
    · refine for_special_keeps _ _ _ ?_ i
      exact fun _ b => ⟨or_and_self_left _ _, fun h => h⟩
    · refine setButton_keeps _ _ _ ?_ i
      exact fun b => ⟨or_and_self_left _ _, fun h => h⟩
  | set_repeat =>
    unfold set_repeat
    split
    · refine for_special_keeps _ _ _ ?_ i
      exact fun _ b => ⟨Nat.and_self _, fun _ => rfl⟩
    · refine setButton_keeps _ _ _ ?_ i
      exact fun b => ⟨Nat.and_self _, fun _ => rfl⟩
  | key_special k h =>
    refine for_special_keeps _ _ _ ?_ i
    exact fun _ b => ⟨Nat.and_self _, fun h => h⟩
  | key k h =>
    refine setButton_keeps _ _ _ ?_ i
    exact fun b => ⟨Nat.and_self _, fun h => h⟩
  | mouse_movement h =>
    refine for_special_keeps _ _ _ ?_ i
    exact fun _ b => ⟨Nat.and_self _, fun h => h⟩
  | arrow_keys h =>
    refine for_special_keeps _ _ _ ?_ i
    exact fun _ b => ⟨Nat.and_self _, fun h => h⟩

theorem steps_keep (E : Env) (btn : Nat) (c c1 : gptokeyb_config)
    (h : Relation.ReflTransGen (Step E btn) c c1) (i : Nat) :
    (c1.button i).modifier &&& (c.button i).modifier = (c.button i).modifier ∧
    ((c.button i).repeat = true → (c1.button i).repeat = true) := by
  induction h with
  | refl => exact ⟨Nat.and_self _, fun h => h⟩
  | tail _ hs ih =>
    obtain ⟨a1, a2⟩ := step_keeps E btn _ _ hs i
    exact ⟨superset_trans _ _ _ ih.1 a1, fun h => a2 (ih.2 h)⟩

/-- C20: `set_btn_config` never clears modifier bits or the repeat flag.  For every
profile state, every target button, every value and every key-name lookup, the
modifier of each record after the call holds every bit it held before, and a repeat
flag that was true stays true; in particular a value that is one key name the lookup
resolves, on a concrete button, changes the keycode and the action of that button
only, so modifiers of earlier lines stay on the new key. -/
theorem C20_modifier_repeat_kept (E : Env) (config : gptokeyb_config) (btn : Nat)
    (value : List Char) :
    (∀ i, ((set_btn_config E config btn value).button i).modifier &&&
        (config.button i).modifier = (config.button i).modifier ∧
      ((config.button i).repeat = true →
        ((set_btn_config E config btn value).button i).repeat = true)) ∧
    (∀ (w : List Char) (key : keyboard_values), btn < GBTN_MAX → tokens value = [w] →
      branch_of true w = Branch.key → E.find_keyboard w = some key →
      set_btn_config E config btn value =
        setButton config btn (fun r => { r with keycode := key.keycode, action := ACT_NONE })) := by
  refine ⟨fun i => steps_keep E btn _ _ (set_btn_config_steps E config btn value) i, ?_⟩
  intro w key hb htok hbr hk
  have hge : ¬ btn ≥ GBTN_MAX := by omega
  rw [set_btn_config_tokens, htok, token_loop.eq_2, hbr, hk]
  simp only [hge, if_false, token_loop_nil]

/-! ## C17: the accesses of the tokenizer stay in bounds -/

theorem copy_while_tr_spec (value : List Char) (vlen : Nat) (P : Char → Bool) :
    ∀ (fuel i : Nat) (buf : List Char), i ≤ vlen → vlen < fuel + i →
      ∃ r, copy_while_tr value vlen P fuel i buf = some r ∧
        r.i = (copy_while value vlen P fuel i buf).1 ∧
        r.buf = (copy_while value vlen P fuel i buf).2 ∧
        i ≤ r.i ∧ r.i ≤ vlen ∧ r.buf.length = buf.length + (r.i - i) ∧
        (∀ x ∈ r.reads, x ≤ vlen) ∧ (∀ t ∈ r.writes, t < r.buf.length) := by
  intro fuel
  induction fuel with
  | zero => intro i buf h1 h2; omega
  | succ fuel ih =>
    intro i buf h1 h2
    by_cases hc : (P (charAt value i) && decide (i < vlen)) = true
    · have hi : i < vlen := by
        simp only [Bool.and_eq_true, decide_eq_true_eq] at hc; exact hc.2
      obtain ⟨r, hr, e1, e2, b1, b2, b3, b4, b5⟩ :=
        ih (i + 1) (buf ++ [charAt value i]) (by omega) (by omega)
      refine ⟨{ r with reads := i :: r.reads, writes := buf.length :: r.writes }, ?_, ?_, ?_,
        ?_, ?_, ?_, ?_, ?_⟩
      · simp only [copy_while_tr, hc, if_true, hr, Option.map_some']
      · simp only [copy_while, hc, if_true]; exact e1
      · simp only [copy_while, hc, if_true]; exact e2
      · show i ≤ r.i; omega
      · exact b2
      · show r.buf.length = buf.length + (r.i - i)
        rw [b3, List.length_append, List.length_singleton]; omega
      · intro x hx
        rcases List.mem_cons.1 hx with rfl | hx
        · omega
        · exact b4 x hx
      · intro t ht
        rcases List.mem_cons.1 ht with rfl | ht
        · show buf.length < r.buf.length
          rw [b3, List.length_append, List.length_singleton]; omega
        · exact b5 t ht
    · refine ⟨{ i := i, buf := buf, reads := [i], writes := [] }, ?_, ?_, ?_, ?_, ?_, ?_, ?_, ?_⟩
      · simp only [copy_while_tr, hc, if_false, Bool.false_eq_true]
      · simp only [copy_while, hc, if_false, Bool.false_eq_true]
      · simp only [copy_while, hc, if_false, Bool.false_eq_true]
      · exact Nat.le_refl _
      · exact h1
      · simp
      · intro x hx; simp at hx; omega
      · intro t ht; simp at ht

theorem skip_blank_tr_spec (value : List Char) (vlen : Nat) (buf : List Char) :
    ∀ (fuel i : Nat), i ≤ vlen → vlen < fuel + i →
      ∃ r, skip_blank_tr value vlen fuel i buf = some r ∧
        r.i = skip_blank value vlen fuel i ∧ i ≤ r.i ∧
        (∀ x ∈ r.reads, x ≤ vlen) := by
  intro fuel
  induction fuel with
  | zero => intro i h1 h2; omega
  | succ fuel ih =>
    intro i h1 h2
    by_cases hc : (isBlank (charAt value i) && decide (i < vlen)) = true
    · have hi : i < vlen := by
        simp only [Bool.and_eq_true, decide_eq_true_eq] at hc; exact hc.2
      obtain ⟨r, hr, e1, b1, b4⟩ := ih (i + 1) (by omega) (by omega)
      refine ⟨{ r with reads := i :: r.reads }, ?_, ?_, ?_, ?_⟩
      · simp only [skip_blank_tr, hc, if_true, hr, Option.map_some']
      · simp only [skip_blank, hc, if_true]; exact e1
      · show i ≤ r.i; omega
      · intro x hx
        rcases List.mem_cons.1 hx with rfl | hx
        · omega
        · exact b4 x hx
    · refine ⟨{ i := i, buf := buf, reads := [i], writes := [] }, ?_, ?_, ?_, ?_⟩
      · simp only [skip_blank_tr, hc, if_false, Bool.false_eq_true]
      · simp only [skip_blank, hc, if_false, Bool.false_eq_true]
      · exact Nat.le_refl _
      · intro x hx; simp at hx; omega

theorem tokenize_loop_tr_spec (value : List Char) (vlen : Nat) :
    ∀ (fuel i : Nat) (buf : List Char), buf.length ≤ i → buf.length ≤ vlen →
      vlen < fuel + i + 1 →
      ∃ r, tokenize_loop_tr value vlen fuel i buf = some r ∧
        r.buf = tokenize_loop value vlen fuel i buf ∧
        buf.length ≤ r.buf.length ∧ r.buf.length ≤ vlen ∧
        (∀ x ∈ r.reads, x ≤ vlen) ∧ (∀ t ∈ r.writes, t < r.buf.length) := by
  intro fuel
  induction fuel with
  | zero =>
    intro i buf h1 h2 h3
    have hi : ¬ i < vlen := by omega
    refine ⟨{ i := i, buf := buf, reads := [], writes := [] }, ?_, ?_, ?_, ?_, ?_, ?_⟩
    · simp only [tokenize_loop_tr, hi, if_false]
    · simp only [tokenize_loop]
    · exact Nat.le_refl _
    · exact h2
    · intro x hx; simp at hx
    · intro t ht; simp at ht
  | succ fuel ih =>
    intro i buf h1 h2 h3
    by_cases hi : i < vlen
    · by_cases hq : charAt value i = DQUOTE ∨ charAt value i = SQUOTE
      · obtain ⟨r, hr, e1, e2, b1, b2, b3, b4, b5⟩ :=
          copy_while_tr_spec value vlen (fun x => x != charAt value i) vlen (i + 1) buf
            (by omega) (by omega)
        obtain ⟨q, hq1, hq2, c1, c2, c3, c4⟩ :=
          ih (r.i + 1) (r.buf ++ [TAB])
            (by rw [List.length_append, List.length_singleton]; omega)
            (by rw [List.length_append, List.length_singleton]; omega) (by omega)
        rw [List.length_append, List.length_singleton] at c1
        refine ⟨{ q with reads := i :: r.reads ++ q.reads,
                         writes := r.writes ++ r.buf.length :: q.writes }, ?_, ?_, ?_, ?_, ?_, ?_⟩
        · simp only [tokenize_loop_tr, hi, hq, if_true, hr, hq1, Option.map_some']
        · simp only [tokenize_loop, hi, hq, if_true]
          rw [← e1, ← e2]; exact hq2
        · show buf.length ≤ q.buf.length; omega
        · exact c2
        · intro x hx
          rcases List.mem_cons.1 hx with rfl | hx
          · omega
          · rcases List.mem_append.1 hx with hx | hx
            · exact b4 x hx
            · exact c3 x hx
        · intro t ht
          show t < q.buf.length
          rcases List.mem_append.1 ht with ht | ht
          · have := b5 t ht; omega
          · rcases List.mem_cons.1 ht with rfl | ht
            · omega
            · exact c4 t ht
      · by_cases hb : charAt value i = ' ' ∨ charAt value i = TAB
        · have hb1 : (if buf ≠ [] ∧ buf.getLast? ≠ some TAB then buf ++ [TAB] else buf).length
              ≤ buf.length + 1 := by
            split
            · simp
            · omega
          have hb0 : buf.length ≤
              (if buf ≠ [] ∧ buf.getLast? ≠ some TAB then buf ++ [TAB] else buf).length := by
            split
            · simp
            · omega
          obtain ⟨r, hr, e1, b1, b4⟩ :=
            skip_blank_tr_spec value vlen
              (if buf ≠ [] ∧ buf.getLast? ≠ some TAB then buf ++ [TAB] else buf)
              vlen (i + 1) (by omega) (by omega)
          obtain ⟨q, hq1, hq2, c1, c2, c3, c4⟩ :=
            ih r.i (if buf ≠ [] ∧ buf.getLast? ≠ some TAB then buf ++ [TAB] else buf)
              (by omega) (by omega) (by omega)
          refine ⟨{ q with reads := i :: r.reads ++ q.reads,
                           writes := (if buf ≠ [] ∧ buf.getLast? ≠ some TAB then [buf.length]
                             else []) ++ q.writes }, ?_, ?_, ?_, ?_, ?_, ?_⟩
          · simp only [tokenize_loop_tr, hi, hq, hb, if_true, if_false, hr, hq1,
              Option.map_some']
          · simp only [tokenize_loop, hi, hq, hb, if_true, if_false]
            rw [← e1]; exact hq2
          · show buf.length ≤ q.buf.length; omega
          · exact c2
          · intro x hx
            rcases List.mem_cons.1 hx with rfl | hx
            · omega
            · rcases List.mem_append.1 hx with hx | hx
              · exact b4 x hx
              · exact c3 x hx
          · intro t ht
            show t < q.buf.length
            rcases List.mem_append.1 ht with ht | ht
            · by_cases hcond : buf ≠ [] ∧ buf.getLast? ≠ some TAB
              · rw [if_pos hcond] at ht c1
                simp only [List.mem_singleton] at ht
                simp only [List.length_append, List.length_singleton] at c1
                omega
              · rw [if_neg hcond] at ht
                simp at ht
            · exact c4 t ht
        · obtain ⟨r, hr, e1, e2, b1, b2, b3, b4, b5⟩ :=
            copy_while_tr_spec value vlen (fun x => x != ' ' && x != TAB) vlen (i + 1)
              (buf ++ [charAt value i]) (by omega) (by omega)
          rw [List.length_append, List.length_singleton] at b3
          obtain ⟨q, hq1, hq2, c1, c2, c3, c4⟩ :=
            ih r.i r.buf (by omega) (by omega) (by omega)
          refine ⟨{ q with reads := i :: r.reads ++ q.reads,
                           writes := buf.length :: r.writes ++ q.writes }, ?_, ?_, ?_, ?_, ?_, ?_⟩
          · simp only [tokenize_loop_tr, hi, hq, hb, if_true, if_false, hr, hq1,
              Option.map_some']
          · simp only [tokenize_loop, hi, hq, hb, if_true, if_false]
            rw [← e1, ← e2]; exact hq2
          · show buf.length ≤ q.buf.length; omega
          · exact c2
          · intro x hx
            rcases List.mem_cons.1 hx with rfl | hx
            · omega
            · rcases List.mem_append.1 hx with hx | hx
              · exact b4 x hx
              · exact c3 x hx
          · intro t ht
            show t < q.buf.length
            rcases List.mem_cons.1 ht with rfl | ht
            · omega
            · rcases List.mem_append.1 ht with ht | ht
              · have := b5 t ht; omega
              · exact c4 t ht
    · refine ⟨{ i := i, buf := buf, reads := [], writes := [] }, ?_, ?_, ?_, ?_, ?_, ?_⟩
      · simp only [tokenize_loop_tr, hi, if_false]
      · simp only [tokenize_loop, hi, if_false]
      · exact Nat.le_refl _
      · exact h2
      · intro x hx; simp at hx
      · intro t ht; simp at ht

/-- C17: for every input value of any length (longer than the buffer and with an
unterminated quote included), the tokenizer of `set_btn_config` runs to its end with
every write into the 1024 bytes of `temp_buffer` at an index `t` of at most
`min(strlen(value), 1023)`, the final terminator included, and with every read of
`value` at an index of at most `strlen(value)`; the buffer it leaves is the one of
`tokenize`. -/
theorem C17_tokenizer_in_bounds (value : List Char) :
    ∃ r, tokenize_tr value = some r ∧ r.buf = tokenize value ∧
      (∀ t ∈ r.writes, t ≤ min value.length 1023 ∧ t < MAX_TEMP_SIZE) ∧
      (∀ x ∈ r.reads, x ≤ value.length) := by
  obtain ⟨r, hr, e, _, c2, c3, c4⟩ :=
    tokenize_loop_tr_spec value (value_len value) (value_len value) 0 [] (by simp) (by simp)
      (by omega)
  have hv : value_len value ≤ min value.length 1023 := by
    unfold value_len MAX_TEMP_SIZE
    split <;> omega
  refine ⟨{ r with writes := r.writes ++ [r.buf.length] }, ?_, e, ?_, ?_⟩
  · simp only [tokenize_tr, hr, Option.map_some']
  · intro t ht
    have : t ≤ r.buf.length := by
      rcases List.mem_append.1 ht with ht | ht
      · exact Nat.le_of_lt (c4 t ht)
      · simp only [List.mem_singleton] at ht; omega
    unfold MAX_TEMP_SIZE
    omega
  · intro x hx
    have := c3 x hx
    omega

/-! ## C18, C19: config_find and config_create -/

theorem find_loop_some (n : List Char) :
    ∀ (l : List gptokeyb_config) (i k : Nat), find_loop n l i = some k →
      i ≤ k ∧ ∃ c, l[k - i]? = some c ∧ strcaseeq c.name n = true ∧
        ∀ j c1, j < k - i → l[j]? = some c1 → strcaseeq c1.name n = false := by
  intro l
  induction l with
  | nil => intro i k h; simp [find_loop] at h
  | cons a l ih =>
    intro i k h
    unfold find_loop at h
    by_cases ha : strcaseeq a.name n = true
    · rw [if_pos ha] at h
      simp only [Option.some.injEq] at h
      subst h
      refine ⟨Nat.le_refl _, a, by simp, ha, ?_⟩
      intro j c1 hj
      omega
    · rw [if_neg ha] at h
      obtain ⟨h1, c, h2, h3, h4⟩ := ih (i + 1) k h
      refine ⟨by omega, c, ?_, h3, ?_⟩
      · have e : k - i = (k - (i + 1)) + 1 := by omega
        rw [e, List.getElem?_cons_succ]
        exact h2
      · intro j c1 hj hc1
        cases j with
        | zero =>
          simp only [List.getElem?_cons_zero, Option.some.injEq] at hc1
          subst hc1
          exact Bool.eq_false_iff.2 ha
        | succ j =>
          rw [List.getElem?_cons_succ] at hc1
          exact h4 j c1 (by omega) hc1

theorem find_loop_none_iff (n : List Char) (l : List gptokeyb_config) (i : Nat) :
    find_loop n l i = none ↔ ∀ c ∈ l, strcaseeq c.name n = false := by
  constructor
  · exact find_loop_none n l i
  · intro h
    induction l generalizing i with
    | nil => rfl
    | cons a l ih =>
      unfold find_loop
      rw [h a (by simp)]
      simp only [Bool.false_eq_true, if_false]
      exact ih (i + 1) (fun c hc => h c (by simp [hc]))

/-- C18, as amended: for every store and every string `s` that equals `controls`
without regard to case, `config_find(s)` returns `root_config`, the root profile (no
prefix is put in front and no name is compared).  For a name `n` that is not
`controls`, does not start with `controls:` and has at most `MAX_CONTROL_NAME - 11`
characters (so that `controls:n` fits the buffer `config_find` formats it into),
`config_find(n)` searches for `controls:n`: it returns the first profile of the chain
whose stored name equals `controls:n` without regard to case, and is absent exactly
when no profile of the store has such a name. -/
theorem C18_root_shortcut (E : Env) (root : gptokeyb_config) (next : Store)
    (s n : List Char)
    (hs : strcaseeq "controls".toList s = true)
    (hn : strcaseeq "controls".toList n = false)
    (hp : strcasestartswith n "controls:".toList = false)
    (hlen : n.length + 11 ≤ E.MAX_CONTROL_NAME) :
    config_find E (root :: next) s = some 0 ∧
    config_find E [] s = none ∧
    (∀ store : Store,
      config_find E store n = find_loop ("controls:".toList ++ n) store 0 ∧
      (∀ k, config_find E store n = some k →
        ∃ c, store[k]? = some c ∧ strcaseeq c.name ("controls:".toList ++ n) = true ∧
          ∀ j c1, j < k → store[j]? = some c1 →
            strcaseeq c1.name ("controls:".toList ++ n) = false) ∧
      (config_find E store n = none ↔
        ∀ c ∈ store, strcaseeq c.name ("controls:".toList ++ n) = false)) := by
  refine ⟨?_, ?_, ?_⟩
  · unfold config_find
    rw [if_pos hs]
  · unfold config_find
    rw [if_pos hs]
  · intro store
    have hnorm : normalize n = "controls:".toList ++ n := by
      unfold normalize
      rw [if_neg (by rw [hp]; exact Bool.false_ne_true)]
    have h9 : "controls:".toList.length = 9 := by decide
    have e : config_find E store n = find_loop ("controls:".toList ++ n) store 0 := by
      rw [config_find_eq_find_loop E store n hn, nice_name_eq_normalize E n, hnorm]
      rw [hnorm, List.length_append, h9]
      omega
    refine ⟨e, ?_, ?_⟩
    · intro k hk
      rw [e] at hk
      obtain ⟨_, c, h2, h3, h4⟩ := find_loop_some _ _ _ _ hk
      exact ⟨c, h2, h3, h4⟩
    · rw [e]
      exact find_loop_none_iff _ _ _

/-- C18, as amended, at `Controls` and `foo`, in the store of `config_init` after
`config_create("foo")`. -/
theorem C18_root_shortcut_witness :
    config_find sampleEnv
        (config_create sampleEnv (config_init sampleEnv) "foo".toList).1
        "Controls".toList = some 0 ∧
    config_find sampleEnv
        (config_create sampleEnv (config_init sampleEnv) "foo".toList).1
        "foo".toList =
      find_loop "controls:foo".toList
        (config_create sampleEnv (config_init sampleEnv) "foo".toList).1 0 ∧
    config_find sampleEnv
        (config_create sampleEnv (config_init sampleEnv) "foo".toList).1
        "foo".toList = some 1 :=
  ⟨(C18_root_shortcut sampleEnv sampleRoot
      [{ zero_config sampleEnv with name := "controls:foo".toList }]
      "Controls".toList "foo".toList (by decide) (by decide) (by decide) (by decide)).1,
   ((C18_root_shortcut sampleEnv sampleRoot [] "Controls".toList "foo".toList
      (by decide) (by decide) (by decide) (by decide)).2.2 _).1,
   by decide⟩

/-- C18 fails as stated for a name that does not fit the buffer with the prefix.
`config_find` formats `controls:<name>` with `snprintf(.., MAX_CONTROL_NAME - 1, ..)`,
which keeps `MAX_CONTROL_NAME - 2` characters.  For `name54`, which neither is
`controls` nor starts with `controls:`, under the header's 64: in `cutNameStore` the
profile at position 1 is named `controls:<name54>` (63 characters) and the profile at
position 2 carries the first 62 of them; `config_find(name54)` returns the profile at
position 2, whose name does not equal `controls:<name54>`, and in the store that has
only the root and the profile named `controls:<name54>` it is absent. -/
theorem C18_root_shortcut_counterexample :
    strcaseeq "controls".toList name54 = false ∧
    strcasestartswith name54 "controls:".toList = false ∧
    Reachable sampleEnv cutNameStore ∧
    cutNameStore.map (fun c => c.name.length) = [8, 63, 62] ∧
    cutNameStore.map (fun c => strcaseeq c.name ("controls:".toList ++ name54))
      = [false, true, false] ∧
    config_find sampleEnv cutNameStore name54 = some 2 ∧
    (config_create sampleEnv (config_init sampleEnv) ("controls:".toList ++ name54)).1.map
        (fun c => strcaseeq c.name ("controls:".toList ++ name54)) = [false, true] ∧
    config_find sampleEnv
        (config_create sampleEnv (config_init sampleEnv) ("controls:".toList ++ name54)).1
        name54 = none :=
  ⟨by decide, by decide, Reachable.create _ _ (Reachable.create _ _ Reachable.init),
    by decide, by decide, by decide, by decide, by decide⟩

/-- C19, as amended: for every store with a root and every name `n` for which
`config_find(n)` is absent, `config_create(n)` returns a new profile whose records
are all zero (keycode 0, no modifier, action `(none)`, repeat false, a zeroed target
name) with `map_check` false, and whose name is the normalized name cut to the room
of the name field: its first `MAX_CONTROL_NAME - 1` characters when `n` starts with
`controls:`, its first `MAX_CONTROL_NAME - 2` characters when the prefix was put in
front; that is the normalized name itself when it has at most
`MAX_CONTROL_NAME - 2` characters.  The new profile is linked right after the root:
the chain afterwards is the root, the new profile, then the previous successors of the
root in their previous order, all unchanged.  When `config_find(m)` is present,
`config_create(m)` returns that profile and leaves the store unchanged. -/
theorem C19_config_create (E : Env) (root : gptokeyb_config) (next : Store)
    (n : List Char) (h : config_find E (root :: next) n = none) :
    (∃ p : gptokeyb_config,
      config_create E (root :: next) n = (root :: p :: next, 1) ∧
      (∀ i, (p.button i).keycode = 0 ∧ (p.button i).modifier = 0 ∧
        (p.button i).action = ACT_NONE ∧ (p.button i).repeat = false ∧
        cstr (p.button i).cfg_name = []) ∧
      p.map_check = false ∧
      p.name = (normalize n).take
        (if strcasestartswith n "controls:".toList then E.MAX_CONTROL_NAME - 1
          else E.MAX_CONTROL_NAME - 2) ∧
      ((normalize n).length + 2 ≤ E.MAX_CONTROL_NAME → p.name = normalize n)) ∧
    (∀ (store : Store) (m : List Char) (q : Nat), config_find E store m = some q →
      config_create E store m = (store, q)) := by
  refine ⟨⟨{ zero_config E with name := created_name E n }, ?_, ?_, rfl, ?_, ?_⟩, ?_⟩
  · unfold config_create
    rw [h]
  · intro i
    refine ⟨rfl, rfl, rfl, rfl, ?_⟩
    show cstr (List.replicate E.MAX_CONTROL_NAME NUL) = []
    unfold cstr
    rw [List.takeWhile_eq_nil_iff]
    intro hl
    simp [List.getElem_replicate]
  · show created_name E n = _
    unfold created_name normalize snprintf_controls
    by_cases hp : strcasestartswith n "controls:".toList = true
    · simp only [hp, Bool.not_true, Bool.false_eq_true, if_false, if_true]
    · have hp2 : strcasestartswith n "controls:".toList = false := Bool.eq_false_iff.2 hp
      simp only [hp2, Bool.not_false, Bool.false_eq_true, if_false, if_true]
      congr 1
  · intro hlen
    exact created_name_eq_normalize E n hlen
  · intro store m q hq
    unfold config_create
    rw [hq]

/-- C19, as amended, at the name `menu` on the store of `config_init`. -/
theorem C19_config_create_witness :
    config_find sampleEnv [sampleRoot] "menu".toList = none ∧
    ∃ p : gptokeyb_config,
      config_create sampleEnv [sampleRoot] "menu".toList = ([sampleRoot, p], 1) ∧
      p.name = "controls:menu".toList :=
  ⟨by decide,
   match (C19_config_create sampleEnv sampleRoot [] "menu".toList (by decide)).1 with
   | ⟨p, h1, _, _, _, h5⟩ => ⟨p, h1, h5 (by decide)⟩⟩

/-- C19 fails as stated for names that do not fit the name field: for the prefixed
name of 69 characters (the header allowing 63), and for the unprefixed name of 60
characters, `config_find` is absent in the store of `config_init`, and the profile
`config_create` makes does not carry the normalized name but its first 63, respectively
62, characters. -/
theorem C19_config_create_counterexample :
    config_find sampleEnv (config_init sampleEnv) longName = none ∧
    ((config_create sampleEnv (config_init sampleEnv) longName).1.map
      (fun c => decide (c.name = normalize longName))) = [false, false] ∧
    ((config_create sampleEnv (config_init sampleEnv) longName).1.map
      (fun c => c.name.length)) = [8, 63] ∧
    config_find sampleEnv (config_init sampleEnv) (List.replicate 60 'y') = none ∧
    ((config_create sampleEnv (config_init sampleEnv) (List.replicate 60 'y')).1.map
      (fun c => (c.name.length, (normalize (List.replicate 60 'y')).length)))
      = [(8, 69), (62, 69)] := by
  decide
theorem config_ext (c d : gptokeyb_config) (h1 : c.name = d.name)
    (h2 : c.map_check = d.map_check) (h3 : ∀ i, c.button i = d.button i) : c = d := by
  cases c
  cases d
  simp only [gptokeyb_config.mk.injEq]
  exact ⟨h1, h2, funext h3⟩

theorem strncpy_drop (d1 d2 t : List Char) (n : Nat) (h : d1.drop n = d2.drop n) :
    strncpy d1 t n = strncpy d2 t n := by
  unfold strncpy
  rw [h]

theorem drop_strncpy (d t : List Char) (n : Nat) : (strncpy d t n).drop n = d.drop n := by
  unfold strncpy
  have hl : (t.take n ++ List.replicate (n - t.length) NUL).length = n := by
    simp only [List.length_append, List.length_take, List.length_replicate]
    omega
  rw [List.drop_append_eq_append_drop, hl, Nat.sub_self, List.drop_zero,
    List.drop_of_length_le (Nat.le_of_eq hl), List.nil_append]

theorem apply_none (E : Env) (b : gptokeyb_button) : ButtonUpdate.none.apply E b = b := by
  cases b
  simp [ButtonUpdate.apply, ButtonUpdate.none]

theorem apply_comp (E : Env) (u2 u1 : ButtonUpdate) (b : gptokeyb_button) :
    (u2.comp u1).apply E b = u2.apply E (u1.apply E b) := by
  cases b with
  | mk kc md ac rp nm =>
  cases u1 with
  | mk k1 s1 o1 a1 r1 n1 =>
  cases u2 with
  | mk k2 s2 o2 a2 r2 n2 =>
  simp only [ButtonUpdate.apply, ButtonUpdate.comp, gptokeyb_button.mk.injEq]
  refine ⟨?_, ?_, ?_, ?_, ?_⟩
  · cases k2 <;> rfl
  · cases s2 with
    | none => simp [Nat.lor_assoc]
    | some m => simp
  · cases a2 <;> rfl
  · simp [Bool.or_assoc]
  · cases n2 with
    | none => rfl
    | some t =>
      cases n1 with
      | none => rfl
      | some t1 => exact strncpy_drop _ _ _ _ (drop_strncpy _ _ _).symm

theorem apply_idem (E : Env) (u : ButtonUpdate) (b : gptokeyb_button) :
    u.apply E (u.apply E b) = u.apply E b := by
  cases b with
  | mk kc md ac rp nm =>
  cases u with
  | mk k s o a r n =>
  simp only [ButtonUpdate.apply, gptokeyb_button.mk.injEq]
  refine ⟨?_, ?_, ?_, ?_, ?_⟩
  · cases k <;> rfl
  · cases s with
    | none => simp [Nat.lor_assoc]
    | some m => simp
  · cases a <;> rfl
  · simp [Bool.or_assoc]
  · cases n with
    | none => rfl
    | some t => exact strncpy_drop _ _ _ _ (drop_strncpy _ _ _)

theorem shape_none (A : List Char → Prop) : ButtonUpdate.none.Shape A := by
  constructor
  · intro t h; cases h
  · intro a h; cases h

theorem shape_comp (A : List Char → Prop) (u2 u1 : ButtonUpdate) (h2 : u2.Shape A)
    (h1 : u1.Shape A) : (u2.comp u1).Shape A := by
  cases u1 with
  | mk k1 s1 o1 a1 r1 n1 =>
  cases u2 with
  | mk k2 s2 o2 a2 r2 n2 =>
  obtain ⟨p1, q1⟩ := h1
  obtain ⟨p2, q2⟩ := h2
  simp only [ButtonUpdate.Shape, ButtonUpdate.comp] at *
  constructor
  · intro t ht
    cases n2 with
    | none => exact p1 t ht
    | some t2 => exact p2 t ht
  · intro a ha hact
    cases n2 with
    | some t2 => simp
    | none =>
      cases a2 with
      | none => exact q1 a ha hact
      | some a2 => exact absurd rfl (q2 a ha hact)

theorem regular_id (E : Env) (A : List Char → Prop) : Regular E A (fun c => c) := by
  refine ⟨fun _ => ButtonUpdate.none, false, fun _ => shape_none A, ?_⟩
  intro c
  exact config_ext _ _ rfl (by simp) (fun i => (apply_none E _).symm)

theorem regular_comp (E : Env) (A : List Char → Prop)
    (f g : gptokeyb_config → gptokeyb_config) (hf : Regular E A f) (hg : Regular E A g) :
    Regular E A (fun c => g (f c)) := by
  obtain ⟨u1, m1, s1, e1⟩ := hf
  obtain ⟨u2, m2, s2, e2⟩ := hg
  refine ⟨fun i => (u2 i).comp (u1 i), m1 || m2, fun i => shape_comp A _ _ (s2 i) (s1 i), ?_⟩
  intro c
  show g (f c) = _
  rw [e2, e1]
  exact config_ext _ _ rfl (by simp [Bool.or_assoc]) (fun i => (apply_comp E _ _ _).symm)

theorem regular_idem (E : Env) (A : List Char → Prop)
    (f : gptokeyb_config → gptokeyb_config) (hf : Regular E A f) (c : gptokeyb_config) :
    f (f c) = f c := by
  obtain ⟨u, m, _, e⟩ := hf
  rw [e (f c), e c]
  exact config_ext _ _ rfl (by simp [Bool.or_assoc]) (fun i => apply_idem E _ _)

theorem regular_name (E : Env) (A : List Char → Prop)
    (f : gptokeyb_config → gptokeyb_config) (hf : Regular E A f) (c : gptokeyb_config) :
    (f c).name = c.name := by
  obtain ⟨u, m, _, e⟩ := hf
  rw [e c]

/-! ## The dispatch loop updates every record on its own -/

theorem shape_plain (A : List Char → Prop) (u : ButtonUpdate) (hn : u.name = Option.none)
    (ha : ∀ a, u.action = some a →
      ¬ (a = ACT_STATE_HOLD ∨ a = ACT_STATE_PUSH ∨ a = ACT_STATE_SET)) : u.Shape A := by
  constructor
  · intro t ht
    rw [hn] at ht
    cases ht
  · intro a h1 h2
    exact absurd h2 (ha a h1)

theorem regular_setButton (E : Env) (A : List Char → Prop) (btn : Nat) (u : ButtonUpdate)
    (hu : u.Shape A) (g : gptokeyb_button → gptokeyb_button) (hg : ∀ b, g b = u.apply E b) :
    Regular E A (fun c => setButton c btn g) := by
  refine ⟨fun i => if i = btn then u else ButtonUpdate.none, false, ?_, ?_⟩
  · intro i
    by_cases h : i = btn
    · simp only [h, if_true]; exact hu
    · simp only [h, if_false]; exact shape_none A
  · intro c
    refine config_ext _ _ rfl (by simp [setButton]) ?_
    intro i
    rw [setButton_button]
    by_cases h : i = btn
    · subst h
      simp only [if_true]
      exact hg _
    · simp only [h, if_false]
      exact (apply_none E _).symm

theorem regular_for_special (E : Env) (A : List Char → Prop) (btn : Nat)
    (u : Nat → ButtonUpdate) (hu : ∀ k, (u k).Shape A)
    (g : Nat → gptokeyb_button → gptokeyb_button) (hg : ∀ k b, g k b = (u k).apply E b) :
    Regular E A (fun c => for_special btn g c) := by
  refine ⟨fun i => if special_button_min btn ≤ i ∧ i < special_button_max btn then
      u (i - special_button_min btn) else ButtonUpdate.none, false, ?_, ?_⟩
  · intro i
    by_cases h : special_button_min btn ≤ i ∧ i < special_button_max btn
    · simp only [h, and_self, if_true]; exact hu _
    · simp only [h, if_false]; exact shape_none A
  · intro c
    refine config_ext _ _ (for_special_name _ _ _) ?_ ?_
    · rw [for_special_map_check]; simp
    · intro i
      rw [for_special_button]
      by_cases h : special_button_min btn ≤ i ∧ i < special_button_max btn
      · simp only [h, and_self, if_true]
        exact hg _ _
      · simp only [h, if_false]
        exact (apply_none E _).symm

theorem regular_state_binding (E : Env) (A : List Char → Prop) (btn act : Nat)
    (arg : List Char) (hA : A arg) :
    Regular E A (fun c => set_state_binding E btn act arg c) := by
  refine ⟨fun i => if i = btn then
      { ButtonUpdate.none with action := some act, name := some arg }
      else ButtonUpdate.none, true, ?_, ?_⟩
  · intro i
    by_cases h : i = btn
    · simp only [h, if_true]
      constructor
      · intro t ht
        simp only [Option.some.injEq] at ht
        rw [← ht]; exact hA
      · intro a _ _ hn
        cases hn
    · simp only [h, if_false]; exact shape_none A
  · intro c
    refine config_ext _ _ rfl (by simp [set_state_binding]) ?_
    intro i
    show (set_state_binding E btn act arg c).button i = _
    rw [set_state_binding_button, setButton_button]
    by_cases h : i = btn
    · subst h
      simp [ButtonUpdate.apply, ButtonUpdate.none]
    · simp only [h, if_false]
      exact (apply_none E _).symm

theorem regular_action (E : Env) (A : List Char → Prop) (btn act : Nat)
    (hact : ¬ (act = ACT_STATE_HOLD ∨ act = ACT_STATE_PUSH ∨ act = ACT_STATE_SET)) :
    Regular E A (fun c => setButton c btn (fun b => { b with action := act })) := by
  refine regular_setButton E A btn { ButtonUpdate.none with action := some act }
    (shape_plain A _ rfl ?_) _ ?_
  · intro a ha
    simp only [Option.some.injEq] at ha
    rw [← ha]; exact hact
  · intro b
    cases b
    simp [ButtonUpdate.apply, ButtonUpdate.none]

theorem regular_key (E : Env) (A : List Char → Prop) (btn act : Nat) (k : Int)
    (hact : ¬ (act = ACT_STATE_HOLD ∨ act = ACT_STATE_PUSH ∨ act = ACT_STATE_SET)) :
    Regular E A
      (fun c => setButton c btn (fun b => { b with keycode := k, action := act })) := by
  refine regular_setButton E A btn
    { ButtonUpdate.none with keycode := some k, action := some act }
    (shape_plain A _ rfl ?_) _ ?_
  · intro a ha
    simp only [Option.some.injEq] at ha
    rw [← ha]; exact hact
  · intro b
    cases b
    simp [ButtonUpdate.apply, ButtonUpdate.none]

theorem regular_key_special (E : Env) (A : List Char → Prop) (btn act : Nat)
    (k : Nat → Int)
    (hact : ¬ (act = ACT_STATE_HOLD ∨ act = ACT_STATE_PUSH ∨ act = ACT_STATE_SET)) :
    Regular E A
      (fun c => for_special btn (fun i b => { b with keycode := k i, action := act }) c) := by
  refine regular_for_special E A btn
    (fun i => { ButtonUpdate.none with keycode := some (k i), action := some act })
    (fun i => shape_plain A _ rfl ?_) _ ?_
  · intro a ha
    simp only [Option.some.injEq] at ha
    rw [← ha]; exact hact
  · intro i b
    cases b
    simp [ButtonUpdate.apply, ButtonUpdate.none]

theorem regular_add_modifier (E : Env) (A : List Char → Prop) (btn m : Nat) :
    Regular E A (fun c => add_modifier btn m c) := by
  have hs : ({ ButtonUpdate.none with modifier_or := m } : ButtonUpdate).Shape A :=
    shape_plain A _ rfl (fun a ha => by cases ha)
  have hg : ∀ b : gptokeyb_button, { b with modifier := b.modifier ||| m } =
      ({ ButtonUpdate.none with modifier_or := m } : ButtonUpdate).apply E b := by
    intro b
    cases b
    simp [ButtonUpdate.apply, ButtonUpdate.none]
  unfold add_modifier
  by_cases h : btn ≥ GBTN_MAX
  · simp only [h, if_true]
    exact regular_for_special E A btn (fun _ => _) (fun _ => hs) _ (fun _ b => hg b)
  · simp only [h, if_false]
    exact regular_setButton E A btn _ hs _ hg

theorem regular_set_repeat (E : Env) (A : List Char → Prop) (btn : Nat) :
    Regular E A (fun c => set_repeat btn c) := by
  have hs : ({ ButtonUpdate.none with set_repeat := true } : ButtonUpdate).Shape A :=
    shape_plain A _ rfl (fun a ha => by cases ha)
  have hg : ∀ b : gptokeyb_button, { b with «repeat» := true } =
      ({ ButtonUpdate.none with set_repeat := true } : ButtonUpdate).apply E b := by
    intro b
    cases b
    simp [ButtonUpdate.apply, ButtonUpdate.none]
  unfold set_repeat
  by_cases h : btn ≥ GBTN_MAX
  · simp only [h, if_true]
    exact regular_for_special E A btn (fun _ => _) (fun _ => hs) _ (fun _ b => hg b)
  · simp only [h, if_false]
    exact regular_setButton E A btn _ hs _ hg

theorem act_plain :
    (¬ (ACT_NONE = ACT_STATE_HOLD ∨ ACT_NONE = ACT_STATE_PUSH ∨ ACT_NONE = ACT_STATE_SET)) ∧
    (¬ (ACT_MOUSE_SLOW = ACT_STATE_HOLD ∨ ACT_MOUSE_SLOW = ACT_STATE_PUSH ∨
      ACT_MOUSE_SLOW = ACT_STATE_SET)) ∧
    (¬ (ACT_MOUSE_MOVE = ACT_STATE_HOLD ∨ ACT_MOUSE_MOVE = ACT_STATE_PUSH ∨
      ACT_MOUSE_MOVE = ACT_STATE_SET)) ∧
    (¬ (ACT_STATE_POP = ACT_STATE_HOLD ∨ ACT_STATE_POP = ACT_STATE_PUSH ∨
      ACT_STATE_POP = ACT_STATE_SET)) ∧
    (¬ (ACT_PARENT = ACT_STATE_HOLD ∨ ACT_PARENT = ACT_STATE_PUSH ∨
      ACT_PARENT = ACT_STATE_SET)) := by
  decide

/-- One round of the dispatch loop: it either ends the loop with the profile as it
is, or makes an update of single records that does not depend on the profile and goes
on with tokens that follow. -/
theorem token_loop_head (E : Env) (btn : Nat) (A : List Char → Prop) (fr : Bool)
    (token : List Char) (rest : List (List Char)) (hA : ∀ t ∈ rest, A t) :
    (∀ c, token_loop E btn fr (token :: rest) c = c) ∨
    ∃ (f : gptokeyb_config → gptokeyb_config) (r : List (List Char)),
      Regular E A f ∧ r.length ≤ rest.length ∧ (∀ t ∈ r, t ∈ rest) ∧
      ∀ c, token_loop E btn fr (token :: rest) c = token_loop E btn false r (f c) := by
  have same : ∀ (f : gptokeyb_config → gptokeyb_config), Regular E A f →
      (∀ c, token_loop E btn fr (token :: rest) c = token_loop E btn false rest (f c)) →
      ∃ (f : gptokeyb_config → gptokeyb_config) (r : List (List Char)),
        Regular E A f ∧ r.length ≤ rest.length ∧ (∀ t ∈ r, t ∈ rest) ∧
        ∀ c, token_loop E btn fr (token :: rest) c = token_loop E btn false r (f c) :=
    fun f hf h => ⟨f, rest, hf, Nat.le_refl _, fun _ ht => ht, h⟩
  cases hb : branch_of fr token with
  | mouse_slow =>
    by_cases hbtn : btn ≥ GBTN_MAX
    · left; intro c
      cases rest with
      | nil => rw [token_loop.eq_2, hb]; exact if_pos hbtn
      | cons a r => rw [token_loop.eq_3 E btn fr c token a r, hb]; exact if_pos hbtn
    · right
      refine same _ (regular_action E A btn ACT_MOUSE_SLOW act_plain.2.1) ?_
      intro c
      cases rest with
      | nil => rw [token_loop.eq_2, hb]; exact if_neg hbtn
      | cons a r => rw [token_loop.eq_3 E btn fr c token a r, hb]; exact if_neg hbtn
  | pop_state =>
    by_cases hbtn : btn ≥ GBTN_MAX
    · left; intro c
      cases rest with
      | nil => rw [token_loop.eq_2, hb]; exact if_pos hbtn
      | cons a r => rw [token_loop.eq_3 E btn fr c token a r, hb]; exact if_pos hbtn
    · right
      refine same _ (regular_action E A btn ACT_STATE_POP act_plain.2.2.2.1) ?_
      intro c
      cases rest with
      | nil => rw [token_loop.eq_2, hb]; exact if_neg hbtn
      | cons a r => rw [token_loop.eq_3 E btn fr c token a r, hb]; exact if_neg hbtn
  | hold_state =>
    cases rest with
    | nil =>
      left; intro c
      rw [token_loop.eq_2, hb]
      simp only []
      split_ifs <;> rfl
    | cons a r =>
      by_cases hbtn : btn ≥ GBTN_MAX
      · left; intro c
        rw [token_loop.eq_3 E btn fr c token a r, hb]; exact if_pos hbtn
      · right
        refine ⟨_, r, regular_state_binding E A btn ACT_STATE_HOLD a (hA a (by simp)),
          by simp, fun t ht => by simp [ht], ?_⟩
        intro c
        rw [token_loop.eq_3 E btn fr c token a r, hb]; exact if_neg hbtn
  | push_state =>
    cases rest with
    | nil =>
      left; intro c
      rw [token_loop.eq_2, hb]
      simp only []
      split_ifs <;> rfl
    | cons a r =>
      by_cases hbtn : btn ≥ GBTN_MAX
      · left; intro c
        rw [token_loop.eq_3 E btn fr c token a r, hb]; exact if_pos hbtn
      · right
        refine ⟨_, r, regular_state_binding E A btn ACT_STATE_PUSH a (hA a (by simp)),
          by simp, fun t ht => by simp [ht], ?_⟩
        intro c
        rw [token_loop.eq_3 E btn fr c token a r, hb]; exact if_neg hbtn
  | set_state =>
    cases rest with
    | nil =>
      left; intro c
      rw [token_loop.eq_2, hb]
    | cons a r =>
      by_cases hbtn : btn ≥ GBTN_MAX
      · left; intro c
        rw [token_loop.eq_3 E btn fr c token a r, hb]; exact if_pos hbtn
      · right
        refine ⟨_, r, regular_state_binding E A btn ACT_STATE_PUSH a (hA a (by simp)),
          by simp, fun t ht => by simp [ht], ?_⟩
        intro c
        rw [token_loop.eq_3 E btn fr c token a r, hb]; exact if_neg hbtn
  | add_alt =>
    right
    refine same _ (regular_add_modifier E A btn E.MOD_ALT) ?_
    intro c
    cases rest with
    | nil => rw [token_loop.eq_2, hb]
    | cons a r => rw [token_loop.eq_3 E btn fr c token a r, hb]
  | add_ctrl =>
    right
    refine same _ (regular_add_modifier E A btn E.MOD_CTRL) ?_
    intro c
    cases rest with
    | nil => rw [token_loop.eq_2, hb]
    | cons a r => rw [token_loop.eq_3 E btn fr c token a r, hb]
  | add_shift =>
    right
    refine same _ (regular_add_modifier E A btn E.MOD_SHIFT) ?_
    intro c
    cases rest with
    | nil => rw [token_loop.eq_2, hb]
    | cons a r => rw [token_loop.eq_3 E btn fr c token a r, hb]
  | set_repeat =>
    right
    refine same _ (regular_set_repeat E A btn) ?_
    intro c
    cases rest with
    | nil => rw [token_loop.eq_2, hb]
    | cons a r => rw [token_loop.eq_3 E btn fr c token a r, hb]
  | key =>
    have unf : ∀ c, token_loop E btn fr (token :: rest) c =
        match E.find_keyboard token with
        | some key =>
          if btn ≥ GBTN_MAX then
            token_loop E btn false rest
              (for_special btn (fun _ b => { b with keycode := key.keycode, action := ACT_NONE })
                c)
          else
            token_loop E btn false rest
              (setButton c btn (fun b => { b with keycode := key.keycode, action := ACT_NONE }))
        | none =>
          if strcaseeq token "mouse_movement".toList then
            if btn ≥ GBTN_MAX then
              token_loop E btn false rest
                (for_special btn (fun _ b => { b with keycode := 0, action := ACT_MOUSE_MOVE })
                  c)
            else c
          else if strcaseeq token "arrow_keys".toList then
            if btn ≥ GBTN_MAX then
              token_loop E btn false rest
                (for_special btn
                  (fun i b => { b with keycode := arrow_keycodes E i, action := ACT_NONE }) c)
            else c
          else token_loop E btn false rest c := by
      intro c
      cases rest with
      | nil => rw [token_loop.eq_2, hb]
      | cons a r => rw [token_loop.eq_3 E btn fr c token a r, hb]
    cases hk : E.find_keyboard token with
    | some key =>
      right
      by_cases hbtn : btn ≥ GBTN_MAX
      · refine same _ (regular_key_special E A btn ACT_NONE (fun _ => key.keycode)
          act_plain.1) ?_
        intro c
        rw [unf, hk]
        exact if_pos hbtn
      · refine same _ (regular_key E A btn ACT_NONE key.keycode act_plain.1) ?_
        intro c
        rw [unf, hk]
        exact if_neg hbtn
    | none =>
      by_cases h1 : strcaseeq token "mouse_movement".toList = true
      · by_cases hbtn : btn ≥ GBTN_MAX
        · right
          refine same _ (regular_key_special E A btn ACT_MOUSE_MOVE (fun _ => 0)
            act_plain.2.2.1) ?_
          intro c
          rw [unf, hk]
          simp only []
          rw [if_pos h1, if_pos hbtn]
        · left
          intro c
          rw [unf, hk]
          simp only []
          rw [if_pos h1, if_neg hbtn]
      · by_cases h2 : strcaseeq token "arrow_keys".toList = true
        · by_cases hbtn : btn ≥ GBTN_MAX
          · right
            refine same _ (regular_key_special E A btn ACT_NONE (arrow_keycodes E)
              act_plain.1) ?_
            intro c
            rw [unf, hk]
            simp only []
            rw [if_neg h1, if_pos h2, if_pos hbtn]
          · left
            intro c
            rw [unf, hk]
            simp only []
            rw [if_neg h1, if_pos h2, if_neg hbtn]
        · right
          refine same _ (regular_id E A) ?_
          intro c
          rw [unf, hk]
          simp only []
          rw [if_neg h1, if_neg h2]

theorem token_loop_regular_aux (E : Env) (btn : Nat) (A : List Char → Prop) :
    ∀ (n : Nat) (toks : List (List Char)) (fr : Bool), toks.length ≤ n →
      (∀ t ∈ toks.tail, A t) → Regular E A (fun c => token_loop E btn fr toks c) := by
  intro n
  induction n with
  | zero =>
    intro toks fr h _
    have : toks = [] := List.length_eq_zero.1 (by omega)
    subst this
    have e : (fun c => token_loop E btn fr [] c) = fun c => c :=
      funext (fun c => token_loop_nil E btn fr c)
    rw [e]
    exact regular_id E A
  | succ n ih =>
    intro toks fr h hA
    cases toks with
    | nil =>
      have e : (fun c => token_loop E btn fr [] c) = fun c => c :=
        funext (fun c => token_loop_nil E btn fr c)
      rw [e]
      exact regular_id E A
    | cons token rest =>
      rcases token_loop_head E btn A fr token rest hA with hstop | ⟨f, r, hf, hr, hsub, hstep⟩
      · rw [show (fun c => token_loop E btn fr (token :: rest) c) = fun c => c from
          funext hstop]
        exact regular_id E A
      · rw [show (fun c => token_loop E btn fr (token :: rest) c) =
            fun c => token_loop E btn false r (f c) from funext hstep]
        refine regular_comp E A f _ hf (ih r false ?_ ?_)
        · simp only [List.length_cons] at h; omega
        · intro t ht
          exact hA t (hsub t (List.mem_of_mem_tail ht))

/-- The function `set_btn_config` updates every record of the profile on its own, in a
way that does not depend on the profile; the names it writes are tokens of the value
after the first. -/
theorem set_btn_config_regular (E : Env) (btn : Nat) (A : List Char → Prop)
    (value : List Char) (hA : ∀ t ∈ (tokens value).tail, A t) :
    Regular E A (fun c => set_btn_config E c btn value) := by
  rw [show (fun c => set_btn_config E c btn value) =
      fun c => token_loop E btn true (tokens value) c from
    funext (fun c => set_btn_config_tokens E c btn value)]
  exact token_loop_regular_aux E btn A _ _ _ (Nat.le_refl _) hA

/-! ## C14: a stateful action has a target name -/

theorem tokL_chars (P : Char → Prop) (hT : P TAB) :
    ∀ (fuel : Nat) (s buf : List Char), (∀ c ∈ s, P c) → (∀ c ∈ buf, P c) →
      ∀ c ∈ tokL fuel s buf, P c := by
  intro fuel
  induction fuel with
  | zero => intro s buf _ hb c hc; exact hb c (by simpa [tokL] using hc)
  | succ fuel ih =>
    intro s buf hs hb
    cases s with
    | nil => intro c hc; exact hb c (by simpa [tokL] using hc)
    | cons ch rest =>
      have hrest : ∀ c ∈ rest, P c := fun c hc => hs c (List.mem_cons_of_mem _ hc)
      unfold tokL
      split_ifs with h1 h2 h3
      · refine ih _ _ ?_ ?_
        · intro c hc
          exact hrest c ((List.dropWhile_sublist _).subset ((List.drop_sublist _ _).subset hc))
        · intro c hc
          rcases List.mem_append.1 hc with hc | hc
          · rcases List.mem_append.1 hc with hc | hc
            · exact hb c hc
            · exact hrest c ((List.takeWhile_sublist _).subset hc)
          · simp only [List.mem_singleton] at hc
            rw [hc]; exact hT
      · refine ih _ _ ?_ ?_
        · intro c hc
          exact hrest c ((List.dropWhile_sublist _).subset hc)
        · intro c hc
          rcases List.mem_append.1 hc with hc | hc
          · exact hb c hc
          · simp only [List.mem_singleton] at hc
            rw [hc]; exact hT
      · refine ih _ _ ?_ hb
        intro c hc
        exact hrest c ((List.dropWhile_sublist _).subset hc)
      · refine ih _ _ ?_ ?_
        · intro c hc
          exact hrest c ((List.dropWhile_sublist _).subset hc)
        · intro c hc
          rcases List.mem_append.1 hc with hc | hc
          · exact hb c hc
          · rcases List.mem_cons.1 hc with hc | hc
            · rw [hc]; exact hs ch (by simp)
            · exact hrest c ((List.takeWhile_sublist _).subset hc)

theorem strtok_go_chars (P : Char → Prop) :
    ∀ (buf cur : List Char), (∀ c ∈ buf, P c) → (∀ c ∈ cur, P c) →
      ∀ t ∈ strtok_go buf cur, t ≠ [] ∧ ∀ c ∈ t, P c := by
  intro buf
  induction buf with
  | nil =>
    intro cur _ hc t ht
    unfold strtok_go at ht
    split_ifs at ht with h
    · cases ht
    · simp only [List.mem_singleton] at ht
      subst ht
      exact ⟨h, hc⟩
  | cons b buf ih =>
    intro cur hb hc t ht
    have hbuf : ∀ c ∈ buf, P c := fun c h => hb c (List.mem_cons_of_mem _ h)
    unfold strtok_go at ht
    split_ifs at ht with h1 h2
    · exact ih [] hbuf (fun c h => by cases h) t ht
    · rcases List.mem_cons.1 ht with ht | ht
      · subst ht
        exact ⟨h2, hc⟩
      · exact ih [] hbuf (fun c h => by cases h) t ht
    · refine ih (cur ++ [b]) hbuf ?_ t ht
      intro c h
      rcases List.mem_append.1 h with h | h
      · exact hc c h
      · simp only [List.mem_singleton] at h
        rw [h]; exact hb b (by simp)

/-- The tokens of a C string are not empty and hold no terminator. -/
theorem tokens_good (value : List Char) (hv : IsCString value) :
    ∀ t ∈ tokens value, GoodToken t := by
  intro t ht
  have hbuf : ∀ c ∈ tokenize value, c ≠ NUL := by
    rw [tokenize_eq_tokL]
    refine tokL_chars (fun c => c ≠ NUL) (by decide) _ _ _ ?_ (fun c h => by cases h)
    intro c hc
    exact hv c ((List.take_sublist _ _).subset hc)
  obtain ⟨h1, h2⟩ := strtok_go_chars (fun c => c ≠ NUL) _ [] hbuf (fun c h => by cases h) t ht
  cases t with
  | nil => exact absurd rfl h1
  | cons ch rest => exact ⟨ch, rest, rfl, h2 ch (by simp)⟩

theorem cstr_strncpy_good (old t : List Char) (M : Nat) (ht : GoodToken t) (hM : 1 ≤ M) :
    cstr (strncpy old t M) ≠ [] := by
  obtain ⟨ch, rest, rfl, hch⟩ := ht
  obtain ⟨k, rfl⟩ : ∃ k, M = k + 1 := ⟨M - 1, by omega⟩
  unfold cstr strncpy
  simp only [List.take_succ_cons, List.cons_append]
  rw [List.takeWhile_cons_of_pos (by simpa using hch)]
  exact List.cons_ne_nil _ _

theorem good_of_cstr (a : List Char) (h : cstr a ≠ []) : GoodToken (cstr a) := by
  cases hc : cstr a with
  | nil => exact absurd hc h
  | cons ch rest =>
    refine ⟨ch, rest, rfl, ?_⟩
    exact cstr_no_nul a ch (by rw [hc]; simp)

/-- A regular update whose names are good tokens keeps `HasTarget`. -/
theorem regular_hasTarget (E : Env) (hM : 1 ≤ E.MAX_CONTROL_NAME)
    (f : gptokeyb_config → gptokeyb_config) (hf : Regular E GoodToken f)
    (c : gptokeyb_config) (hc : ∀ i, HasTarget (c.button i)) :
    ∀ i, HasTarget ((f c).button i) := by
  obtain ⟨u, m, hs, e⟩ := hf
  intro i
  rw [e c]
  show HasTarget ((u i).apply E (c.button i))
  obtain ⟨p, q⟩ := hs i
  have hci := hc i
  unfold HasTarget ButtonUpdate.apply at *
  simp only []
  intro hact
  cases hn : (u i).name with
  | some t =>
    simp only []
    exact cstr_strncpy_good _ t _ (p t hn) hM
  | none =>
    simp only []
    cases ha : (u i).action with
    | none =>
      rw [ha] at hact
      exact hci hact
    | some a =>
      rw [ha] at hact
      exact absurd hn (q a ha hact)

theorem regular_foldl (E : Env) (A : List Char → Prop) {α : Type}
    (g : gptokeyb_config → α → gptokeyb_config) (hg : ∀ x, Regular E A (fun c => g c x)) :
    ∀ l : List α, Regular E A (fun c => l.foldl g c) := by
  intro l
  induction l with
  | nil => exact regular_id E A
  | cons a l ih =>
    simp only [List.foldl_cons]
    exact regular_comp E A _ _ (hg a) ih

/-- The function `config_overlay_parent` updates every record on its own. -/
theorem config_overlay_parent_regular (E : Env) (A : List Char → Prop) :
    Regular E A config_overlay_parent := by
  show Regular E A (fun c => (List.range GBTN_MAX).foldl overlay_parent_step c)
  refine regular_foldl E A _ ?_ _
  intro btn
  refine regular_setButton E A btn
    { ButtonUpdate.none with keycode := some 0, modifier_set := some 0,
                             action := some ACT_PARENT }
    (shape_plain A _ rfl ?_) _ ?_
  · intro a ha
    simp only [Option.some.injEq] at ha
    rw [← ha]; exact act_plain.2.2.2.2
  · intro b
    cases b
    simp [ButtonUpdate.apply, ButtonUpdate.none]

theorem hasTargets_set (s : Store) (p : Nat) (c : gptokeyb_config)
    (hs : StoreHasTargets s) (hc : ∀ i, HasTarget (c.button i)) :
    StoreHasTargets (s.set p c) := by
  intro d hd
  rcases List.mem_or_eq_of_mem_set hd with h | h
  · exact hs d h
  · rw [h]; exact hc

theorem hasTarget_zero (E : Env) : HasTarget (zero_button E) := by
  intro h
  simp [zero_button, ACT_STATE_HOLD, ACT_STATE_PUSH, ACT_STATE_SET] at h

theorem hasTargets_init (E : Env) : StoreHasTargets (config_init E) := by
  intro c hc i
  simp only [config_init, List.mem_singleton] at hc
  subst hc
  exact hasTarget_zero E

theorem hasTargets_create (E : Env) (s : Store) (n : List Char) (hs : StoreHasTargets s) :
    StoreHasTargets (config_create E s n).1 := by
  unfold config_create
  cases config_find E s n with
  | some r => exact hs
  | none =>
    cases s with
    | nil => exact hs
    | cons root next =>
      intro c hc i
      simp only [List.mem_cons] at hc
      rcases hc with h | h | h
      · exact hs c (by simp [h]) i
      · subst h; exact hasTarget_zero E
      · exact hs c (by simp [h]) i

theorem hasTargets_set_btn (E : Env) (hM : 1 ≤ E.MAX_CONTROL_NAME) (s : Store) (p btn : Nat)
    (value : List Char) (hv : IsCString value) (hs : StoreHasTargets s) :
    StoreHasTargets (store_set_btn E s p btn value) := by
  unfold store_set_btn
  cases h : s[p]? with
  | none => exact hs
  | some c =>
    refine hasTargets_set s p _ hs ?_
    exact regular_hasTarget E hM (fun c => set_btn_config E c btn value)
      (set_btn_config_regular E btn GoodToken value
        (fun t ht => tokens_good value hv t (List.mem_of_mem_tail ht)))
      c (hs c (List.getElem?_mem h))

theorem hasTargets_overlay_parent (E : Env) (hM : 1 ≤ E.MAX_CONTROL_NAME) (s : Store)
    (p : Nat) (hs : StoreHasTargets s) : StoreHasTargets (store_overlay_parent s p) := by
  unfold store_overlay_parent
  cases h : s[p]? with
  | none => exact hs
  | some c =>
    refine hasTargets_set s p _ hs ?_
    exact regular_hasTarget E hM _ (config_overlay_parent_regular E GoodToken) c
      (hs c (List.getElem?_mem h))

theorem hasTarget_overlay_record (E : Env) (hM : 2 ≤ E.MAX_CONTROL_NAME)
    (o b : gptokeyb_button) (ho : HasTarget o) : HasTarget (overlay_record E o b) := by
  intro hact
  have hact2 : o.action = ACT_STATE_HOLD ∨ o.action = ACT_STATE_PUSH ∨
      o.action = ACT_STATE_SET := hact
  have hge : o.action ≥ ACT_STATE_HOLD := by
    unfold ACT_STATE_HOLD ACT_STATE_PUSH ACT_STATE_SET at *
    omega
  show cstr (if o.action ≥ ACT_STATE_HOLD then
      strncpy b.cfg_name (cstr o.cfg_name) (E.MAX_CONTROL_NAME - 1) else b.cfg_name) ≠ []
  rw [if_pos hge]
  exact cstr_strncpy_good _ _ _ (good_of_cstr _ (ho hact2)) (by omega)

theorem hasTargets_overlay_named (E : Env) (hM : 2 ≤ E.MAX_CONTROL_NAME) (s : Store)
    (p : Nat) (name : List Char) (hs : StoreHasTargets s) :
    StoreHasTargets (config_overlay_named E s p name) := by
  unfold config_overlay_named
  cases config_find E s name with
  | none => exact hs
  | some other =>
    simp only []
    split_ifs
    · exact hs
    · cases h1 : s[p]? with
      | none => exact hs
      | some cur =>
        cases h2 : s[other]? with
        | none => exact hs
        | some oth =>
          refine hasTargets_set s p _ hs ?_
          intro i
          rw [(overlay_named_loop_spec E oth cur).1 i]
          split_ifs
          · exact hasTarget_overlay_record E hM _ _ (hs oth (List.getElem?_mem h2) i)
          · exact hs cur (List.getElem?_mem h1) i

theorem hasTargets_control_line (E : Env) (fb : List Char → Option Nat)
    (hM : 2 ≤ E.MAX_CONTROL_NAME) (s : Store) (p : Nat) (name value : List Char)
    (hv : IsCString value) (hs : StoreHasTargets s) :
    StoreHasTargets (control_line E fb s p name value) := by
  unfold control_line
  cases fb name with
  | some gbtn => exact hasTargets_set_btn E (by omega) s p gbtn value hv hs
  | none =>
    simp only []
    split_ifs
    · exact hasTargets_overlay_parent E (by omega) s p hs
    · exact hs
    · exact hasTargets_overlay_named E hM s p value hs
    · exact hs
    · exact hs

theorem hasTargets_section_change (E : Env) (config : config_parser_t) (s : Store)
    (sect : List Char) (hs : StoreHasTargets s) :
    StoreHasTargets (section_change E config s sect).2 := by
  unfold section_change
  split_ifs
  · exact hs
  · exact hs
  · exact hasTargets_create E s sect hs
  · exact hs
  · exact hs

theorem hasTargets_handler (E : Env) (fb : List Char → Option Nat)
    (hM : 2 ≤ E.MAX_CONTROL_NAME) (st : config_parser_t × Store) (sect name value : List Char)
    (hv : IsCString value) (hs : StoreHasTargets st.2) :
    StoreHasTargets (config_ini_handler E fb st sect name value).2 := by
  have h1 := hasTargets_section_change E st.1 st.2 sect hs
  unfold config_ini_handler
  simp only []
  split_ifs
  · exact hasTargets_control_line E fb hM _ _ name value hv h1
  · exact h1
  · exact hasTargets_control_line E fb hM _ _ name value hv h1
  · exact h1

theorem reachableBy_hasTargets (E : Env) (find_button : List Char → Option Nat)
    (hM : 2 ≤ E.MAX_CONTROL_NAME) (s : Store) (h : ReachableBy E find_button s) :
    StoreHasTargets s := by
  induction h with
  | init => exact hasTargets_init E
  | create s name _ ih => exact hasTargets_create E s name ih
  | set_btn s p btn value hv _ ih => exact hasTargets_set_btn E (by omega) s p btn value hv ih
  | overlay_parent s p _ ih => exact hasTargets_overlay_parent E (by omega) s p ih
  | overlay_named s p name _ ih => exact hasTargets_overlay_named E hM s p name ih
  | handler s config sect name value hv _ ih =>
    exact hasTargets_handler E find_button hM (config, s) sect name value hv ih

/-- C14: in every store reachable from `config_init` through `set_btn_config`,
`config_overlay_parent`, `config_overlay_named`, `config_create` and
`config_ini_handler` steps on C strings (the header allowing names of at least one
character, `MAX_CONTROL_NAME ≥ 2`), every binding record whose action is
`hold_state`, `state_push` or `state_set` has a non-empty string in `cfg_name`. -/
theorem C14_stateful_has_target (E : Env) (find_button : List Char → Option Nat)
    (hM : 2 ≤ E.MAX_CONTROL_NAME) (s : Store) (h : ReachableBy E find_button s)
    (c : gptokeyb_config) (hc : c ∈ s) (i : Nat)
    (hact : (c.button i).action = ACT_STATE_HOLD ∨ (c.button i).action = ACT_STATE_PUSH ∨
      (c.button i).action = ACT_STATE_SET) :
    cstr (c.button i).cfg_name ≠ [] := by
  exact reachableBy_hasTargets E find_button hM s h c hc i hact

/-- C14 at the binding `a = push_state x` of the profile `controls:menu`, made by
`config_create` and `set_btn_config` on the store of `config_init`. -/
theorem C14_stateful_has_target_witness :
    ReachableBy sampleEnv sample_find_button menuStore ∧
    ∃ c, menuStore[1]? = some c ∧ (c.button 0).action = ACT_STATE_PUSH ∧
      cstr (c.button 0).cfg_name ≠ [] := by
  have hr : ReachableBy sampleEnv sample_find_button menuStore :=
    ReachableBy.set_btn _ 1 0 _ (by decide) (ReachableBy.create _ _ ReachableBy.init)
  refine ⟨hr, ?_⟩
  have ha : menuStore[1]?.map (fun c => (c.button 0).action) = some ACT_STATE_PUSH := by
    decide
  cases h : menuStore[1]? with
  | none => rw [h] at ha; cases ha
  | some c =>
    rw [h] at ha
    simp only [Option.map_some', Option.some.injEq] at ha
    exact ⟨c, rfl, ha,
      C14_stateful_has_target sampleEnv sample_find_button (by decide) menuStore hr c
        (List.getElem?_mem h) 0 (Or.inr (Or.inl ha))⟩

/-! ## C13: config_load with config_only -/

theorem handler_outside_controls (E : Env) (fb : List Char → Option Nat)
    (st : config_parser_t × Store) (sect name value : List Char)
    (hst : st.1.state = CFG_CONFIG ∨ st.1.state = CFG_OTHER)
    (h1 : strcaseeq sect "controls".toList = false)
    (h2 : strcasestartswith sect "controls:".toList = false) :
    (config_ini_handler E fb st sect name value).2 = st.2 ∧
    ((config_ini_handler E fb st sect name value).1.state = CFG_CONFIG ∨
      (config_ini_handler E fb st sect name value).1.state = CFG_OTHER) := by
  have hsc : (section_change E st.1 st.2 sect).2 = st.2 ∧
      ((section_change E st.1 st.2 sect).1.state = CFG_CONFIG ∨
        (section_change E st.1 st.2 sect).1.state = CFG_OTHER) := by
    unfold section_change
    rw [h1, h2]
    simp only [Bool.false_eq_true, if_false]
    split_ifs
    · exact ⟨rfl, Or.inl rfl⟩
    · exact ⟨rfl, Or.inr rfl⟩
    · exact ⟨rfl, hst⟩
  have e : config_ini_handler E fb st sect name value = section_change E st.1 st.2 sect := by
    unfold config_ini_handler
    simp only []
    rcases hsc.2 with h | h
    · rw [if_neg (by rw [h]; decide), if_pos h]
    · rw [if_neg (by rw [h]; decide), if_neg (by rw [h]; decide),
        if_neg (by rw [h]; decide)]
  rw [e]
  exact hsc

theorem load_outside_controls (E : Env) (fb : List Char → Option Nat) :
    ∀ (file : List (List Char × List Char × List Char)) (st : config_parser_t × Store),
      (st.1.state = CFG_CONFIG ∨ st.1.state = CFG_OTHER) →
      (∀ t ∈ file, strcaseeq t.1 "controls".toList = false ∧
        strcasestartswith t.1 "controls:".toList = false) →
      (file.foldl (fun st t => config_ini_handler E fb st t.1 t.2.1 t.2.2) st).2 = st.2 := by
  intro file
  induction file with
  | nil => intro st _ _; rfl
  | cons t file ih =>
    intro st hst h
    simp only [List.foldl_cons]
    have h1 := handler_outside_controls E fb st t.1 t.2.1 t.2.2 hst
      (h t (by simp)).1 (h t (by simp)).2
    rw [ih _ h1.2 (fun x hx => h x (by simp [hx])), h1.1]

/-- What `config_only = true` does: the driver starts in the `CFG_CONFIG` state, and
it leaves the profile store as it is as long as the file enters no section `controls`
or `controls:<name>`; so the lines in front of the first section header, which a load
without `config_only` takes as bindings of the root profile, are ignored. -/
theorem config_only_outside_controls (E : Env) (find_button : List Char → Option Nat)
    (file : List (List Char × List Char × List Char)) (store : Store)
    (h : ∀ t ∈ file, strcaseeq t.1 "controls".toList = false ∧
      strcasestartswith t.1 "controls:".toList = false) :
    (initial_parser_state true).state = CFG_CONFIG ∧
    config_load E find_button file true store = store :=
  ⟨rfl, load_outside_controls E find_button file (initial_parser_state true, store)
    (Or.inl rfl) h⟩

/-- A load with `config_only` of a file with a binding line in front of the first
section header and one in the section `config` leaves the store as it is; without
`config_only` the first line binds button `a` of the root profile. -/
theorem config_only_outside_controls_example :
    config_load sampleEnv sample_find_button
      [([], "a".toList, "f1".toList), ("config".toList, "b".toList, "h".toList)] true
      (config_init sampleEnv) = config_init sampleEnv ∧
    (config_load sampleEnv sample_find_button
      [([], "a".toList, "f1".toList), ("config".toList, "b".toList, "h".toList)] false
      (config_init sampleEnv)).map (fun c => (c.button 0).keycode) = [59] :=
  ⟨(config_only_outside_controls sampleEnv sample_find_button
      [([], "a".toList, "f1".toList), ("config".toList, "b".toList, "h".toList)]
      (config_init sampleEnv) (by decide)).2, by decide⟩

/-- C13 fails on the code: `config_load` stores `config_only` in the parser it hands
to `config_ini_handler`, which never reads it, and a section `controls` or
`controls:<name>` switches the driver to `CFG_CONTROL` as in any other load.  With
`config_only = true`, where the claim has the store stay as it is, the file
`[controls] a = f1` binds button `a` of the root profile to the key code of `f1`, and
the file `[controls:menu] a = h` creates the profile `controls:menu` and binds its
button `a`. -/
theorem C13_config_only_not_read :
    (config_load sampleEnv sample_find_button
      [("controls".toList, "a".toList, "f1".toList)] true (config_init sampleEnv)).map
      (fun c => (c.button 0).keycode) = [59] ∧
    (config_init sampleEnv).map (fun c => (c.button 0).keycode) = [0] ∧
    (config_load sampleEnv sample_find_button
      [("controls:menu".toList, "a".toList, "h".toList)] true (config_init sampleEnv)).map
      (fun c => (c.name, (c.button 0).keycode))
      = [("controls".toList, 0), ("controls:menu".toList, 35)] := by
  decide

/-! ## C11: profile names are meant to be unique -/

theorem load_reachable (E : Env) (fb : List Char → Option Nat) :
    ∀ (file : List (List Char × List Char × List Char)) (st : config_parser_t × Store),
      (∀ t ∈ file, IsCString t.2.2) → ReachableBy E fb st.2 →
      ReachableBy E fb
        (file.foldl (fun st t => config_ini_handler E fb st t.1 t.2.1 t.2.2) st).2 := by
  intro file
  induction file with
  | nil => intro st _ h; exact h
  | cons t file ih =>
    intro st hv h
    simp only [List.foldl_cons]
    exact ih _ (fun x hx => hv x (by simp [hx]))
      (ReachableBy.handler st.2 st.1 t.1 t.2.1 t.2.2 (hv t (by simp)) h)

/-- C11 fails on the code: a profile name that starts with `controls:` and has more
than `MAX_CONTROL_NAME - 1` characters is stored cut to that length by
`config_create`, while `config_find` compares the stored names with the uncut name
and so never finds the profile again.  Two calls `config_create(longName)`, and
likewise the load of a file with two lines in the section `longSection` (whose cut
copy in `last_section` differs from the section name at every line), leave a reachable
store with two distinct profiles of the same name. -/
theorem C11_twin_profiles :
    ReachableBy sampleEnv sample_find_button
      (config_create sampleEnv (config_create sampleEnv (config_init sampleEnv) longName).1
        longName).1 ∧
    (config_create sampleEnv (config_create sampleEnv (config_init sampleEnv) longName).1
        longName).1.map (fun c => c.name)
      = ["controls".toList, longName.take 63, longName.take 63] ∧
    ReachableBy sampleEnv sample_find_button
      (config_load sampleEnv sample_find_button
        [(longSection, "a".toList, "f1".toList), (longSection, "b".toList, "h".toList)]
        false (config_init sampleEnv)) ∧
    (config_load sampleEnv sample_find_button
        [(longSection, "a".toList, "f1".toList), (longSection, "b".toList, "h".toList)]
        false (config_init sampleEnv)).map
        (fun c => (c.name, (c.button 0).keycode, (c.button 1).keycode))
      = [("controls".toList, 0, 0), (longSection.take 63, 0, 35),
         (longSection.take 63, 59, 0)] ∧
    strcaseeq (longSection.take 63) (longSection.take 63) = true := by
  refine ⟨ReachableBy.create _ _ (ReachableBy.create _ _ ReachableBy.init), by decide,
    ?_, by decide, by decide⟩
  exact load_reachable sampleEnv sample_find_button _ _ (by decide) ReachableBy.init


/-! ## C12: loading a file twice -/

theorem section_change_ops (E : Env) (P : config_parser_t) (S : Store) (sect : List Char) :
    section_change E P S sect =
      ({ state := (section_mode E (P.state, P.last_section) sect).1,
         config_only := P.config_only,
         last_section := (section_mode E (P.state, P.last_section) sect).2,
         current_config :=
           ((section_ops (P.state, P.last_section) sect).foldl (StoreOp.run E)
             (P.current_config, S)).1 },
       ((section_ops (P.state, P.last_section) sect).foldl (StoreOp.run E)
             (P.current_config, S)).2) := by
  unfold section_change section_mode section_ops
  by_cases h : P.last_section ≠ sect
  · simp only [h, not_false_eq_true, if_true]
    split_ifs <;> rfl
  · simp only [h, if_false]
    rfl

theorem control_line_ops (E : Env) (fb : List Char → Option Nat) (S : Store) (cur : Nat)
    (name value : List Char) (hov : is_named_overlay fb name value = false) :
    (control_ops E fb name value).foldl (StoreOp.run E) (cur, S) =
      (cur, control_line E fb S cur name value) := by
  unfold control_line control_ops
  unfold is_named_overlay at hov
  cases hb : fb name with
  | some gbtn => rfl
  | none =>
    rw [hb] at hov
    simp only []
    by_cases h1 : strcaseeq name "overlay".toList = true
    · rw [if_pos h1, if_pos h1]
      by_cases h2 : strcaseeq value "parent".toList = true
      · rw [if_pos h2, if_pos h2]
        rfl
      · rw [if_neg h2, if_neg h2]
        by_cases h3 : strcaseeq value "clear".toList = true
        · rw [if_pos h3]
          rfl
        · rw [if_neg h3]
          have h4 : ¬ value.length > 0 := by
            intro h4
            rw [h1, Bool.eq_false_iff.2 h2, Bool.eq_false_iff.2 h3] at hov
            simp [h4] at hov
          rw [if_neg h4]
          rfl
    · rw [if_neg h1, if_neg h1]
      rfl

theorem handler_ops (E : Env) (fb : List Char → Option Nat) (P : config_parser_t)
    (S : Store) (t : List Char × List Char × List Char)
    (hov : is_named_overlay fb t.2.1 t.2.2 = false) :
    config_ini_handler E fb (P, S) t.1 t.2.1 t.2.2 =
      ({ state := (section_mode E (P.state, P.last_section) t.1).1,
         config_only := P.config_only,
         last_section := (section_mode E (P.state, P.last_section) t.1).2,
         current_config :=
           ((line_ops E fb (P.state, P.last_section) t).foldl (StoreOp.run E)
             (P.current_config, S)).1 },
       ((line_ops E fb (P.state, P.last_section) t).foldl (StoreOp.run E)
             (P.current_config, S)).2) := by
  unfold config_ini_handler line_ops
  simp only []
  rw [section_change_ops, List.foldl_append]
  simp only []
  generalize (section_ops (P.state, P.last_section) t.1).foldl (StoreOp.run E)
    (P.current_config, S) = r
  generalize section_mode E (P.state, P.last_section) t.1 = m
  by_cases h0 : m.1 = CFG_GPTK
  · rw [if_pos h0, if_pos (Or.inl h0), control_line_ops E fb r.2 r.1 _ _ hov]
  · rw [if_neg h0]
    by_cases h1 : m.1 = CFG_CONFIG
    · have h2 : ¬ (m.1 = CFG_GPTK ∨ m.1 = CFG_CONTROL) := by
        rw [h1]; decide
      rw [if_pos h1, if_neg h2]
      rfl
    · rw [if_neg h1]
      by_cases h3 : m.1 = CFG_CONTROL
      · rw [if_pos h3, if_pos (Or.inr h3), control_line_ops E fb r.2 r.1 _ _ hov]
      · have h2 : ¬ (m.1 = CFG_GPTK ∨ m.1 = CFG_CONTROL) := by
          intro h; rcases h with h | h
          · exact h0 h
          · exact h3 h
        rw [if_neg h3, if_neg h2]
        rfl

theorem load_ops (E : Env) (fb : List Char → Option Nat) :
    ∀ (file : List (List Char × List Char × List Char)) (P : config_parser_t) (S : Store),
      (∀ t ∈ file, is_named_overlay fb t.2.1 t.2.2 = false) →
      (file.foldl (fun st t => config_ini_handler E fb st t.1 t.2.1 t.2.2) (P, S)).2 =
        ((file_ops E fb (P.state, P.last_section) file).foldl (StoreOp.run E)
          (P.current_config, S)).2 := by
  intro file
  induction file with
  | nil => intro P S _; rfl
  | cons t file ih =>
    intro P S hov
    simp only [List.foldl_cons, file_ops, List.foldl_append]
    rw [handler_ops E fb P S t (hov t (by simp)), ih _ _ (fun x hx => hov x (by simp [hx]))]

theorem collect_regular (E : Env) (A : List Char → Prop) :
    ∀ (ops : List StoreOp) (cur key : Option (List Char)),
      (∀ f, StoreOp.update f ∈ ops → Regular E A f) →
      Regular E A (fun c => collect ops cur key c) := by
  intro ops
  induction ops with
  | nil => intro cur key _; exact regular_id E A
  | cons op ops ih =>
    intro cur key h
    have h1 : ∀ f, StoreOp.update f ∈ ops → Regular E A f :=
      fun f hf => h f (List.mem_cons_of_mem _ hf)
    cases op with
    | select_root => exact ih none key h1
    | select_created name => exact ih (some (name_key name)) key h1
    | update f =>
      by_cases hk : cur = key
      · have e : (fun c => collect (StoreOp.update f :: ops) cur key c) =
            fun c => collect ops cur key (f c) := by
          funext c
          simp only [collect, hk, if_true]
        rw [e]
        exact regular_comp E A f _ (h f (by simp)) (ih cur key h1)
      · have e : (fun c => collect (StoreOp.update f :: ops) cur key c) =
            fun c => collect ops cur key c := by
          funext c
          simp only [collect, hk, if_false]
        rw [e]
        exact ih cur key h1

theorem created_fresh :
    ∀ (ops : List StoreOp) (existing : List (List Char)) (m : List Char),
      m ∈ created_names ops existing → name_key m ∉ existing := by
  intro ops
  induction ops with
  | nil => intro existing m h; simp [created_names] at h
  | cons op ops ih =>
    intro existing m h
    cases op with
    | select_root => exact ih existing m h
    | update f => exact ih existing m h
    | select_created name =>
      simp only [created_names] at h
      by_cases hn : name_key name ∈ existing
      · rw [if_pos hn] at h
        exact ih existing m h
      · rw [if_neg hn] at h
        rcases List.mem_cons.1 h with h | h
        · rw [h]; exact hn
        · intro hm
          exact ih _ m h (List.mem_cons_of_mem _ hm)

theorem created_nodup :
    ∀ (ops : List StoreOp) (existing : List (List Char)),
      ((created_names ops existing).map name_key).Nodup := by
  intro ops
  induction ops with
  | nil => intro existing; simp [created_names]
  | cons op ops ih =>
    intro existing
    cases op with
    | select_root => exact ih existing
    | update f => exact ih existing
    | select_created name =>
      simp only [created_names]
      by_cases hn : name_key name ∈ existing
      · rw [if_pos hn]
        exact ih existing
      · rw [if_neg hn, List.map_cons, List.nodup_cons]
        refine ⟨?_, ih _⟩
        intro hm
        obtain ⟨m, hm1, hm2⟩ := List.mem_map.1 hm
        exact created_fresh ops _ m hm1 (by rw [hm2]; simp)

theorem created_closed :
    ∀ (ops : List StoreOp) (existing later : List (List Char)),
      (∀ k ∈ existing, k ∈ later) →
      (∀ m ∈ created_names ops existing, name_key m ∈ later) →
      created_names ops later = [] := by
  intro ops
  induction ops with
  | nil => intro existing later _ _; rfl
  | cons op ops ih =>
    intro existing later h1 h2
    cases op with
    | select_root => exact ih existing later h1 h2
    | update f => exact ih existing later h1 h2
    | select_created name =>
      simp only [created_names] at h2 ⊢
      by_cases hn : name_key name ∈ existing
      · rw [if_pos hn] at h2
        rw [if_pos (h1 _ hn)]
        exact ih existing later h1 h2
      · rw [if_neg hn] at h2
        have hl : name_key name ∈ later := h2 name (by simp)
        rw [if_pos hl]
        refine ih (name_key name :: existing) later ?_ (fun m hm => h2 m (by simp [hm]))
        intro k hk
        rcases List.mem_cons.1 hk with hk | hk
        · rw [hk]; exact hl
        · exact h1 k hk

theorem map_set_of_nodup (G G1 : gptokeyb_config → gptokeyb_config)
    (c c1 : gptokeyb_config) (hname : c1.name = c.name) (hG : G c = G1 c1) :
    ∀ (rest : Store) (j : Nat), rest[j]? = some c →
      (rest.map (fun d => name_key d.name)).Nodup →
      (∀ d ∈ rest, name_key d.name ≠ name_key c.name → G d = G1 d) →
      (rest.set j c1).map G1 = rest.map G := by
  intro rest
  induction rest with
  | nil => intro j h; simp at h
  | cons a rest ih =>
    intro j hj hnd hG1
    simp only [List.map_cons, List.nodup_cons] at hnd
    cases j with
    | zero =>
      simp only [List.getElem?_cons_zero, Option.some.injEq] at hj
      subst hj
      simp only [List.set_cons_zero, List.map_cons, hG]
      congr 1
      refine List.map_congr_left ?_
      intro d hd
      refine (hG1 d (List.mem_cons_of_mem _ hd) ?_).symm
      intro he
      exact hnd.1 (by rw [← he]; exact List.mem_map.2 ⟨d, hd, rfl⟩)
    | succ j =>
      simp only [List.getElem?_cons_succ] at hj
      simp only [List.set_cons_succ, List.map_cons]
      have ha : name_key a.name ≠ name_key c.name := by
        intro he
        exact hnd.1 (by rw [he]; exact List.mem_map.2 ⟨c, List.getElem?_mem hj, rfl⟩)
      rw [← hG1 a (by simp) ha, ih j hj hnd.2 (fun d hd => hG1 d (List.mem_cons_of_mem _ hd))]

theorem strcaseeq_iff_key (a b : List Char) :
    strcaseeq a b = true ↔ name_key a = name_key b := by
  unfold strcaseeq name_key
  exact beq_iff_eq

/-- The call `config_create(n)` for a section name `n` that starts with `controls:` and
fits the name field, on a store whose root is named `controls`: the profile that
carries the name, or a new profile named `n` right after the root. -/
theorem config_create_section (E : Env) (root : gptokeyb_config) (rest : Store)
    (n : List Char) (hroot : root.name = "controls".toList)
    (hst : strcasestartswith n "controls:".toList = true)
    (hlen : n.length ≤ E.MAX_CONTROL_NAME - 1) :
    (name_key n ∈ rest.map (fun c => name_key c.name) ∧
      ∃ j c, rest[j]? = some c ∧ name_key c.name = name_key n ∧
        config_create E (root :: rest) n = (root :: rest, j + 1)) ∨
    (name_key n ∉ rest.map (fun c => name_key c.name) ∧
      config_create E (root :: rest) n =
        (root :: { zero_config E with name := n } :: rest, 1)) := by
  have hnc : strcaseeq "controls".toList n = false := not_controls_of_starts n hst
  have hnice : nice_name E n = n := by
    unfold nice_name
    rw [hst]
    rfl
  have hcre : created_name E n = n := by
    unfold created_name
    rw [hst]
    exact List.take_of_length_le hlen
  have hfind : config_find E (root :: rest) n = find_loop n rest 1 := by
    rw [config_find_eq_find_loop E _ n hnc, hnice]
    have e : find_loop n (root :: rest) 0 =
        if strcaseeq root.name n = true then some 0 else find_loop n rest (0 + 1) := rfl
    rw [e, hroot, hnc]
    rfl
  unfold config_create
  rw [hfind]
  cases hf : find_loop n rest 1 with
  | some k =>
    left
    obtain ⟨h1, c, h2, h3, _⟩ := find_loop_some n rest 1 k hf
    have hk : name_key c.name = name_key n := (strcaseeq_iff_key _ _).1 h3
    refine ⟨?_, k - 1, c, h2, hk, ?_⟩
    · rw [← hk]
      exact List.mem_map.2 ⟨c, List.getElem?_mem h2, rfl⟩
    · simp only []
      congr 1
      omega
  | none =>
    right
    refine ⟨?_, ?_⟩
    · intro hm
      obtain ⟨c, hc1, hc2⟩ := List.mem_map.1 hm
      have := find_loop_none n rest 1 hf c hc1
      rw [(strcaseeq_iff_key _ _).2 hc2] at this
      cases this
    · simp only []
      rw [hcre]

/-- The store after a sequence of store operations: every profile has received the
updates made while it was the current one, and the profiles created stand between
the root and its former successors, the last created first. -/
theorem run_ops_spec (E : Env) :
    ∀ (ops : List StoreOp) (cur : Nat) (root : gptokeyb_config) (rest : Store)
      (ck : Option (List Char)),
      root.name = "controls".toList →
      (rest.map (fun c => name_key c.name)).Nodup →
      ((cur = 0 ∧ ck = none) ∨
        ∃ j c, cur = j + 1 ∧ rest[j]? = some c ∧ ck = some (name_key c.name)) →
      (∀ f, StoreOp.update f ∈ ops → ∀ c, (f c).name = c.name) →
      (∀ n, StoreOp.select_created n ∈ ops →
        strcasestartswith n "controls:".toList = true ∧ n.length ≤ E.MAX_CONTROL_NAME - 1) →
      (ops.foldl (StoreOp.run E) (cur, root :: rest)).2 =
        collect ops ck none root ::
          ((created_names ops (rest.map (fun c => name_key c.name))).reverse.map
              (fun n => collect ops ck (some (name_key n)) { zero_config E with name := n }) ++
            rest.map (fun c => collect ops ck (some (name_key c.name)) c)) := by
  intro ops
  induction ops with
  | nil =>
    intro cur root rest ck _ _ _ _ _
    simp [collect, created_names]
  | cons op ops ih =>
    intro cur root rest ck hroot hnd hcur hupd hcre
    have hupd1 : ∀ f, StoreOp.update f ∈ ops → ∀ c, (f c).name = c.name :=
      fun f hf => hupd f (List.mem_cons_of_mem _ hf)
    have hcre1 : ∀ n, StoreOp.select_created n ∈ ops →
        strcasestartswith n "controls:".toList = true ∧ n.length ≤ E.MAX_CONTROL_NAME - 1 :=
      fun n hn => hcre n (List.mem_cons_of_mem _ hn)
    rw [List.foldl_cons]
    cases op with
    | select_root =>
      show (ops.foldl (StoreOp.run E) (0, root :: rest)).2 = _
      rw [ih 0 root rest none hroot hnd (Or.inl ⟨rfl, rfl⟩) hupd1 hcre1]
      rfl
    | select_created n =>
      obtain ⟨hst, hlen⟩ := hcre n (by simp)
      show (ops.foldl (StoreOp.run E)
        ((config_create E (root :: rest) n).2, (config_create E (root :: rest) n).1)).2 = _
      rcases config_create_section E root rest n hroot hst hlen with
        ⟨hmem, j, c, hj, hk, hc⟩ | ⟨hmem, hc⟩
      · rw [hc]
        simp only []
        rw [ih (j + 1) root rest (some (name_key n)) hroot hnd
          (Or.inr ⟨j, c, rfl, hj, by rw [hk]⟩) hupd1 hcre1]
        simp only [collect, created_names, if_pos hmem]
      · rw [hc]
        simp only []
        have hnd1 : (({ zero_config E with name := n } :: rest).map
            (fun c => name_key c.name)).Nodup := by
          rw [List.map_cons, List.nodup_cons]
          exact ⟨hmem, hnd⟩
        rw [ih 1 root ({ zero_config E with name := n } :: rest) (some (name_key n)) hroot hnd1
          (Or.inr ⟨0, { zero_config E with name := n }, rfl, by simp, rfl⟩) hupd1 hcre1]
        simp only [collect, created_names, if_neg hmem, List.map_cons, List.reverse_cons,
          List.map_append, List.map_nil, List.append_assoc, List.cons_append, List.nil_append]
    | update f =>
      have hname := hupd f (by simp)
      have hfresh : ∀ m ∈ created_names ops (rest.map (fun c => name_key c.name)),
          collect (StoreOp.update f :: ops) ck (some (name_key m))
            { zero_config E with name := m } =
          collect ops ck (some (name_key m)) { zero_config E with name := m } := by
        intro m hm
        have hf := created_fresh ops _ m hm
        have hne : ck ≠ some (name_key m) := by
          rcases hcur with ⟨_, h2⟩ | ⟨j, c, _, h2, h3⟩
          · rw [h2]; exact fun h => by cases h
          · rw [h3]
            intro h
            simp only [Option.some.injEq] at h
            exact hf (by rw [← h]; exact List.mem_map.2 ⟨c, List.getElem?_mem h2, rfl⟩)
        simp only [collect, if_neg hne]
      have hnews : (created_names (StoreOp.update f :: ops)
            (rest.map (fun c => name_key c.name))).reverse.map
            (fun n => collect (StoreOp.update f :: ops) ck (some (name_key n))
              { zero_config E with name := n }) =
          (created_names ops (rest.map (fun c => name_key c.name))).reverse.map
            (fun n => collect ops ck (some (name_key n)) { zero_config E with name := n }) := by
        show (created_names ops (rest.map (fun c => name_key c.name))).reverse.map _ = _
        refine List.map_congr_left ?_
        intro m hm
        exact hfresh m (List.mem_reverse.1 hm)
      rw [hnews]
      rcases hcur with ⟨h1, h2⟩ | ⟨j, c, h1, h2, h3⟩
      · subst h1
        subst h2
        have e : StoreOp.run E (0, root :: rest) (StoreOp.update f) = (0, f root :: rest) := by
          simp [StoreOp.run]
        rw [e]
        rw [ih 0 (f root) rest none (by rw [hname, hroot]) hnd (Or.inl ⟨rfl, rfl⟩) hupd1 hcre1]
        have eh : collect (StoreOp.update f :: ops) none none root =
            collect ops none none (f root) := by
          simp only [collect, if_true]
        have et : rest.map
              (fun c => collect (StoreOp.update f :: ops) none (some (name_key c.name)) c) =
            rest.map (fun c => collect ops none (some (name_key c.name)) c) := by
          refine List.map_congr_left ?_
          intro d _
          have hne : (none : Option (List Char)) ≠ some (name_key d.name) :=
            fun h => by cases h
          simp only [collect, if_neg hne]
        rw [eh, et]
      · subst h1
        subst h3
        have hget : (root :: rest)[j + 1]? = some c := by
          rw [List.getElem?_cons_succ]; exact h2
        have e : StoreOp.run E (j + 1, root :: rest) (StoreOp.update f) =
            (j + 1, root :: rest.set j (f c)) := by
          simp [StoreOp.run, h2]
        rw [e]
        have hkeys : (rest.set j (f c)).map (fun c => name_key c.name) =
            rest.map (fun c => name_key c.name) := by
          have := map_name_set rest j c (f c) h2 (hname c)
          have e : ∀ l : Store, l.map (fun c => name_key c.name) =
              (l.map (fun x => x.name)).map name_key := by
            intro l; rw [List.map_map]; rfl
          rw [e, e, this]
        have hj2 : (rest.set j (f c))[j]? = some (f c) := by
          have hlt : j < rest.length := by
            rcases Nat.lt_or_ge j rest.length with h | h
            · exact h
            · rw [List.getElem?_eq_none h] at h2; cases h2
          rw [List.getElem?_set_self hlt]
        rw [ih (j + 1) root (rest.set j (f c)) (some (name_key c.name)) hroot
          (by rw [hkeys]; exact hnd)
          (Or.inr ⟨j, f c, rfl, hj2, by rw [hname c]⟩) hupd1 hcre1, hkeys]
        have eh : collect (StoreOp.update f :: ops) (some (name_key c.name)) none root =
            collect ops (some (name_key c.name)) none root := by
          have hne : some (name_key c.name) ≠ (none : Option (List Char)) :=
            fun h => by cases h
          simp only [collect, if_neg hne]
        have et : (rest.set j (f c)).map
              (fun d => collect ops (some (name_key c.name)) (some (name_key d.name)) d) =
            rest.map (fun d => collect (StoreOp.update f :: ops) (some (name_key c.name))
              (some (name_key d.name)) d) := by
          refine map_set_of_nodup _ _ c (f c) (hname c) ?_ rest j h2 hnd ?_
          · simp only [collect, if_true, hname c]
          · intro d _ hd
            have hne : some (name_key c.name) ≠ some (name_key d.name) := by
              intro h
              simp only [Option.some.injEq] at h
              exact hd h.symm
            simp only [collect, if_neg hne]
        rw [eh, et]

theorem control_ops_regular (E : Env) (fb : List Char → Option Nat) (name value : List Char)
    (f : gptokeyb_config → gptokeyb_config)
    (hf : StoreOp.update f ∈ control_ops E fb name value) :
    Regular E (fun _ => True) f := by
  unfold control_ops at hf
  cases hb : fb name with
  | some gbtn =>
    rw [hb] at hf
    simp only [List.mem_singleton, StoreOp.update.injEq] at hf
    rw [hf]
    exact set_btn_config_regular E gbtn _ value (fun _ _ => trivial)
  | none =>
    rw [hb] at hf
    simp only [] at hf
    split_ifs at hf
    · simp only [List.mem_singleton, StoreOp.update.injEq] at hf
      rw [hf]
      exact config_overlay_parent_regular E _
    · cases hf
    · cases hf

theorem section_ops_update (mode : Nat × List Char) (sect : List Char)
    (f : gptokeyb_config → gptokeyb_config) : StoreOp.update f ∉ section_ops mode sect := by
  unfold section_ops
  intro h
  split_ifs at h <;> simp at h

theorem section_ops_created (mode : Nat × List Char) (sect n : List Char)
    (h : StoreOp.select_created n ∈ section_ops mode sect) :
    n = sect ∧ strcasestartswith sect "controls:".toList = true := by
  unfold section_ops at h
  split_ifs at h with h1 h2 h3 h4
  · simp at h
  · simp at h
  · simp only [List.mem_singleton, StoreOp.select_created.injEq] at h
    exact ⟨h, h4⟩
  · simp at h
  · simp at h

theorem control_ops_created (E : Env) (fb : List Char → Option Nat) (name value n : List Char) :
    StoreOp.select_created n ∉ control_ops E fb name value := by
  unfold control_ops
  intro h
  cases hb : fb name with
  | some gbtn => rw [hb] at h; simp at h
  | none =>
    rw [hb] at h
    simp only [] at h
    split_ifs at h <;> simp at h

theorem file_ops_update (E : Env) (fb : List Char → Option Nat) :
    ∀ (file : List (List Char × List Char × List Char)) (mode : Nat × List Char)
      (f : gptokeyb_config → gptokeyb_config),
      StoreOp.update f ∈ file_ops E fb mode file → Regular E (fun _ => True) f := by
  intro file
  induction file with
  | nil => intro mode f h; simp [file_ops] at h
  | cons t file ih =>
    intro mode f h
    simp only [file_ops, line_ops, List.mem_append] at h
    rcases h with (h | h) | h
    · exact absurd h (section_ops_update _ _ _)
    · split_ifs at h
      · exact control_ops_regular E fb _ _ f h
      · cases h
    · exact ih _ f h

theorem file_ops_created (E : Env) (fb : List Char → Option Nat) :
    ∀ (file : List (List Char × List Char × List Char)) (mode : Nat × List Char)
      (n : List Char),
      StoreOp.select_created n ∈ file_ops E fb mode file →
      ∃ t ∈ file, t.1 = n ∧ strcasestartswith n "controls:".toList = true := by
  intro file
  induction file with
  | nil => intro mode n h; simp [file_ops] at h
  | cons t file ih =>
    intro mode n h
    simp only [file_ops, line_ops, List.mem_append] at h
    rcases h with (h | h) | h
    · obtain ⟨h1, h2⟩ := section_ops_created _ _ _ h
      exact ⟨t, by simp, h1.symm, by rw [h1]; exact h2⟩
    · split_ifs at h
      · exact absurd h (control_ops_created E fb _ _ _)
      · cases h
    · obtain ⟨x, hx, h1, h2⟩ := ih _ n h
      exact ⟨x, by simp [hx], h1, h2⟩

theorem collect_idem (E : Env) (ops : List StoreOp) (cur key : Option (List Char))
    (h : ∀ f, StoreOp.update f ∈ ops → Regular E (fun _ => True) f) (c : gptokeyb_config) :
    collect ops cur key (collect ops cur key c) = collect ops cur key c :=
  regular_idem E _ (fun c => collect ops cur key c) (collect_regular E _ ops cur key h) c

theorem collect_name (E : Env) (ops : List StoreOp) (cur key : Option (List Char))
    (h : ∀ f, StoreOp.update f ∈ ops → Regular E (fun _ => True) f) (c : gptokeyb_config) :
    (collect ops cur key c).name = c.name :=
  regular_name E _ (fun c => collect ops cur key c) (collect_regular E _ ops cur key h) c

/-- Running a sequence of store operations a second time, on the store the first run
left from `config_init`, changes nothing. -/
theorem run_ops_twice (E : Env) (ops : List StoreOp)
    (hupd : ∀ f, StoreOp.update f ∈ ops → Regular E (fun _ => True) f)
    (hcre : ∀ n, StoreOp.select_created n ∈ ops →
      strcasestartswith n "controls:".toList = true ∧ n.length ≤ E.MAX_CONTROL_NAME - 1) :
    (ops.foldl (StoreOp.run E) (0, (ops.foldl (StoreOp.run E) (0, config_init E)).2)).2 =
      (ops.foldl (StoreOp.run E) (0, config_init E)).2 := by
  have hname : ∀ f, StoreOp.update f ∈ ops → ∀ c, (f c).name = c.name :=
    fun f hf c => regular_name E _ f (hupd f hf) c
  have h1 := run_ops_spec E ops 0 { zero_config E with name := "controls".toList } [] none
    rfl (by simp) (Or.inl ⟨rfl, rfl⟩) hname hcre
  simp only [List.map_nil, List.append_nil] at h1
  have e0 : config_init E = [{ zero_config E with name := "controls".toList }] := rfl
  rw [e0, h1]
  have hkeys : ((created_names ops []).reverse.map
      (fun n => collect ops none (some (name_key n)) { zero_config E with name := n })).map
      (fun c => name_key c.name) = (created_names ops []).reverse.map name_key := by
    rw [List.map_map]
    refine List.map_congr_left ?_
    intro n _
    show name_key (collect ops none (some (name_key n)) _).name = name_key n
    rw [collect_name E ops _ _ hupd]
  have h2 := run_ops_spec E ops 0
    (collect ops none none { zero_config E with name := "controls".toList })
    ((created_names ops []).reverse.map
      (fun n => collect ops none (some (name_key n)) { zero_config E with name := n }))
    none (by rw [collect_name E ops _ _ hupd])
    (by
      rw [hkeys, List.map_reverse]
      exact List.nodup_reverse.2 (created_nodup ops []))
    (Or.inl ⟨rfl, rfl⟩) hname hcre
  rw [h2, hkeys]
  have hnone : created_names ops ((created_names ops []).reverse.map name_key) = [] := by
    refine created_closed ops [] _ (fun k hk => by cases hk) ?_
    intro m hm
    exact List.mem_map.2 ⟨m, List.mem_reverse.2 hm, rfl⟩
  rw [hnone, collect_idem E ops _ _ hupd]
  simp only [List.reverse_nil, List.map_nil, List.nil_append, List.map_map]
  congr 1
  refine List.map_congr_left ?_
  intro n _
  show collect ops none (some (name_key (collect ops none (some (name_key n)) _).name))
    (collect ops none (some (name_key n)) _) = _
  rw [collect_name E ops _ _ hupd]
  exact collect_idem E ops _ _ hupd _

/-- C12, as amended: for every config file, that is every finite sequence of
(section, key, value) triples delivered to `config_ini_handler`, that has no line
`overlay = <profile name>` and in which every section name that starts with
`controls:` has at most `MAX_CONTROL_NAME - 1` characters, and starting from a freshly
initialised store: running `config_load` on it twice in succession leaves the same
store as running it once, the same profiles in the same order with every binding
record in the same state (keycode, modifier, action, target name, repeat) and the
same `map_check`. -/
theorem C12_reload_idempotent (E : Env) (find_button : List Char → Option Nat)
    (file : List (List Char × List Char × List Char)) (config_only : Bool)
    (hsect : ∀ t ∈ file, strcasestartswith t.1 "controls:".toList = true →
      t.1.length ≤ E.MAX_CONTROL_NAME - 1)
    (hov : ∀ t ∈ file, is_named_overlay find_button t.2.1 t.2.2 = false) :
    config_load E find_button file config_only
        (config_load E find_button file config_only (config_init E)) =
      config_load E find_button file config_only (config_init E) := by
  unfold config_load config_load_run
  rw [load_ops E find_button file _ _ hov, load_ops E find_button file _ _ hov]
  refine run_ops_twice E _ (file_ops_update E find_button file _) ?_
  intro n hn
  obtain ⟨t, ht, h1, h2⟩ := file_ops_created E find_button file _ n hn
  refine ⟨h2, ?_⟩
  rw [← h1]
  exact hsect t ht (by rw [h1]; exact h2)

/-- C12, as amended, at `sampleFile`: the second load leaves the store of the first,
in which the root and the profile `controls:menu` carry the bindings of the file. -/
theorem C12_reload_idempotent_witness :
    config_load sampleEnv sample_find_button sampleFile false
        (config_load sampleEnv sample_find_button sampleFile false (config_init sampleEnv)) =
      config_load sampleEnv sample_find_button sampleFile false (config_init sampleEnv) ∧
    (config_load sampleEnv sample_find_button sampleFile false (config_init sampleEnv)).map
        (fun c => (c.name, (c.button 0).keycode, (c.button 0).action, (c.button 1).keycode,
          (c.button 1).modifier, (c.button 1).repeat))
      = [("controls".toList, 59, 0, 59, 0, true),
         ("controls:menu".toList, 0, 4, 35, 1, false)] :=
  ⟨C12_reload_idempotent sampleEnv sample_find_button sampleFile false (by decide) (by decide),
   by decide⟩

/-- C12 fails as stated.  In `overlayFile` the profile `controls:x` overlays
`controls:y` before the section of `controls:y`: the first load finds no such profile
and leaves button `a` of `controls:x` unbound, the second load finds the profile the
first one made and copies its binding of `a`.  And a section name longer than the name
field gives a new profile at every line of every load (the defect of `config_create`
with cut names), so the second load of `longSectionFile` leaves five profiles where
the first left three. -/
theorem C12_reload_idempotent_counterexample :
    (config_load sampleEnv sample_find_button overlayFile false (config_init sampleEnv)).map
        (fun c => (c.name, (c.button 0).keycode))
      = [("controls".toList, 0), ("controls:y".toList, 59), ("controls:x".toList, 0)] ∧
    (config_load sampleEnv sample_find_button overlayFile false
        (config_load sampleEnv sample_find_button overlayFile false
          (config_init sampleEnv))).map
        (fun c => (c.name, (c.button 0).keycode))
      = [("controls".toList, 0), ("controls:y".toList, 59), ("controls:x".toList, 59)] ∧
    (config_load sampleEnv sample_find_button longSectionFile false
        (config_init sampleEnv)).length = 3 ∧
    (config_load sampleEnv sample_find_button longSectionFile false
        (config_load sampleEnv sample_find_button longSectionFile false
          (config_init sampleEnv))).length = 5 := by
  decide

/-! ## C21: what config_overlay_named leaves alone -/

theorem getElem?_set_other (l : Store) (p q : Nat) (c : gptokeyb_config) (h : q ≠ p) :
    (l.set p c)[q]? = l[q]? := by
  rw [List.getElem?_set]
  rw [if_neg (fun e => h e.symm)]

theorem overlay_record_frame (E : Env) (o b : gptokeyb_button) :
    (overlay_record E o b).repeat = b.repeat ∧
    ((overlay_record E o b).cfg_name.drop (E.MAX_CONTROL_NAME - 1)
      = b.cfg_name.drop (E.MAX_CONTROL_NAME - 1)) ∧
    ((overlay_record E o b).action < ACT_STATE_HOLD →
      (overlay_record E o b).cfg_name = b.cfg_name) := by
  refine ⟨rfl, ?_, ?_⟩
  · show (if o.action ≥ ACT_STATE_HOLD then
        strncpy b.cfg_name (cstr o.cfg_name) (E.MAX_CONTROL_NAME - 1) else b.cfg_name).drop _ = _
    split_ifs
    · exact drop_strncpy _ _ _
    · rfl
  · intro h
    have h1 : ¬ o.action ≥ ACT_STATE_HOLD := by
      have : o.action < ACT_STATE_HOLD := h
      omega
    show (if o.action ≥ ACT_STATE_HOLD then
        strncpy b.cfg_name (cstr o.cfg_name) (E.MAX_CONTROL_NAME - 1) else b.cfg_name) = _
    rw [if_neg h1]

/-- What the loop of `config_overlay_named` leaves of the destination. -/
theorem overlay_named_loop_frame (E : Env) (other cur : gptokeyb_config) :
    (overlay_named_loop E other cur).name = cur.name ∧
    (∀ i, ((overlay_named_loop E other cur).button i).repeat = (cur.button i).repeat) ∧
    (∀ i, ((overlay_named_loop E other cur).button i).cfg_name.drop (E.MAX_CONTROL_NAME - 1)
      = (cur.button i).cfg_name.drop (E.MAX_CONTROL_NAME - 1)) ∧
    (∀ i, ((overlay_named_loop E other cur).button i).action < ACT_STATE_HOLD →
      ((overlay_named_loop E other cur).button i).cfg_name = (cur.button i).cfg_name) ∧
    (∀ i, GBTN_MAX ≤ i → (overlay_named_loop E other cur).button i = cur.button i) ∧
    (cur.map_check = true → (overlay_named_loop E other cur).map_check = true) := by
  obtain ⟨h1, h2, h3⟩ := overlay_named_loop_spec E other cur
  refine ⟨h2, ?_, ?_, ?_, ?_, ?_⟩
  · intro i
    rw [h1 i]
    split_ifs
    · exact (overlay_record_frame E _ _).1
    · rfl
  · intro i
    rw [h1 i]
    split_ifs
    · exact (overlay_record_frame E _ _).2.1
    · rfl
  · intro i
    rw [h1 i]
    split_ifs
    · exact (overlay_record_frame E _ _).2.2
    · intro _; rfl
  · intro i hi
    rw [h1 i, if_neg (by omega)]
  · intro hm
    rw [h3, hm]
    rfl

/-- C21: `config_overlay_named(dst, name)` changes nothing except the keycode,
modifier, action and `cfg_name` of the concrete records of `dst` and the `map_check`
of `dst`.  For every store, every profile `dst` of it and every name: the chain has
the same length and the same profile names in the same order; every profile other
than `dst`, the source included, is unchanged; and in `dst` the name stays, the repeat
flag of every record stays (it is not copied from the source), the records at indices
from `GBTN_MAX` on stay whole, a `map_check` that was true stays true, and of
`cfg_name` the bytes from `MAX_CONTROL_NAME - 1` on stay, as does the whole array of
every record whose action afterwards is below `hold_state`. -/
theorem C21_overlay_frame (E : Env) (store : Store) (dst : Nat) (d : gptokeyb_config)
    (name : List Char) (hd : store[dst]? = some d) :
    (config_overlay_named E store dst name).length = store.length ∧
    (config_overlay_named E store dst name).map (fun c => c.name)
      = store.map (fun c => c.name) ∧
    (∀ q, q ≠ dst → (config_overlay_named E store dst name)[q]? = store[q]?) ∧
    ∃ d1, (config_overlay_named E store dst name)[dst]? = some d1 ∧
      d1.name = d.name ∧
      (∀ i, (d1.button i).repeat = (d.button i).repeat) ∧
      (∀ i, (d1.button i).cfg_name.drop (E.MAX_CONTROL_NAME - 1)
        = (d.button i).cfg_name.drop (E.MAX_CONTROL_NAME - 1)) ∧
      (∀ i, (d1.button i).action < ACT_STATE_HOLD →
        (d1.button i).cfg_name = (d.button i).cfg_name) ∧
      (∀ i, GBTN_MAX ≤ i → d1.button i = d.button i) ∧
      (d.map_check = true → d1.map_check = true) := by
  have same : config_overlay_named E store dst name = store →
      (config_overlay_named E store dst name).length = store.length ∧
      (∀ q, q ≠ dst → (config_overlay_named E store dst name)[q]? = store[q]?) ∧
      ∃ d1, (config_overlay_named E store dst name)[dst]? = some d1 ∧
        d1.name = d.name ∧
        (∀ i, (d1.button i).repeat = (d.button i).repeat) ∧
        (∀ i, (d1.button i).cfg_name.drop (E.MAX_CONTROL_NAME - 1)
          = (d.button i).cfg_name.drop (E.MAX_CONTROL_NAME - 1)) ∧
        (∀ i, (d1.button i).action < ACT_STATE_HOLD →
          (d1.button i).cfg_name = (d.button i).cfg_name) ∧
        (∀ i, GBTN_MAX ≤ i → d1.button i = d.button i) ∧
        (d.map_check = true → d1.map_check = true) := by
    intro e
    rw [e]
    exact ⟨rfl, fun _ _ => rfl, d, hd, rfl, fun _ => rfl, fun _ => rfl, fun _ _ => rfl,
      fun _ _ => rfl, fun h => h⟩
  have key : (config_overlay_named E store dst name).length = store.length ∧
      (∀ q, q ≠ dst → (config_overlay_named E store dst name)[q]? = store[q]?) ∧
      ∃ d1, (config_overlay_named E store dst name)[dst]? = some d1 ∧
        d1.name = d.name ∧
        (∀ i, (d1.button i).repeat = (d.button i).repeat) ∧
        (∀ i, (d1.button i).cfg_name.drop (E.MAX_CONTROL_NAME - 1)
          = (d.button i).cfg_name.drop (E.MAX_CONTROL_NAME - 1)) ∧
        (∀ i, (d1.button i).action < ACT_STATE_HOLD →
          (d1.button i).cfg_name = (d.button i).cfg_name) ∧
        (∀ i, GBTN_MAX ≤ i → d1.button i = d.button i) ∧
        (d.map_check = true → d1.map_check = true) := by
    cases hf : config_find E store name with
    | none =>
      refine same ?_
      unfold config_overlay_named
      rw [hf]
    | some other =>
      by_cases hne : dst = other
      · refine same ?_
        unfold config_overlay_named
        rw [hf]
        exact if_pos hne
      · cases hs : store[other]? with
        | none =>
          refine same ?_
          unfold config_overlay_named
          rw [hf]
          simp only [hne, if_false, hd, hs]
        | some s =>
          rw [config_overlay_named_eq E store dst other d s name hd hs hne hf]
          have hlt : dst < store.length := by
            rcases Nat.lt_or_ge dst store.length with h | h
            · exact h
            · rw [List.getElem?_eq_none h] at hd; cases hd
          refine ⟨List.length_set _ _ _, fun q hq => getElem?_set_other _ _ _ _ hq,
            overlay_named_loop E s d, List.getElem?_set_self hlt, ?_⟩
          exact overlay_named_loop_frame E s d
  exact ⟨key.1, config_overlay_named_names E store dst name, key.2⟩

/-- C21 at `repeatStore`, the root overlaying `controls:menu`: button `a` of the root
takes the action `state_push` and the target `x` of the source and `map_check` is
raised, its repeat flag stays set, and the profile `controls:menu` is as before. -/
theorem C21_overlay_frame_witness :
    (config_overlay_named sampleEnv repeatStore 0 "menu".toList).map (fun c => c.name)
      = ["controls".toList, "controls:menu".toList] ∧
    (config_overlay_named sampleEnv repeatStore 0 "menu".toList)[1]? = repeatStore[1]? ∧
    (repeatStore.map (fun c =>
        ((c.button 0).keycode, (c.button 0).action, (c.button 0).repeat, c.map_check)))
      = [(59, 0, true, false), (0, 5, false, true)] ∧
    ((config_overlay_named sampleEnv repeatStore 0 "menu".toList).map (fun c =>
        ((c.button 0).keycode, (c.button 0).action, (c.button 0).repeat, c.map_check,
          cstr (c.button 0).cfg_name)))
      = [(0, 5, true, true, "x".toList), (0, 5, false, true, "x".toList)] :=
  ⟨(C21_overlay_frame sampleEnv repeatStore 0 repeatRoot "menu".toList rfl).2.1,
   (C21_overlay_frame sampleEnv repeatStore 0 repeatRoot "menu".toList rfl).2.2.1 1
     (by decide),
   by decide, by decide⟩

end Gptokeyb
